import Mathlib

/-!
The `cxxnet` network assembly, configuration binding and trainer bookkeeping.

A shallow embedding of `src/cxxnet/nnet/cxxnet_nnet-inl.hpp`.

Conventions of the embedding.

* A fatal `Assert` / `Error` is the result `none` of an `Option`-valued function.
* C strings are `String`s; `strcmp(a, b) == 0` is `a = b` and
  `strncmp(name, "layer[", 6) == 0` is a prefix test on the character list.
* Signed machine integers (`int`, `int64_t`) are `Int`.  Signed overflow is undefined behaviour
  in C++, so the embedding describes the executions that are free of it.
* Unsigned arithmetic (`index_t`, `unsigned`) is `Nat` with an explicit `% 2 ^ 32` wherever the
  source computes a value that can wrap.
* Numbers read from text (`sscanf`, `atoi`, `atol`) are converted as the C library does on a
  platform whose `long` has 64 bits: the digits are converted as by `strtol` / `strtoul`, which
  saturate at the bounds of `long` / `unsigned long`, and the result is stored in the 32-bit
  `int` or `unsigned`, which keeps its low 32 bits.
* `float` values are rationals (`ℚ`): the claims treated here are stated in exact arithmetic.
  The conversion of a `float` to `index_t` truncates and keeps the low 32 bits.
* Objects that live outside this file (layers, updaters, the layer-type table, `exp`) appear as
  parameters or as logs of the calls made to them.
-/

namespace cxxnet

/-! ## C library scanning primitives (`sscanf`, `atoi`) -/

/-- The C-locale `isspace` predicate. -/
def isspace (c : Char) : Bool :=
  c == ' ' || c == '\t' || c == '\n' || c == '\x0b' || c == '\x0c' || c == '\r'

/-- Drop leading white space, as every numeric conversion of `sscanf` and `atoi` does. -/
def skipSpace : List Char → List Char
  | [] => []
  | c :: cs => if isspace c then skipSpace cs else c :: cs

/-- Value of a decimal digit character. -/
def digitVal (c : Char) : Option Nat :=
  if '0' ≤ c ∧ c ≤ '9' then some (c.toNat - '0'.toNat) else none

/-- Consume the longest run of decimal digits, accumulating its value on top of `acc`. -/
def scanDigits : List Char → Nat → Nat × List Char
  | [], acc => (acc, [])
  | c :: cs, acc =>
    match digitVal c with
    | some d => scanDigits cs (acc * 10 + d)
    | none => (acc, c :: cs)

/-- A non-empty run of decimal digits: its value and the unread rest. -/
def scanNat (s : List Char) : Option (Nat × List Char) :=
  match s with
  | [] => none
  | c :: cs =>
    match digitVal c with
    | some d => some (scanDigits cs d)
    | none => none

/-- The subject sequence of a signed or unsigned decimal conversion (`%d`, `%u`, `strtol`):
white space, an optional sign, then at least one digit.  The result tells whether there was a
minus sign, the value of the digits, and the unread rest. -/
def scanSigned (s : List Char) : Option ((Bool × Nat) × List Char) :=
  match skipSpace s with
  | '-' :: cs => (scanNat cs).map fun r => ((true, r.1), r.2)
  | '+' :: cs => (scanNat cs).map fun r => ((false, r.1), r.2)
  | cs => (scanNat cs).map fun r => ((false, r.1), r.2)

/-- The value the C library converts a signed subject sequence to (`strtol`, with a `long` of
64 bits): the digits with their sign, saturated to the range of `long`. -/
def strtol_value (neg : Bool) (v : Nat) : Int :=
  if neg then max (-(v : Int)) (-(2 ^ 63)) else min (v : Int) (2 ^ 63 - 1)

/-- The value the C library converts an unsigned subject sequence to (`strtoul`, with an
`unsigned long` of 64 bits): the largest value when the digits exceed it, otherwise the value
of the digits, negated in 64-bit unsigned arithmetic after a minus sign. -/
def strtoul_value (neg : Bool) (v : Nat) : Nat :=
  if 2 ^ 64 ≤ v then 2 ^ 64 - 1
  else if neg then (2 ^ 64 - v) % 2 ^ 64 else v

/-- Storing an integer in an `int`: its low 32 bits, read in two's complement. -/
def to_int (i : Int) : Int := (i + 2 ^ 31) % 2 ^ 32 - 2 ^ 31

/-- The `%d` conversion into an `int`: the subject sequence is converted as by `strtol` and
the result is stored in the 32-bit `int`. -/
def scanInt (s : List Char) : Option (Int × List Char) :=
  (scanSigned s).map fun r => (to_int (strtol_value r.1.1 r.1.2), r.2)

/-- The `%u` conversion into an `unsigned`: the subject sequence is converted as by `strtoul`
and the result is stored in the 32-bit `unsigned`. -/
def scanUInt (s : List Char) : Option (Nat × List Char) :=
  (scanSigned s).map fun r => (strtoul_value r.1.1 r.1.2 % 2 ^ 32, r.2)

/-- Match the ordinary characters `lit` of a format string against the input. -/
def scanLit : List Char → List Char → Option (List Char)
  | [], s => some s
  | _ :: _, [] => none
  | l :: ls, c :: cs => if l = c then scanLit ls cs else none

/-- The call `atol(val)`, which is `strtol(val, NULL, 10)`: the leading integer of the string
as a `long`, `0` when there is none. -/
def atol (val : String) : Int :=
  match scanSigned val.data with
  | some r => strtol_value r.1.1 r.1.2
  | none => 0

/-- The call `atoi(val)`, which is `(int) strtol(val, NULL, 10)`. -/
def atoi (val : String) : Int := to_int (atol val)

/-- The call `sscanf(val, "%u,%u,%u", &z, &y, &x)`: `some (z, y, x)` exactly when it returns 3. -/
def sscanf_uuu (val : String) : Option (Nat × Nat × Nat) :=
  match scanUInt val.data with
  | none => none
  | some (z, r1) =>
    match scanLit [','] r1 with
    | none => none
    | some r2 =>
      match scanUInt r2 with
      | none => none
      | some (y, r3) =>
        match scanLit [','] r3 with
        | none => none
        | some r4 =>
          match scanUInt r4 with
          | none => none
          | some (x, _) => some (z, y, x)

/-- The call `sscanf(name, "layer[%d->%d]", &a, &b)`: `some (a, b)` exactly when it returns 2. -/
def sscanf_layer_abs (name : String) : Option (Int × Int) :=
  match scanLit "layer[".data name.data with
  | none => none
  | some r1 =>
    match scanInt r1 with
    | none => none
    | some (a, r2) =>
      match scanLit "->".data r2 with
      | none => none
      | some r3 =>
        match scanInt r3 with
        | none => none
        | some (b, _) => some (a, b)

/-- The call `sscanf(name, "layer[+%d]", &b)`: `some b` exactly when it returns 1. -/
def sscanf_layer_rel (name : String) : Option Int :=
  match scanLit "layer[+".data name.data with
  | none => none
  | some r1 =>
    match scanInt r1 with
    | none => none
    | some (b, _) => some b

/-- The call `sscanf(val, "%[^:]:%s", ltype, tag)`: `some ltype` exactly when it returns at
least 1, that is when `val` starts with a character other than `':'`; `ltype` is then the
longest prefix free of `':'`. -/
def sscanf_type_tag (val : String) : Option String :=
  match val.data.takeWhile (fun c => c != ':') with
  | [] => none
  | c :: cs => some (String.mk (c :: cs))

/-! ## `NetMetaModel` -/

/-- Modelled from the spec: `mshadow::Shape<3>` is declared in the tensor library.  It is the
3-D input shape without the batch extent; the fields are the extents `shape[0]`, `shape[1]`,
`shape[2]` that this file reads and writes. -/
structure Shape_3 where
  s0 : Nat
  s1 : Nat
  s2 : Nat
  deriving DecidableEq, Repr

/-- Modelled from the spec: `mshadow::Shape<4>` is declared in the tensor library.  A node's
shape is 4-D (batch, channel, height, width); `InitNodes` prints it as
`s[3], s[2], s[1], s[0]`, so `shape[3]` is the batch extent, `shape[2]` the channel,
`shape[1]` the height and `shape[0]` the width. -/
structure Shape_4 where
  s0 : Nat
  s1 : Nat
  s2 : Nat
  s3 : Nat
  deriving DecidableEq, Repr

/-- Modelled from the spec: the helper `mshadow::Shape4( s3, s2, s1, s0 )` of the tensor
library builds a shape from its extents, the highest dimension (the batch) first. -/
def Shape4 (s3 s2 s1 s0 : Nat) : Shape_4 := ⟨s0, s1, s2, s3⟩

/-- Modelled from the spec: `index_t` is declared in the tensor library; it is a 32-bit
unsigned integer (`%u` in `InitNodes`, `uint32` in the inference file format).  This is the
conversion of an `int` to it. -/
def to_index_t (i : Int) : Nat := (i % 2 ^ 32).toNat

/-- The record `NetMetaModel::Param`. -/
structure Param where
  num_nodes : Int
  num_layers : Int
  shape_in : Shape_3
  init_end : Int
  num_epoch_passed : Int
  reserved_flag : Int
  deriving DecidableEq, Repr

/-- The constructor `Param( void )`, run on storage whose previous content is `p`: it assigns
three fields and leaves `num_nodes`, `num_layers` and `shape_in` as they were. -/
def Param.ctor (p : Param) : Param :=
  { p with init_end := 0, num_epoch_passed := 0, reserved_flag := 0 }

/-- The method `Param::GetShapeIn( nbatch )`. -/
def Param.GetShapeIn (p : Param) (nbatch : Nat) : Shape_4 :=
  if p.shape_in.s2 = 1 ∧ p.shape_in.s1 = 1 then
    Shape4 1 1 nbatch p.shape_in.s0
  else
    Shape4 nbatch p.shape_in.s2 p.shape_in.s1 p.shape_in.s0

/-- The record `NetMetaModel::LayerInfo`; the derived equality is its `operator==`. -/
structure LayerInfo where
  type : Int
  nindex_in : Int
  nindex_out : Int
  deriving DecidableEq, Repr

/-- The structure `NetMetaModel`. -/
structure NetMetaModel where
  param : Param
  layers : List LayerInfo
  deriving DecidableEq, Repr

/-- A freshly constructed `NetMetaModel`: constructed parameter block, no layers. -/
def NetMetaModel.fresh (garbage : Param) : NetMetaModel :=
  { param := garbage.ctor, layers := [] }

/-- The method `NetMetaModel::SetParam`. -/
def NetMetaModel.SetParam (m : NetMetaModel) (name val : String) : Option NetMetaModel :=
  let m1 : NetMetaModel :=
    if name = "reset_epoch" then { m with param := { m.param with num_epoch_passed := atol val } }
    else m
  if m1.param.init_end ≠ 0 then some m1
  else if name = "input_shape" then
    match sscanf_uuu val with
    | none => none
    | some (z, y, x) => some { m1 with param := { m1.param with shape_in := ⟨x, y, z⟩ } }
  else some m1

/-- The loop of `NetMetaModel::InitModel`, started at layer `i` with `num_nodes = acc`. -/
def InitModel_loop : List LayerInfo → Int → Int
  | [], acc => acc
  | l :: ls, acc => InitModel_loop ls (max (l.nindex_out + 1) acc)

/-- The method `NetMetaModel::InitModel`. -/
def NetMetaModel.InitModel (m : NetMetaModel) : NetMetaModel :=
  { m with param := { m.param with
      num_nodes := InitModel_loop m.layers 0
      num_layers := (m.layers.length : Int)
      init_end := 1 } }

/-- The method `NetMetaModel::LastNode`. -/
def NetMetaModel.LastNode (m : NetMetaModel) : Int :=
  match m.layers.getLast? with
  | none => 0
  | some l => l.nindex_out

/-! ## `NetConfigHelper` -/

/-- The state of a `NetConfigHelper`, together with the meta-model it refers to. -/
structure NetConfigHelper where
  meta : NetMetaModel
  updater_type : String
  netcfg : List (String × String)
  defcfg : List (String × String)
  batch_size : Int
  netcfg_mode : Int
  deriving DecidableEq, Repr

/-- The constructor `NetConfigHelper( meta )`. -/
def NetConfigHelper.ctor (m : NetMetaModel) : NetConfigHelper :=
  { meta := m, updater_type := "sgd", netcfg := [], defcfg := [], batch_size := 100,
    netcfg_mode := 0 }

/-- The test `!strncmp( name, "layer[", 6 )`. -/
def isLayerDirective (name : String) : Bool := "layer[".data.isPrefixOf name.data

/-- The method `NetConfigHelper::GetLayerInfo`.  The table `GetLayerType` is declared outside
this file and is a parameter; `none` stands for its fatal error on an unknown type name. -/
def GetLayerInfo (GetLayerType : String → Option Int) (name val : String) (top_node : Int) :
    Option LayerInfo :=
  let ab : Option (Int × Int) :=
    match sscanf_layer_abs name with
    | some (a, b) => some (a, b)
    | none =>
      match sscanf_layer_rel name with
      | none => none
      | some b => some (top_node, b + top_node)
  match ab with
  | none => none
  | some (a, b) =>
    match sscanf_type_tag val with
    | none => none
    | some ltype =>
      match GetLayerType ltype with
      | none => none
      | some t => some { type := t, nindex_in := a, nindex_out := b }

/-- The part of `NetConfigHelper::SetParam` guarded by `!strncmp( name, "layer[", 6 )`. -/
def SetParam_layer (GetLayerType : String → Option Int) (h : NetConfigHelper)
    (name val : String) : Option NetConfigHelper :=
  if isLayerDirective name then
    let h1 : NetConfigHelper := { h with netcfg_mode := 2 }
    if h1.meta.param.init_end = 0 then
      match GetLayerInfo GetLayerType name val h1.meta.LastNode with
      | none => none
      | some inf =>
        let layers := h1.meta.layers ++ [inf]
        some { h1 with meta :=
          { param := { h1.meta.param with num_layers := (layers.length : Int) }
            layers := layers } }
    else some h1
  else some h

/-- The assignments of `NetConfigHelper::SetParam` between the call of `meta.SetParam` and the
test for `layer[`. -/
def SetParam_fields (h1 : NetConfigHelper) (name val : String) : NetConfigHelper :=
  let h2 : NetConfigHelper :=
    if name = "batch_size" then { h1 with batch_size := atoi val } else h1
  let h3 : NetConfigHelper :=
    if name = "updater" then { h2 with updater_type := val } else h2
  let h4 : NetConfigHelper :=
    if name = "netconfig" ∧ val = "start" then { h3 with netcfg_mode := 1 } else h3
  if name = "netconfig" ∧ val = "end" then { h4 with netcfg_mode := 0 } else h4

/-- The method `NetConfigHelper::SetParam`. -/
def NetConfigHelper.SetParam (GetLayerType : String → Option Int) (h : NetConfigHelper)
    (name val : String) : Option NetConfigHelper :=
  match h.meta.SetParam name val with
  | none => none
  | some m =>
    match SetParam_layer GetLayerType (SetParam_fields { h with meta := m } name val)
        name val with
    | none => none
    | some h6 =>
      if h6.netcfg_mode = 2 then some { h6 with netcfg := h6.netcfg ++ [(name, val)] }
      else some { h6 with defcfg := h6.defcfg ++ [(name, val)] }

/-- A sequence of directives fed to `NetConfigHelper::SetParam`, one call each, in order. -/
def SetParams (GetLayerType : String → Option Int) :
    NetConfigHelper → List (String × String) → Option NetConfigHelper
  | h, [] => some h
  | h, d :: ds =>
    match h.SetParam GetLayerType d.1 d.2 with
    | none => none
    | some h1 => SetParams GetLayerType h1 ds

/-- The configuration a layer object has received: its `ILayer::SetParam` calls, in order. -/
abbrev LayerLog := List (String × String)

/-- The call `layers[ layer_index ]->SetParam( name, val )`; an index outside the vector is not
a defined access and gives `none`. -/
def layer_SetParam (layers : List LayerLog) (layer_index : Int) (d : String × String) :
    Option (List LayerLog) :=
  if 0 ≤ layer_index ∧ layer_index.toNat < layers.length then
    some (layers.set layer_index.toNat (layers.getD layer_index.toNat [] ++ [d]))
  else none

/-- The inner loop of `ConfigLayers` that forwards every `defcfg` entry to one layer. -/
def layer_SetParams (layers : List LayerLog) (layer_index : Int) :
    List (String × String) → Option (List LayerLog)
  | [] => some layers
  | d :: ds =>
    match layer_SetParam layers layer_index d with
    | none => none
    | some layers1 => layer_SetParams layers1 layer_index ds

/-- The local state of the first replay loop of `ConfigLayers`. -/
structure BindState where
  layer_index : Int
  top_node : Int
  layers : List LayerLog
  deriving DecidableEq, Repr

/-- One iteration of the first replay loop of `NetConfigHelper::ConfigLayers`, on the `netcfg`
entry `d`. -/
def ConfigLayers_step (GetLayerType : String → Option Int) (h : NetConfigHelper)
    (s : BindState) (d : String × String) : Option BindState :=
  if isLayerDirective d.1 then
    let layer_index := s.layer_index + 1
    if layer_index ≥ 0 ∧ layer_index < h.meta.param.num_layers then
      match GetLayerInfo GetLayerType d.1 d.2 s.top_node with
      | none => none
      | some inf =>
        match h.meta.layers.get? layer_index.toNat with
        | none => none
        | some l =>
          if inf = l then
            match layer_SetParams s.layers layer_index h.defcfg with
            | none => none
            | some layers1 =>
              some { layer_index := layer_index, top_node := inf.nindex_out, layers := layers1 }
          else none
    else none
  else
    if s.layer_index ≥ 0 then
      match layer_SetParam s.layers s.layer_index d with
      | none => none
      | some layers1 => some { s with layers := layers1 }
    else none

/-- The first replay loop of `NetConfigHelper::ConfigLayers` over the entries of `netcfg`. -/
def ConfigLayers_loop (GetLayerType : String → Option Int) (h : NetConfigHelper) :
    BindState → List (String × String) → Option BindState
  | s, [] => some s
  | s, d :: ds =>
    match ConfigLayers_step GetLayerType h s d with
    | none => none
    | some s1 => ConfigLayers_loop GetLayerType h s1 ds

/-- Modelled from the spec: `Node` is declared in the core header.  It is an activation
buffer with a 4-D shape; the storage is kept as one list per row of `shape[0]` entries
(`shape[3] * shape[2] * shape[1]` rows), so that `data[0][0]` is the first `shape[1]` rows. -/
structure Node where
  shape : Shape_4
  data : List (List ℚ)
  deriving DecidableEq, Repr

/-- The binding pass of `NetConfigHelper::ConfigLayers` up to and including the assignment
`nodes[0].data.shape = meta.param.GetShapeIn( batch_size )`: the first replay loop, then the
shape of node 0.  It returns the nodes and the configuration each layer has received.  What
follows in the source (`InitLayer`, `InitModel`, the updaters) belongs to the layer and updater
objects. -/
def ConfigLayers_bind (GetLayerType : String → Option Int) (h : NetConfigHelper)
    (nodes : List Node) (layers : List LayerLog) : Option (List Node × List LayerLog) :=
  match ConfigLayers_loop GetLayerType h
      { layer_index := -1, top_node := 0, layers := layers } h.netcfg with
  | none => none
  | some s =>
    match nodes with
    | [] => none
    | n0 :: rest =>
      some ({ n0 with shape := h.meta.param.GetShapeIn (to_index_t h.batch_size) } :: rest,
            s.layers)

/-! ## `NeuralNet` -/

/-- The calls a run makes that are visible from outside the object making them. -/
inductive Event where
  | ForwardBackprop
  | net_Update
  | updater_Update (i : Nat) (epoch : Int)
  | layer_Backprop (i : Nat) (prop_grad : Bool)
  deriving DecidableEq, Repr

/-- The loop of `NeuralNet::Backprop` from `i` down to `1`: the calls
`layers[i-1]->Backprop( i != 1 || prop_to_firstlayer )` it makes, in order. -/
def Backprop_loop : Nat → Bool → List Event
  | 0, _ => []
  | i + 1, prop_to_firstlayer =>
    Event.layer_Backprop i (decide (i + 1 ≠ 1) || prop_to_firstlayer)
      :: Backprop_loop i prop_to_firstlayer

/-- The method `NeuralNet::Backprop` of a network with `num_layers` layer objects. -/
def NeuralNet.Backprop (num_layers : Nat) (prop_to_firstlayer : Bool) : List Event :=
  Backprop_loop num_layers prop_to_firstlayer

/-- The loop of `NeuralNet::Update` over the updaters `i, i+1, ...` (`n` of them remain). -/
def Update_loop (epoch : Int) : Nat → Nat → List Event
  | 0, _ => []
  | n + 1, i => Event.updater_Update i epoch :: Update_loop epoch n (i + 1)

/-! ## `CXXNetTrainer` -/

/-- The fields of a `CXXNetTrainer` (and of its network) that `ForwardBackprop` and `Update`
read or write, the state `σ` of the layer and updater objects, and the log of calls made. -/
structure Trainer (σ : Type) where
  objects : σ
  num_updaters : Nat
  num_epoch_passed : Int
  update_period : Int
  sample_counter : Int
  log : List Event

/-- The behaviour of the objects outside this file, as far as a training step uses it:
`pass` is the part of `ForwardBackprop` from `MakeInput` to `net.Backprop` (which may abort)
and `update i epoch` is `updaters[i]->Update( epoch )`. -/
structure External (σ : Type) where
  pass : σ → Option σ
  update : Nat → Int → σ → σ

/-- The effect of the loop of `NeuralNet::Update` on the objects. -/
def Update_objects {σ : Type} (ext : External σ) (epoch : Int) : Nat → Nat → σ → σ
  | 0, _, o => o
  | n + 1, i, o => Update_objects ext epoch n (i + 1) (ext.update i epoch o)

/-- The method `NeuralNet::Update`. -/
def NeuralNet.Update {σ : Type} (ext : External σ) (t : Trainer σ) : Trainer σ :=
  { t with
    objects := Update_objects ext t.num_epoch_passed t.num_updaters 0 t.objects
    log := t.log ++ Event.net_Update :: Update_loop t.num_epoch_passed t.num_updaters 0
    num_epoch_passed := t.num_epoch_passed + 1 }

/-- The method `CXXNetTrainer::ForwardBackprop`. -/
def ForwardBackprop {σ : Type} (ext : External σ) (t : Trainer σ) : Option (Trainer σ) :=
  match ext.pass t.objects with
  | none => none
  | some o =>
    let t1 : Trainer σ :=
      { t with objects := o, log := t.log ++ [Event.ForwardBackprop],
               sample_counter := t.sample_counter + 1 }
    if t1.sample_counter ≥ t1.update_period then
      some { NeuralNet.Update ext t1 with sample_counter := 0 }
    else some t1

/-- The first `n` calls of `ForwardBackprop`. -/
def ForwardBackprops {σ : Type} (ext : External σ) : Nat → Trainer σ → Option (Trainer σ)
  | 0, t => some t
  | n + 1, t =>
    match ForwardBackprops ext n t with
    | none => none
    | some t1 => ForwardBackprop ext t1

/-- The conversion `static_cast<index_t>( label )` of a `float`: truncation toward zero, of
which the low 32 bits are kept.  The language defines the conversion when the truncated value
is an `index_t`; outside that range this is the value the compiled conversion gives, which
goes through a 64-bit integer (so `-1` becomes `4294967295` and `4294967296` becomes `0`). -/
def float_to_index_t (label : ℚ) : Nat := to_index_t (Int.tdiv label.num label.den)

/-- The method `CXXNetTrainer::SetLoss( pred, label )` for one instance.  The function `exp`
is the library exponential. -/
def SetLoss_inst (exp : ℚ → ℚ) (loss_type : Int) (pred : List ℚ) (label : ℚ) :
    Option (List ℚ) :=
  if loss_type = 0 then
    let k := float_to_index_t label
    if k < pred.length then some (pred.set k (pred.getD k 0 - 1)) else none
  else if loss_type = 1 then some (pred.set 0 (pred.getD 0 0 - label))
  else if loss_type = 2 then some (pred.set 0 (1 / (1 + exp (-(pred.getD 0 0))) - label))
  else none

/-- Modelled from the spec: the staging buffer `temp` is a 2-D tensor of the tensor library,
one row per instance of the batch; `shape[1]` is the number of rows and `shape[0]` their
length. -/
structure Tensor2 where
  shape0 : Nat
  rows : List (List ℚ)
  deriving DecidableEq, Repr

/-- The loop of `SetLoss( labels )` over the rows `temp[i]`, from row `i` on. -/
def SetLoss_rows (exp : ℚ → ℚ) (loss_type : Int) (labels : Nat → ℚ) :
    Nat → List (List ℚ) → Option (List (List ℚ))
  | _, [] => some []
  | i, r :: rs =>
    match SetLoss_inst exp loss_type r (labels i) with
    | none => none
    | some r1 =>
      match SetLoss_rows exp loss_type labels (i + 1) rs with
      | none => none
      | some rs1 => some (r1 :: rs1)

/-- The factor `1.0f / ( temp.shape[1] * update_period )`: the product is taken in 32-bit
unsigned arithmetic. -/
def loss_scale (shape1 : Nat) (update_period : Int) : ℚ :=
  1 / (((shape1 * to_index_t update_period) % 2 ^ 32 : Nat) : ℚ)

/-- The method `CXXNetTrainer::SetLoss( labels )`: returns `temp` and the output node.  The
call of `train_metric.AddEval` only reads `temp`.  The library call `mshadow::Copy` requires
equal shapes and aborts otherwise. -/
def SetLoss (exp : ℚ → ℚ) (loss_type update_period : Int) (temp : Tensor2)
    (labels : Nat → ℚ) (out : Node) : Option (Tensor2 × Node) :=
  if (loss_type = 1 ∨ loss_type = 2) ∧ temp.shape0 ≠ 1 then none
  else
    match SetLoss_rows exp loss_type labels 0 temp.rows with
    | none => none
    | some rows1 =>
      if out.shape.s1 = rows1.length ∧ out.shape.s0 = temp.shape0 then
        let copied := rows1 ++ out.data.drop out.shape.s1
        let scale := loss_scale temp.rows.length update_period
        some ({ temp with rows := rows1 },
              { out with data := copied.map fun r => r.map fun x => x * scale })
      else none

/-! ## Serialisation of the meta-model -/

/-- Modelled from the spec: `IStream` is declared in the tensor library.  The persisted model
is a sequential binary stream of fixed-size records without length prefixes; a stream is kept
as the sequence of scalar cells written to it, the object representation of one scalar field
being one cell. -/
abbrev Stream := List Int

/-- The object representation of a `Param`, field by field in declaration order. -/
def Param.cells (p : Param) : List Int :=
  [p.num_nodes, p.num_layers, (p.shape_in.s0 : Int), (p.shape_in.s1 : Int),
   (p.shape_in.s2 : Int), p.init_end, p.num_epoch_passed, p.reserved_flag]

/-- The `Param` whose object representation is `c` (eight cells). -/
def Param.ofCells (c : List Int) : Param :=
  { num_nodes := c.getD 0 0, num_layers := c.getD 1 0,
    shape_in := ⟨(c.getD 2 0).toNat, (c.getD 3 0).toNat, (c.getD 4 0).toNat⟩,
    init_end := c.getD 5 0, num_epoch_passed := c.getD 6 0, reserved_flag := c.getD 7 0 }

/-- The object representation of a `LayerInfo`. -/
def LayerInfo.cells (l : LayerInfo) : List Int := [l.type, l.nindex_in, l.nindex_out]

/-- The object representation of the array `layers`. -/
def layers_cells : List LayerInfo → List Int
  | [] => []
  | l :: ls => l.cells ++ layers_cells ls

/-- The array of `LayerInfo` whose object representation is the given cells. -/
def layers_ofCells : List Int → List LayerInfo
  | t :: a :: b :: rest => { type := t, nindex_in := a, nindex_out := b } :: layers_ofCells rest
  | _ => []

/-- The call `fi.Read( ptr, size )` on `size` cells: the cells obtained (fewer than `size` at
the end of the stream) and the rest of the stream. -/
def Stream.Read (fi : Stream) (size : Nat) : List Int × Stream := (fi.take size, fi.drop size)

/-- Memory of which the leading cells have been overwritten by the cells read. -/
def overwrite (old got : List Int) : List Int := got ++ old.drop got.length

/-- The call `layers.resize( n )`: truncation, or padding with zero-initialised records. -/
def resize (layers : List LayerInfo) (n : Nat) : List LayerInfo :=
  layers.take n ++ List.replicate (n - layers.length) { type := 0, nindex_in := 0, nindex_out := 0 }

/-- The method `NetMetaModel::SaveModel`. -/
def NetMetaModel.SaveModel (m : NetMetaModel) (fo : Stream) : Stream :=
  fo ++ m.param.cells ++ layers_cells m.layers

/-- The method `NetMetaModel::LoadModel`; it returns the model and the unread stream.  A
negative `num_layers` makes `resize` fail. -/
def NetMetaModel.LoadModel (m : NetMetaModel) (fi : Stream) : Option (NetMetaModel × Stream) :=
  let r := fi.Read 8
  if r.1.length = 0 then none
  else
    let param := Param.ofCells (overwrite m.param.cells r.1)
    if param.num_layers < 0 then none
    else
      let layers := resize m.layers param.num_layers.toNat
      if layers.length ≠ 0 then
        let r2 := r.2.Read (3 * layers.length)
        if r2.1.length = 0 then none
        else
          some ({ param := param, layers := layers_ofCells (overwrite (layers_cells layers) r2.1) },
                r2.2)
      else some ({ param := param, layers := layers }, r.2)

/-! ## Prediction transform -/

/-- The loop of `CXXNetTrainer::GetMaxIndex` from index `i` on, `rest` being the entries
`pred[i], pred[i+1], ...` still to be visited. -/
def GetMaxIndex_loop (pred : List ℚ) : List ℚ → Nat → Nat → Nat
  | [], _, maxidx => maxidx
  | x :: rest, i, maxidx =>
    GetMaxIndex_loop pred rest (i + 1) (if x > pred.getD maxidx 0 then i else maxidx)

/-- The method `CXXNetTrainer::GetMaxIndex`. -/
def GetMaxIndex (pred : List ℚ) : Nat := GetMaxIndex_loop pred (pred.drop 1) 1 0

/-- The method `CXXNetTrainer::TransformPred`; `exp` is the library exponential. -/
def TransformPred (exp : ℚ → ℚ) (loss_type : Int) (pred : List ℚ) : Option ℚ :=
  if loss_type = 0 then some ((GetMaxIndex pred : Nat) : ℚ)
  else if loss_type = 1 then some (pred.getD 0 0)
  else if loss_type = 2 then some (1 / (1 + exp (-(pred.getD 0 0))))
  else none

/-! ## Replay of the layer directives -/

/-- The values `inf` that the first replay loop of `ConfigLayers` derives, one for every
`layer[` entry of `netcfg`, with `top_node` threaded as in the source
(`inf = GetLayerInfo( name, val, top_node ); top_node = inf.nindex_out`). -/
def replay_infos (GetLayerType : String → Option Int) :
    Int → List (String × String) → Option (List LayerInfo)
  | _, [] => some []
  | top_node, d :: ds =>
    if isLayerDirective d.1 then
      match GetLayerInfo GetLayerType d.1 d.2 top_node with
      | none => none
      | some inf =>
        match replay_infos GetLayerType inf.nindex_out ds with
        | none => none
        | some infs => some (inf :: infs)
    else replay_infos GetLayerType top_node ds

/-! ## `CXXAvgNetTrainer` -/

/-- The two ways a run of the averaging trainer stops early: a failed `Assert`, or an access
outside a vector or table (which the language leaves undefined). -/
inductive Fault where
  | abort
  | out_of_bounds
  deriving DecidableEq, Repr

/-- The fields of a `CXXAvgNetTrainer` that the averaging code reads or writes: `cfg` is the
configuration helper of the network (with its meta-model, hence `reserved_flag`), `round` the
field of the base trainer; `avg_pred` is kept as its list of rows. -/
structure AvgTrainer where
  cfg : NetConfigHelper
  round : Int
  num_burn : Int
  num_avg_record : Nat
  ref_counter : List Int
  avg_pred : List (List ℚ)
  deriving DecidableEq, Repr

/-- The constructors `CXXNetTrainer( void )` and `CXXAvgNetTrainer( void )`. -/
def AvgTrainer.ctor (garbage : Param) : AvgTrainer :=
  { cfg := NetConfigHelper.ctor (NetMetaModel.fresh garbage), round := 0,
    num_burn := 2147483647, num_avg_record := 0, ref_counter := [], avg_pred := [] }

/-- The method `CXXAvgNetTrainer::SetParam`.  Of the base method only the call that reaches
`NetConfigHelper::SetParam` is kept: the other fields it assigns are not read by the averaging
code. -/
def AvgTrainer.SetParam (GetLayerType : String → Option Int) (t : AvgTrainer)
    (name val : String) : Option AvgTrainer :=
  match t.cfg.SetParam GetLayerType name val with
  | none => none
  | some c =>
    let t1 : AvgTrainer := { t with cfg := c }
    let t2 : AvgTrainer :=
      if "num_inst" = name then { t1 with num_avg_record := to_index_t (atoi val) } else t1
    if "num_burn" = name then some { t2 with num_burn := atoi val } else some t2

/-- The call `ref_counter.resize( n, 0 )`. -/
def resize_counter (ref_counter : List Int) (n : Nat) : List Int :=
  ref_counter.take n ++ List.replicate (n - ref_counter.length) 0

/-- The method `CXXAvgNetTrainer::InitAvgRecord`; `width` is `s[0]`, the row length of the
output node.  Modelled from the spec: `TensorContainer::Resize( shape, 0.0f )` is declared in
the tensor library; the table is freshly initialised, `num_avg_record` rows of zeros. -/
def AvgTrainer.InitAvgRecord (t : AvgTrainer) (width : Nat) : AvgTrainer :=
  { t with
    ref_counter := resize_counter t.ref_counter t.num_avg_record
    avg_pred := List.replicate t.num_avg_record (List.replicate width 0)
    cfg := { t.cfg with meta := { t.cfg.meta with
      param := { t.cfg.meta.param with reserved_flag := 1 } } } }

/-- The method `CXXAvgNetTrainer::InitModel`.  The base `InitModel` is taken to complete; what
the averaging code sees of it is the frozen meta-model and the row length `width` of the
output node it has built. -/
def AvgTrainer.InitModel (t : AvgTrainer) (width : Nat) : AvgTrainer :=
  AvgTrainer.InitAvgRecord { t with cfg := { t.cfg with meta := t.cfg.meta.InitModel } } width

/-- The method `CXXNetTrainer::StartRound`, inherited; the updaters it notifies are outside
this file. -/
def AvgTrainer.StartRound (t : AvgTrainer) (round : Int) : AvgTrainer :=
  { t with round := round }

/-- The body of the loop of `CXXAvgNetTrainer::PreparePredTemp` for one instance: `ridx` is
`batch.inst_index[ i ]` and `row` is `temp[ i ]`; the result is the trainer and the new
`temp[ i ]`.  The tensor expression requires rows of equal length and aborts otherwise. -/
def avg_body (t : AvgTrainer) (ridx : Nat) (row : List ℚ) :
    Except Fault (AvgTrainer × List ℚ) :=
  if ridx < t.num_avg_record then
    match t.ref_counter.get? ridx with
    | none => Except.error Fault.out_of_bounds
    | some rc =>
      if rc > t.round then Except.ok (t, row)
      else
        let diff : Int := if t.round - t.num_burn < 1 then 1 else t.round - t.num_burn
        let alpha : ℚ := 1 / (diff : ℚ)
        match t.avg_pred.get? ridx with
        | none => Except.error Fault.out_of_bounds
        | some avg =>
          if avg.length = row.length then
            let blended := List.zipWith (fun a x => (1 - alpha) * a + alpha * x) avg row
            Except.ok ({ t with ref_counter := t.ref_counter.set ridx (t.round + 1)
                                avg_pred := t.avg_pred.set ridx blended }, blended)
          else Except.error Fault.abort
  else Except.error Fault.abort

/-- The loop of `CXXAvgNetTrainer::PreparePredTemp` from instance `i` on. -/
def avg_loop (inst_index : Nat → Nat) :
    Nat → AvgTrainer → List (List ℚ) → Except Fault (AvgTrainer × List (List ℚ))
  | _, t, [] => Except.ok (t, [])
  | i, t, row :: rows =>
    match avg_body t (inst_index i) row with
    | Except.error e => Except.error e
    | Except.ok (t1, row1) =>
      match avg_loop inst_index (i + 1) t1 rows with
      | Except.error e => Except.error e
      | Except.ok (t2, rows1) => Except.ok (t2, row1 :: rows1)

/-- The method `CXXAvgNetTrainer::PreparePredTemp`, after the base method has put the raw
predictions of the batch into `temp`; `inst_index` is `batch.inst_index`, `none` when it is
`NULL`. -/
def AvgTrainer.PreparePredTemp (t : AvgTrainer) (inst_index : Option (Nat → Nat))
    (temp : List (List ℚ)) : Except Fault (AvgTrainer × List (List ℚ)) :=
  match inst_index with
  | none => Except.error Fault.abort
  | some f => avg_loop f 0 t temp

/-- Successive rounds of prediction: for every batch in turn, `StartRound( round )` with the
next round number, then one call of `PreparePredTemp` on the batch (its `inst_index` and the
raw predictions the base method has put into `temp`). -/
def avg_rounds : AvgTrainer → Int → List ((Nat → Nat) × List (List ℚ)) →
    Except Fault AvgTrainer
  | t, _, [] => Except.ok t
  | t, round, b :: bs =>
    match (t.StartRound round).PreparePredTemp (some b.1) b.2 with
    | Except.error e => Except.error e
    | Except.ok (t1, _) => avg_rounds t1 (round + 1) bs

/-! ## `CXXNetSparseTrainer` -/

/-- Modelled from the spec: `SparseInst::Entry` is declared with the data batch; a sparse
instance is a list of (feature-index, value) pairs. -/
structure SparseEntry where
  findex : Nat
  fvalue : ℚ
  deriving DecidableEq, Repr

/-- The two statements of the body of the inner loop of `SparseUpdate`:
`Wsp[ findex ] += fvalue * (-learning_rate) * grad` and
`Wsp[ findex ] *= ( 1.0f - learning_rate * wd )`. -/
inductive SparseStmt where
  | add_grad (findex : Nat) (fvalue : ℚ) (grad : List ℚ)
  | decay (findex : Nat)
  deriving DecidableEq, Repr

/-- The row of `Wsp` a statement reads and writes. -/
def SparseStmt.findex : SparseStmt → Nat
  | SparseStmt.add_grad findex _ _ => findex
  | SparseStmt.decay findex => findex

/-- The new content of the row a statement works on; the tensor expression of `add_grad`
requires `grad` to be as long as the row and aborts otherwise. -/
def SparseStmt.apply (lr wd : ℚ) : SparseStmt → List ℚ → Option (List ℚ)
  | SparseStmt.add_grad _ fvalue grad, row =>
    if row.length = grad.length then
      some (List.zipWith (fun w g => w + fvalue * (-lr) * g) row grad)
    else none
  | SparseStmt.decay _, row => some (row.map fun w => w * (1 - lr * wd))

/-- One statement on the table `Wsp` (its list of rows); a row outside the table is not a
defined access and gives `none`. -/
def exec_stmt (lr wd : ℚ) (Wsp : List (List ℚ)) (s : SparseStmt) : Option (List (List ℚ)) :=
  match Wsp.get? s.findex with
  | none => none
  | some row =>
    match s.apply lr wd row with
    | none => none
    | some row1 => some (Wsp.set s.findex row1)

/-- The inner loop of `SparseUpdate` over the entries of one instance, `grad` being
`node_hidden[i]`. -/
def SparseUpdate_line (lr wd : ℚ) (grad : List ℚ) :
    List SparseEntry → List (List ℚ) → Option (List (List ℚ))
  | [], Wsp => some Wsp
  | e :: es, Wsp =>
    match exec_stmt lr wd Wsp (SparseStmt.add_grad e.findex e.fvalue grad) with
    | none => none
    | some W1 =>
      match exec_stmt lr wd W1 (SparseStmt.decay e.findex) with
      | none => none
      | some W2 => SparseUpdate_line lr wd grad es W2

/-- The loop of `CXXNetSparseTrainer::SparseUpdate` over the instances, run by one thread in
the order of the batch.  An instance is the pair of `batch.GetRowSparse(i)` and
`node_hidden[i]`; `lr` and `wd` are `tparam.learning_rate` and `tparam.wd` after
`ScheduleEpoch`. -/
def SparseUpdate (lr wd : ℚ) :
    List (List SparseEntry × List ℚ) → List (List ℚ) → Option (List (List ℚ))
  | [], Wsp => some Wsp
  | inst :: insts, Wsp =>
    match SparseUpdate_line lr wd inst.2 inst.1 Wsp with
    | none => none
    | some W1 => SparseUpdate lr wd insts W1

/-- The statements one instance executes, in program order. -/
def inst_stmts (inst : List SparseEntry × List ℚ) : List SparseStmt :=
  inst.1.flatMap fun e =>
    [SparseStmt.add_grad e.findex e.fvalue inst.2, SparseStmt.decay e.findex]

/-- A sequence of statements executed one after the other. -/
def exec_stmts (lr wd : ℚ) : List SparseStmt → List (List ℚ) → Option (List (List ℚ))
  | [], Wsp => some Wsp
  | s :: rest, Wsp =>
    match exec_stmt lr wd Wsp s with
    | none => none
    | some W1 => exec_stmts lr wd rest W1

/-- The executions of a parallel loop: `Interleaving progs sched` holds when `sched` runs
every statement of every program of `progs` once, each program in its own order, the
programs interleaved in any way. -/
inductive Interleaving : List (List SparseStmt) → List SparseStmt → Prop where
  | done (progs : List (List SparseStmt)) (h : ∀ prog ∈ progs, prog = []) :
      Interleaving progs []
  | step (before after : List (List SparseStmt)) (s : SparseStmt) (prog sched : List SparseStmt)
      (h : Interleaving (before ++ prog :: after) sched) :
      Interleaving (before ++ (s :: prog) :: after) (s :: sched)

/-- The update of one row in the words of the specification, entry by entry:
`Wsp[idx] += value * (-lr) * grad` followed by `Wsp[idx] *= (1 - lr * wd)`. -/
def sgd_row (lr wd value : ℚ) (grad row : List ℚ) : List ℚ :=
  List.zipWith (fun w g => (w + value * (-lr) * g) * (1 - lr * wd)) row grad

/-- The update of the specification for the nonzero entries of one instance, in their order:
the row `Wsp[idx]` of each entry is replaced by its update, the other rows are kept. -/
def SparseUpdate_line_spec (lr wd : ℚ) (grad : List ℚ) (line : List SparseEntry)
    (Wsp : List (List ℚ)) : List (List ℚ) :=
  line.foldl (fun W e => W.set e.findex (sgd_row lr wd e.fvalue grad (W.getD e.findex []))) Wsp

/-- The sequential sparse update in the words of the specification: the instances of the
batch one after the other, each with its gradient row. -/
def SparseUpdate_spec (lr wd : ℚ) (batch : List (List SparseEntry × List ℚ))
    (Wsp : List (List ℚ)) : List (List ℚ) :=
  batch.foldl (fun W inst => SparseUpdate_line_spec lr wd inst.2 inst.1 W) Wsp

/-! ## `NeuralNet::Inference` -/

/-- Modelled from the spec: the inference file holds integers (the header) followed by
floating-point values; this is one value written to it. -/
inductive OutCell where
  | int (v : Int)
  | real (v : ℚ)
  deriving DecidableEq, Repr

/-- The call `layers[i]->Forward( is_train )`.  The layer objects are declared outside this
file; `InitModel` constructs layer `i` on the nodes `nodes[ info.nindex_in ]` and
`nodes[ info.nindex_out ]` of `info = meta.layers[i]`, and `forward i is_train input output`
is the content the layer gives its output node.  A layer or node outside its vector is not a
defined access and gives `none`. -/
def layer_Forward (forward : Nat → Bool → Node → Node → Node) (infos : List LayerInfo)
    (i : Nat) (is_train : Bool) (nodes : List Node) : Option (List Node) :=
  match infos.get? i with
  | none => none
  | some info =>
    if 0 ≤ info.nindex_in ∧ 0 ≤ info.nindex_out then
      match nodes.get? info.nindex_in.toNat, nodes.get? info.nindex_out.toNat with
      | some input, some output =>
        some (nodes.set info.nindex_out.toNat (forward i is_train input output))
      | _, _ => none
    else none

/-- The loop `for( i = 0; i < stop_layer + 1; ++i ) layers[i]->Forward( false )` of
`Inference`, from layer `i` on with `n` layers still to run. -/
def Inference_loop (forward : Nat → Bool → Node → Node → Node) (infos : List LayerInfo) :
    Nat → Nat → List Node → Option (List Node)
  | _, 0, nodes => some nodes
  | i, n + 1, nodes =>
    match layer_Forward forward infos i false nodes with
    | none => none
    | some nodes1 => Inference_loop forward infos (i + 1) n nodes1

/-- The values `tmp[0][0][i][j]` that `Inference` writes for a node, for `i < shape[1]` and
`j < shape[0]`, in this order. -/
def Inference_values (node : Node) : List OutCell :=
  (List.range node.shape.s1).flatMap fun i =>
    (List.range node.shape.s0).map fun j => OutCell.real ((node.data.getD i []).getD j 0)

/-- The method `NeuralNet::Inference`, in a network whose layers are described by `infos`
(one layer object each): it returns the new `header_flag`, the stream and the nodes. -/
def Inference (forward : Nat → Bool → Node → Node → Node) (infos : List LayerInfo)
    (nodes : List Node) (stop_layer total_length header_flag : Int) (fo : List OutCell) :
    Option (Int × List OutCell × List Node) :=
  if stop_layer < (infos.length : Int) ∧ stop_layer > 0 then
    match Inference_loop forward infos 0 (stop_layer + 1).toNat nodes with
    | none => none
    | some nodes1 =>
      match nodes1.get? stop_layer.toNat with
      | none => none
      | some node =>
        if node.shape.s2 = 1 ∧ node.shape.s3 = 1 then
          let header : List OutCell :=
            if header_flag = 0 then [OutCell.int total_length, OutCell.int (node.shape.s0 : Int)]
            else []
          some (if header_flag = 0 then 1 else header_flag,
                fo ++ header ++ Inference_values node, nodes1)
        else none
  else none

/-! ## Names and tables used to state the results -/

/-- The name `layer[+B]`, with `B` written in decimal as `printf("%d")` writes it. -/
def layer_rel_name (B : Int) : String := "layer[+" ++ toString B ++ "]"

/-- An example of a layer-type table (the table of the program is declared outside this
file): two known type names, every other name is a fatal error. -/
def example_GetLayerType (ltype : String) : Option Int :=
  if ltype = "fullc" then some 1 else if ltype = "softmax" then some 2 else none

/-- An example of indeterminate storage for a `Param` about to be constructed. -/
def example_storage : Param :=
  { num_nodes := 7, num_layers := 9, shape_in := ⟨3, 4, 5⟩, init_end := 6,
    num_epoch_passed := 8, reserved_flag := 2 }

/-- An example of an averaging trainer in round 3 with `num_burn = 1`, two records, the first
not yet updated in this round, the second already updated. -/
def example_avg_trainer : AvgTrainer :=
  { cfg := NetConfigHelper.ctor (NetMetaModel.fresh example_storage), round := 3, num_burn := 1,
    num_avg_record := 2, ref_counter := [0, 5], avg_pred := [[1, 2], [3, 4]] }

/-- The `int` that `%d` stores when it reads the decimal rendering of `B`. -/
def scanned_int (B : Int) : Int := to_int (strtol_value (decide (B < 0)) B.natAbs)

/-- The value `Z,Y,X` of an `input_shape` directive, the three extents written in decimal. -/
def input_shape_text (z y x : Nat) : String :=
  toString z ++ "," ++ toString y ++ "," ++ toString x

/-- An example of layer objects: every layer copies its input to its output and adds 1 to
each entry. -/
def example_forward (_ : Nat) (_ : Bool) (input _ : Node) : Node :=
  { shape := input.shape, data := input.data.map fun row => row.map fun x => x + 1 }

/-- An example of the nodes of a chain of three layers, each a `1 x 2` matrix; the input node
holds `1, 2`. -/
def example_nodes : List Node :=
  [⟨Shape4 1 1 1 2, [[1, 2]]⟩, ⟨Shape4 1 1 1 2, [[0, 0]]⟩, ⟨Shape4 1 1 1 2, [[0, 0]]⟩,
   ⟨Shape4 1 1 1 2, [[0, 0]]⟩]

/-! ## `NetMetaModel::InitModel` -/

theorem InitModel_loop_ge_acc (ls : List LayerInfo) (acc : Int) :
    acc ≤ InitModel_loop ls acc := by
  induction ls generalizing acc with
  | nil => simp [InitModel_loop]
  | cons l ls ih =>
    simp only [InitModel_loop]
    exact le_trans (le_max_right _ _) (ih _)

theorem InitModel_loop_ge_mem (ls : List LayerInfo) (acc : Int) :
    ∀ l ∈ ls, l.nindex_out + 1 ≤ InitModel_loop ls acc := by
  induction ls generalizing acc with
  | nil => simp
  | cons l ls ih =>
    intro l1 hl1
    simp only [InitModel_loop]
    rcases List.mem_cons.mp hl1 with h | h
    · subst h
      exact le_trans (le_max_left _ _) (InitModel_loop_ge_acc ls _)
    · exact ih _ l1 h

theorem InitModel_loop_attained (ls : List LayerInfo) (acc : Int) :
    InitModel_loop ls acc = acc ∨ ∃ l ∈ ls, InitModel_loop ls acc = l.nindex_out + 1 := by
  induction ls generalizing acc with
  | nil => simp [InitModel_loop]
  | cons l ls ih =>
    simp only [InitModel_loop]
    rcases ih (max (l.nindex_out + 1) acc) with h | ⟨l1, hl1, h⟩
    · rcases max_cases (l.nindex_out + 1) acc with ⟨hm, _⟩ | ⟨hm, _⟩
      · right
        exact ⟨l, List.mem_cons_self _ _, by rw [h, hm]⟩
      · left
        rw [h, hm]
    · right
      exact ⟨l1, List.mem_cons_of_mem _ hl1, h⟩

/-- C1: on a non-empty list of layers whose output indices are all non-negative,
`NetMetaModel::InitModel` sets `num_nodes` to the largest `nindex_out` plus one (the index is
attained by a layer and bounds every layer), sets `num_layers` to the number of layers and
sets `init_end` to 1. -/
theorem InitModel_num_nodes (m : NetMetaModel) (hne : m.layers ≠ [])
    (hpos : ∀ l ∈ m.layers, 0 ≤ l.nindex_out) :
    (∃ l ∈ m.layers, m.InitModel.param.num_nodes = l.nindex_out + 1 ∧
        ∀ l1 ∈ m.layers, l1.nindex_out ≤ l.nindex_out) ∧
      m.InitModel.param.num_layers = (m.layers.length : Int) ∧
      m.InitModel.param.init_end = 1 := by
  refine ⟨?_, rfl, rfl⟩
  show ∃ l ∈ m.layers, InitModel_loop m.layers 0 = l.nindex_out + 1 ∧ _
  rcases InitModel_loop_attained m.layers 0 with h | ⟨l, hl, h⟩
  · exfalso
    obtain ⟨l, hl⟩ := List.exists_mem_of_ne_nil _ hne
    have h1 := InitModel_loop_ge_mem m.layers 0 l hl
    have h2 := hpos l hl
    omega
  · refine ⟨l, hl, h, ?_⟩
    intro l1 hl1
    have h1 := InitModel_loop_ge_mem m.layers 0 l1 hl1
    omega

theorem InitModel_num_nodes_witness :
    (∃ l ∈ [(⟨1, 0, 1⟩ : LayerInfo), ⟨2, 1, 3⟩, ⟨3, 3, 2⟩],
        (NetMetaModel.InitModel ⟨⟨0, 0, ⟨0, 0, 0⟩, 0, 0, 0⟩,
          [⟨1, 0, 1⟩, ⟨2, 1, 3⟩, ⟨3, 3, 2⟩]⟩).param.num_nodes = l.nindex_out + 1 ∧
        ∀ l1 ∈ [(⟨1, 0, 1⟩ : LayerInfo), ⟨2, 1, 3⟩, ⟨3, 3, 2⟩], l1.nindex_out ≤ l.nindex_out) ∧
      (NetMetaModel.InitModel ⟨⟨0, 0, ⟨0, 0, 0⟩, 0, 0, 0⟩,
          [⟨1, 0, 1⟩, ⟨2, 1, 3⟩, ⟨3, 3, 2⟩]⟩).param.num_layers = 3 ∧
      (NetMetaModel.InitModel ⟨⟨0, 0, ⟨0, 0, 0⟩, 0, 0, 0⟩,
          [⟨1, 0, 1⟩, ⟨2, 1, 3⟩, ⟨3, 3, 2⟩]⟩).param.init_end = 1 :=
  InitModel_num_nodes ⟨⟨0, 0, ⟨0, 0, 0⟩, 0, 0, 0⟩, [⟨1, 0, 1⟩, ⟨2, 1, 3⟩, ⟨3, 3, 2⟩]⟩
    (by decide) (by decide)

/-! ## Relative layer references -/

theorem digitVal_digitChar (k : Nat) (hk : k < 10) : digitVal (Nat.digitChar k) = some k := by
  interval_cases k <;> decide

theorem isspace_digitChar (k : Nat) (hk : k < 10) : isspace (Nat.digitChar k) = false := by
  interval_cases k <;> decide

theorem digitChar_ne_sign (k : Nat) (hk : k < 10) :
    Nat.digitChar k ≠ '-' ∧ Nat.digitChar k ≠ '+' := by
  interval_cases k <;> decide

theorem toDigitsCore_append (fuel n : Nat) (ds rest : List Char) :
    Nat.toDigitsCore 10 fuel n (ds ++ rest) = Nat.toDigitsCore 10 fuel n ds ++ rest := by
  induction fuel generalizing n ds with
  | zero => simp [Nat.toDigitsCore]
  | succ fuel ih =>
    simp only [Nat.toDigitsCore]
    split
    · simp
    · rw [← List.cons_append, ih]

theorem scanNat_toDigitsCore (fuel n : Nat) (ds : List Char) (h : n < fuel) :
    scanNat (Nat.toDigitsCore 10 fuel n ds) = some (scanDigits ds n) := by
  induction fuel generalizing n ds with
  | zero => omega
  | succ fuel ih =>
    simp only [Nat.toDigitsCore]
    have hd := digitVal_digitChar (n % 10) (Nat.mod_lt _ (by decide))
    split
    · rename_i h0
      have : n % 10 = n := by omega
      rw [this] at hd
      simp only [scanNat, hd, this]
    · rename_i h0
      rw [ih (n / 10) _ (by omega)]
      simp only [scanDigits, hd]
      congr 2
      omega

theorem toDigitsCore_head (fuel n : Nat) (ds : List Char) (h : n < fuel) :
    ∃ k tl, k < 10 ∧ Nat.toDigitsCore 10 fuel n ds = Nat.digitChar k :: tl := by
  induction fuel generalizing n ds with
  | zero => omega
  | succ fuel ih =>
    simp only [Nat.toDigitsCore]
    split
    · exact ⟨n % 10, ds, Nat.mod_lt _ (by decide), rfl⟩
    · exact ih (n / 10) _ (by omega)

/-- Scanning the decimal rendering of a natural number, followed by anything. -/
theorem scanNat_repr (n : Nat) (rest : List Char) :
    scanNat ((Nat.repr n).data ++ rest) = some (scanDigits rest n) := by
  simp only [Nat.repr, Nat.toDigits, List.asString]
  rw [← toDigitsCore_append, List.nil_append]
  exact scanNat_toDigitsCore _ _ _ (by omega)


theorem skipSpace_digit (k : Nat) (hk : k < 10) (tl : List Char) :
    skipSpace (Nat.digitChar k :: tl) = Nat.digitChar k :: tl := by
  simp [skipSpace, isspace_digitChar k hk]

theorem scanSigned_digit (k : Nat) (hk : k < 10) (tl : List Char) :
    scanSigned (Nat.digitChar k :: tl) =
      (scanNat (Nat.digitChar k :: tl)).map fun r => ((false, r.1), r.2) := by
  unfold scanSigned
  rw [skipSpace_digit k hk]
  have h := digitChar_ne_sign k hk
  split
  · rename_i heq
    simp at heq
    exact absurd heq.1 h.1
  · rename_i heq
    simp at heq
    exact absurd heq.1 h.2
  · rfl

theorem scanSigned_repr_nat (n : Nat) (rest : List Char) :
    scanSigned ((Nat.repr n).data ++ rest) =
      some ((false, (scanDigits rest n).1), (scanDigits rest n).2) := by
  have h1 := scanNat_repr n rest
  obtain ⟨k, tl, hk, hhead⟩ := toDigitsCore_head (n + 1) n [] (by omega)
  have h2 : (Nat.repr n).data = Nat.digitChar k :: tl := by
    simp only [Nat.repr, Nat.toDigits, List.asString]
    exact hhead
  rw [h2, List.cons_append] at h1 ⊢
  rw [scanSigned_digit k hk, h1]
  rfl

/-- Scanning the decimal rendering of an integer finds its sign and its absolute value. -/
theorem scanSigned_toString (B : Int) (rest : List Char)
    (hrest : ∀ n, scanDigits rest n = (n, rest)) :
    scanSigned ((toString B).data ++ rest) = some ((decide (B < 0), B.natAbs), rest) := by
  cases B with
  | ofNat n =>
    have : (toString (Int.ofNat n)).data = (Nat.repr n).data := rfl
    rw [this, scanSigned_repr_nat, hrest]
    simp
  | negSucc n =>
    have : (toString (Int.negSucc n)).data = '-' :: (Nat.repr (n + 1)).data := rfl
    rw [this, List.cons_append]
    have h1 := scanNat_repr (n + 1) rest
    simp only [scanSigned, skipSpace, isspace]
    simp [h1, hrest, Int.negSucc_lt_zero]

theorem scanInt_toString (B : Int) (rest : List Char)
    (hrest : ∀ n, scanDigits rest n = (n, rest)) :
    scanInt ((toString B).data ++ rest) = some (scanned_int B, rest) := by
  rw [scanInt, scanSigned_toString B rest hrest]
  rfl

/-- An integer in the range of `int` is read back as itself. -/
theorem scanned_int_of_range (B : Int) (h1 : -(2 ^ 31) ≤ B) (h2 : B < 2 ^ 31) :
    scanned_int B = B := by
  unfold scanned_int strtol_value to_int
  by_cases hneg : B < 0
  · have e : max (-(B.natAbs : Int)) (-(2 ^ 63)) = B := by
      rw [max_eq_left (by omega)]
      omega
    simp only [hneg, decide_True, if_true, e]
    omega
  · have e : min (B.natAbs : Int) (2 ^ 63 - 1) = B := by
      rw [min_eq_left (by omega)]
      omega
    simp only [hneg, decide_False, Bool.false_eq_true, if_false, e]
    omega

theorem scanDigits_bracket (tl : List Char) (n : Nat) :
    scanDigits (']' :: tl) n = (n, ']' :: tl) := by
  simp [scanDigits, digitVal]

theorem layer_rel_name_data (B : Int) :
    (layer_rel_name B).data = 'l' :: 'a' :: 'y' :: 'e' :: 'r' :: '[' :: '+' :: ((toString B).data ++ [']']) := by
  simp [layer_rel_name, String.data_append]

theorem sscanf_layer_rel_name (B : Int) :
    sscanf_layer_rel (layer_rel_name B) = some (scanned_int B) := by
  unfold sscanf_layer_rel
  rw [layer_rel_name_data]
  have : ("layer[+" : String).data = ['l', 'a', 'y', 'e', 'r', '[', '+'] := rfl
  rw [this]
  simp only [scanLit, if_true]
  rw [scanInt_toString B _ (scanDigits_bracket [])]

theorem sscanf_layer_abs_rel_name (B : Int) : sscanf_layer_abs (layer_rel_name B) = none := by
  unfold sscanf_layer_abs
  rw [layer_rel_name_data]
  have : ("layer[" : String).data = ['l', 'a', 'y', 'e', 'r', '['] := rfl
  rw [this]
  simp only [scanLit, if_true]
  have hs : scanInt ('+' :: ((toString B).data ++ [']'])) =
      (scanNat ((toString B).data ++ [']'])).map fun r =>
        (to_int (strtol_value false r.1), r.2) := by
    simp [scanInt, scanSigned, skipSpace, isspace, Function.comp_def]
  rw [hs]
  cases B with
  | ofNat n =>
    have : (toString (Int.ofNat n)).data = (Nat.repr n).data := rfl
    rw [this, scanNat_repr, scanDigits_bracket]
    have h2 : ("->" : String).data = ['-', '>'] := rfl
    simp [h2, scanLit]
  | negSucc n =>
    have : (toString (Int.negSucc n)).data = '-' :: (Nat.repr (n + 1)).data := rfl
    rw [this, List.cons_append]
    simp [scanNat, digitVal]


theorem isLayerDirective_rel_name (B : Int) : isLayerDirective (layer_rel_name B) = true := by
  unfold isLayerDirective
  rw [layer_rel_name_data]
  have : ("layer[" : String).data = ['l', 'a', 'y', 'e', 'r', '['] := rfl
  rw [this]
  simp [List.isPrefixOf]

theorem ne_of_isLayerDirective (name s : String) (h1 : isLayerDirective name = true)
    (h2 : isLayerDirective s = false) : name ≠ s := by
  intro h
  rw [h, h2] at h1
  cases h1

theorem GetLayerInfo_rel_name (glt : String → Option Int) (B : Int) (val ltype : String)
    (ty top_node : Int) (hval : sscanf_type_tag val = some ltype) (hty : glt ltype = some ty) :
    GetLayerInfo glt (layer_rel_name B) val top_node =
      some { type := ty, nindex_in := top_node, nindex_out := top_node + scanned_int B } := by
  simp only [GetLayerInfo, sscanf_layer_abs_rel_name, sscanf_layer_rel_name, hval, hty]
  rw [Int.add_comm]

/-- The directive `layer[+B]` on an unfrozen helper, for any `B`: the layer appended has
`nindex_out = t + b`, where `b` is the `int` that `%d` stores for the text of `B`. -/
theorem SetParam_layer_rel_scanned (GetLayerType : String → Option Int) (h : NetConfigHelper)
    (B : Int) (val ltype : String) (ty : Int) (hfree : h.meta.param.init_end = 0)
    (hval : sscanf_type_tag val = some ltype) (hty : GetLayerType ltype = some ty) :
    ∃ h1, h.SetParam GetLayerType (layer_rel_name B) val = some h1 ∧
      h1.meta.layers = h.meta.layers ++
        [{ type := ty, nindex_in := h.meta.LastNode,
           nindex_out := h.meta.LastNode + scanned_int B }] ∧
      h1.meta.param.num_layers = (h.meta.layers.length : Int) + 1 := by
  have hl := isLayerDirective_rel_name B
  have n1 := ne_of_isLayerDirective _ "reset_epoch" hl (by decide)
  have n2 := ne_of_isLayerDirective _ "input_shape" hl (by decide)
  have n3 := ne_of_isLayerDirective _ "batch_size" hl (by decide)
  have n4 := ne_of_isLayerDirective _ "updater" hl (by decide)
  have n5 := ne_of_isLayerDirective _ "netconfig" hl (by decide)
  have hm : h.meta.SetParam (layer_rel_name B) val = some h.meta := by
    simp [NetMetaModel.SetParam, n1, n2, hfree]
  have hg := GetLayerInfo_rel_name GetLayerType B val ltype ty h.meta.LastNode hval hty
  simp [NetConfigHelper.SetParam, SetParam_fields, hm, n3, n4, n5, SetParam_layer, hl, hfree, hg]

/-- C2, counterexample: the directive `layer[+4294967298]` after a layer whose output index is
5 appends the layer `(in = 5, out = 7)`: `%d` stores the number in a 32-bit `int`, which keeps
`2`, so the output index is `5 + 2` and not `5 + 4294967298`. -/
theorem SetParam_layer_rel_counterexample :
    layer_rel_name 4294967298 = "layer[+4294967298]" ∧
    ∃ h1, NetConfigHelper.SetParam example_GetLayerType
        (NetConfigHelper.ctor ⟨example_storage.ctor, [⟨1, 0, 5⟩]⟩) "layer[+4294967298]"
          "fullc:fc1" = some h1 ∧
      h1.meta.layers = [⟨1, 0, 5⟩, ⟨1, 5, 7⟩] ∧ (7 : Int) ≠ 5 + 4294967298 := by
  refine ⟨by decide, ?_⟩
  have hs : scanned_int 4294967298 = 2 := by decide
  obtain ⟨h1, e1, e2, -⟩ := SetParam_layer_rel_scanned example_GetLayerType
    (NetConfigHelper.ctor ⟨example_storage.ctor, [⟨1, 0, 5⟩]⟩) 4294967298 "fullc:fc1" "fullc" 1
    rfl (by decide) (by decide)
  have hn : layer_rel_name 4294967298 = "layer[+4294967298]" := by decide
  rw [hn] at e1
  rw [hs] at e2
  exact ⟨h1, e1, e2, by decide⟩

/-- C2, amended: while the topology is unfrozen (`init_end = 0`), for every integer `B` in the
range of `int` (`-2^31 <= B < 2^31`) the directive named `layer[+B]`, with a value that names a
layer type, makes `NetConfigHelper::SetParam` append the `LayerInfo` with `nindex_in = t` and
`nindex_out = t + B`, where `t = LastNode()` is the output index of the most recently declared
layer (0 if there is none); `num_layers` grows by one. -/
theorem SetParam_layer_rel (GetLayerType : String → Option Int) (h : NetConfigHelper) (B : Int)
    (val ltype : String) (ty : Int) (hfree : h.meta.param.init_end = 0)
    (hlo : -(2 ^ 31) ≤ B) (hhi : B < 2 ^ 31)
    (hval : sscanf_type_tag val = some ltype) (hty : GetLayerType ltype = some ty) :
    ∃ h1, h.SetParam GetLayerType (layer_rel_name B) val = some h1 ∧
      h1.meta.layers = h.meta.layers ++
        [{ type := ty, nindex_in := h.meta.LastNode, nindex_out := h.meta.LastNode + B }] ∧
      h1.meta.param.num_layers = (h.meta.layers.length : Int) + 1 := by
  have hs := SetParam_layer_rel_scanned GetLayerType h B val ltype ty hfree hval hty
  rw [scanned_int_of_range B hlo hhi] at hs
  exact hs

theorem SetParam_layer_rel_witness :
    ∃ h1, NetConfigHelper.SetParam example_GetLayerType
        (NetConfigHelper.ctor ⟨example_storage.ctor, [⟨1, 0, 5⟩]⟩) "layer[+2]" "fullc:fc1"
          = some h1 ∧
      h1.meta.layers = [⟨1, 0, 5⟩, ⟨1, 5, 7⟩] ∧ h1.meta.param.num_layers = 2 :=
  SetParam_layer_rel example_GetLayerType
    (NetConfigHelper.ctor ⟨example_storage.ctor, [⟨1, 0, 5⟩]⟩) 2 "fullc:fc1" "fullc" 1
    rfl (by decide) (by decide) (by decide) (by decide)

/-! ## Loss gradient of one instance -/

theorem to_index_t_natCast (k : Nat) (h1 : k < 2 ^ 32) : to_index_t (k : Int) = k := by
  unfold to_index_t
  rw [Int.emod_eq_of_lt (by omega) (by exact_mod_cast h1)]
  simp

theorem float_to_index_t_natCast (y : Nat) (hy : y < 2 ^ 32) :
    float_to_index_t (y : ℚ) = y := by
  have h : Int.tdiv ((y : ℚ).num) ((y : ℚ).den) = (y : Int) := by simp
  rw [float_to_index_t, h]
  exact to_index_t_natCast y hy

/-- C3, counterexample: with the label `4294967296` and a prediction vector of length 1 the
label is not below the length, yet the per-instance `SetLoss` does not abort: the conversion to
the 32-bit `index_t` gives `0`, and entry 0 is decreased by one. -/
theorem SetLoss_inst_multiclass_counterexample :
    ([(5 : ℚ)].length ≤ 4294967296) ∧
      SetLoss_inst (fun x => x) 0 [5] ((4294967296 : Nat) : ℚ) = some [4] := by
  have h : Int.tdiv (((4294967296 : Nat) : ℚ).num) (((4294967296 : Nat) : ℚ).den)
      = 4294967296 := by simp
  have h0 : float_to_index_t ((4294967296 : Nat) : ℚ) = 0 := by
    rw [float_to_index_t, h]
    decide
  refine ⟨by decide, ?_⟩
  rw [SetLoss_inst, if_pos rfl]
  simp only [h0]
  norm_num

/-- C3, amended: for loss kind 0, a prediction vector `p` of length `n` and a label `y` below
`2 ^ 32`: when `y < n` the per-instance `SetLoss` returns `p` with entry `y` replaced by
`p[y] - 1`, the length and every other entry unchanged; when `y >= n` it aborts. -/
theorem SetLoss_inst_multiclass (exp : ℚ → ℚ) (p : List ℚ) (y : Nat) (hy32 : y < 2 ^ 32) :
    (y < p.length →
      ∃ p1, SetLoss_inst exp 0 p (y : ℚ) = some p1 ∧ p1.length = p.length ∧
        p1.get? y = some (p.getD y 0 - 1) ∧ ∀ i, i ≠ y → p1.get? i = p.get? i) ∧
    (p.length ≤ y → SetLoss_inst exp 0 p (y : ℚ) = none) := by
  constructor
  · intro hy
    refine ⟨p.set y (p.getD y 0 - 1), ?_, ?_, ?_, ?_⟩
    · simp [SetLoss_inst, float_to_index_t_natCast y hy32, hy]
    · simp
    · simp [hy]
    · intro i hi
      simp [List.getElem?_set, Ne.symm hi]
  · intro hy
    simp [SetLoss_inst, float_to_index_t_natCast y hy32, hy]

theorem SetLoss_inst_multiclass_witness :
    (∃ p1, SetLoss_inst (fun x => x) 0 [1 / 2, 1 / 3, 1 / 6] ((2 : Nat) : ℚ) = some p1 ∧
        p1.length = [(1 : ℚ) / 2, 1 / 3, 1 / 6].length ∧
        p1.get? 2 = some ([(1 : ℚ) / 2, 1 / 3, 1 / 6].getD 2 0 - 1) ∧
        ∀ i, i ≠ 2 → p1.get? i = [(1 : ℚ) / 2, 1 / 3, 1 / 6].get? i) ∧
      SetLoss_inst (fun x => x) 0 [1 / 2, 1 / 3, 1 / 6] ((3 : Nat) : ℚ) = none :=
  ⟨(SetLoss_inst_multiclass (fun x => x) [1 / 2, 1 / 3, 1 / 6] 2 (by decide)).1 (by decide),
   (SetLoss_inst_multiclass (fun x => x) [1 / 2, 1 / 3, 1 / 6] 3 (by decide)).2 (by decide)⟩

/-! ## Loss gradient of a batch and its scaling -/

/-- C4, counterexample: with a batch of 3 instances and `update_period = 1431655766` the
product `temp.shape[1] * update_period` wraps to 2 in 32-bit unsigned arithmetic, so the
output node holds the injected buffer divided by 2, not by `3 * 1431655766`. -/
theorem SetLoss_scale_counterexample :
    ∃ r, SetLoss (fun x => x) 0 1431655766 ⟨1, [[3], [3], [3]]⟩ (fun _ => 0)
        ⟨Shape4 1 1 3 1, [[0], [0], [0]]⟩ = some r ∧
      r.1.rows = [[2], [2], [2]] ∧ r.2.data = [[1], [1], [1]] ∧
      r.2.data ≠ r.1.rows.map fun row => row.map fun x => x / ((3 : ℚ) * 1431655766) := by
  have h1 : to_index_t 1431655766 = 1431655766 := by decide
  have h2 : loss_scale 3 1431655766 = 1 / 2 := by
    rw [loss_scale, h1]
    norm_num
  have h3 : float_to_index_t 0 = 0 := by simpa using float_to_index_t_natCast 0 (by decide)
  refine ⟨(⟨1, [[2], [2], [2]]⟩, ⟨Shape4 1 1 3 1, [[1], [1], [1]]⟩), ?_, rfl, rfl, ?_⟩
  · norm_num [SetLoss, SetLoss_rows, SetLoss_inst, Shape4, h2, h3]
  · norm_num

theorem loss_scale_exact (b : Nat) (k : Int) (hb : 1 ≤ b) (hk : 1 ≤ k)
    (hprod : (b : Int) * k < 2 ^ 32) : loss_scale b k = 1 / ((b : ℚ) * (k : ℚ)) := by
  lift k to Nat using (by omega)
  have hprod1 : b * k < 2 ^ 32 := by exact_mod_cast hprod
  have hk32 : k < 2 ^ 32 := by nlinarith
  unfold loss_scale
  rw [to_index_t_natCast k hk32, Nat.mod_eq_of_lt hprod1]
  push_cast
  rfl


/-- C4, amended: for a batch of `b >= 1` instances and `update_period = k >= 1` with
`b * k < 2 ^ 32`, and an output node that is a matrix (which `SyncOuput` asserts before), after
the batch-level `SetLoss` the staging buffer holds the rows with the loss gradient injected
and every entry of the output node is the corresponding entry of that buffer divided by
`b * k`. -/
theorem SetLoss_scale (exp : ℚ → ℚ) (loss_type update_period : Int) (temp : Tensor2)
    (labels : Nat → ℚ) (out : Node) (r : Tensor2 × Node)
    (hb : 1 ≤ temp.rows.length) (hk : 1 ≤ update_period)
    (hprod : (temp.rows.length : Int) * update_period < 2 ^ 32)
    (hmat : out.shape.s2 = 1 ∧ out.shape.s3 = 1)
    (hwf : out.data.length = out.shape.s3 * out.shape.s2 * out.shape.s1)
    (hrun : SetLoss exp loss_type update_period temp labels out = some r) :
    SetLoss_rows exp loss_type labels 0 temp.rows = some r.1.rows ∧
      r.2.data = r.1.rows.map fun row =>
        row.map fun x => x / ((temp.rows.length : ℚ) * (update_period : ℚ)) := by
  have hs := loss_scale_exact temp.rows.length update_period hb hk hprod
  have hlen : out.data.length = out.shape.s1 := by
    rw [hwf, hmat.1, hmat.2]
    simp
  have hdrop : out.data.drop out.shape.s1 = [] := by
    rw [List.drop_eq_nil_iff]
    omega
  unfold SetLoss at hrun
  split at hrun
  · cases hrun
  · split at hrun
    · cases hrun
    · rename_i rows1 hrows
      split at hrun
      · simp only [Option.some.injEq] at hrun
        subst hrun
        refine ⟨hrows, ?_⟩
        simp only [hdrop, List.append_nil, hs]
        apply List.map_congr_left
        intro row _
        apply List.map_congr_left
        intro x _
        rw [mul_one_div]
      · cases hrun


theorem SetLoss_scale_witness :
    SetLoss_rows (fun x => x) 0 (fun i => if i = 0 then 0 else 2) 0 [[1, 2, 3], [4, 5, 6]] =
        some [[0, 2, 3], [4, 5, 5]] ∧
      [[0, 1 / 2, 3 / 4], [1, 5 / 4, 5 / 4]] =
        [[(0 : ℚ), 2, 3], [4, 5, 5]].map fun row =>
          row.map fun x => x / ((([[1, 2, 3], [4, 5, 6]] : List (List ℚ)).length : ℚ) * ((2 : Int) : ℚ)) :=
  SetLoss_scale (fun x => x) 0 2 ⟨3, [[1, 2, 3], [4, 5, 6]]⟩ (fun i => if i = 0 then 0 else 2)
    ⟨Shape4 1 1 2 3, [[0, 0, 0], [0, 0, 0]]⟩
    (⟨3, [[0, 2, 3], [4, 5, 5]]⟩, ⟨Shape4 1 1 2 3, [[0, 1 / 2, 3 / 4], [1, 5 / 4, 5 / 4]]⟩)
    (by decide) (by decide) (by decide) (by decide) (by decide)
    (by
      have h1 : to_index_t 2 = 2 := by decide
      have h2 : loss_scale 2 2 = 1 / 4 := by
        rw [loss_scale, h1]
        norm_num
      have h3 : float_to_index_t 2 = 2 := by
        simpa using float_to_index_t_natCast 2 (by decide)
      have h4 : float_to_index_t 0 = 0 := by
        simpa using float_to_index_t_natCast 0 (by decide)
      norm_num [SetLoss, SetLoss_rows, SetLoss_inst, Shape4, h2, h3, h4])

/-! ## The update schedule of `ForwardBackprop` -/

theorem period_arith (n k : Nat) (hk : 1 ≤ k) :
    (k ≤ n % k + 1 ↔ k ∣ n + 1) ∧
      (k ∣ n + 1 → (n + 1) % k = 0 ∧ (n + 1) / k = n / k + 1) ∧
      (¬ k ∣ n + 1 → (n + 1) % k = n % k + 1 ∧ (n + 1) / k = n / k) := by
  have hdiv := Nat.succ_div n k
  have h1 := Nat.div_add_mod n k
  have h2 := Nat.div_add_mod (n + 1) k
  have hlt := Nat.mod_lt n hk
  have hlt2 := Nat.mod_lt (n + 1) hk
  by_cases hd : k ∣ n + 1
  · simp only [hd, if_true] at hdiv
    have hm : (n + 1) % k = 0 := Nat.mod_eq_zero_of_dvd hd
    rw [hdiv, hm, Nat.mul_add, Nat.mul_one] at h2
    refine ⟨⟨fun _ => hd, fun _ => by omega⟩, fun _ => ⟨hm, hdiv⟩, fun h => absurd hd h⟩
  · simp only [hd, if_false, Nat.add_zero] at hdiv
    rw [hdiv] at h2
    have hne : (n + 1) % k ≠ 0 := fun h => hd (Nat.dvd_of_mod_eq_zero h)
    refine ⟨⟨fun h => ?_, fun h => absurd h hd⟩, fun h => absurd h hd, fun _ => ⟨by omega, hdiv⟩⟩
    exfalso
    omega


theorem Update_loop_count (epoch : Int) (n i : Nat) :
    (Update_loop epoch n i).count Event.net_Update = 0 := by
  induction n generalizing i with
  | zero => simp [Update_loop]
  | succ n ih => simp [Update_loop, ih]

/-- C5: for `update_period = k >= 1` and a trainer whose call counter is 0, when the first
`n` calls of `ForwardBackprop` complete, the log of calls is the schedule in which call number
`i + 1` is followed by `net.Update()` (and the updater calls, with the epoch counter of that
moment) exactly when `k` divides `i + 1`; `net.Update()` has been called `n / k` times, the
call counter is `n % k` and `num_epoch_passed` has grown by `n / k`. -/
theorem ForwardBackprops_period {σ : Type} (ext : External σ) (t : Trainer σ) (k : Nat)
    (hk : 1 ≤ k) (hfresh : t.sample_counter = 0) (hperiod : t.update_period = (k : Int))
    (n : Nat) (t1 : Trainer σ) (hrun : ForwardBackprops ext n t = some t1) :
    t1.log = t.log ++ (List.range n).flatMap (fun i =>
        if k ∣ i + 1 then
          Event.ForwardBackprop :: Event.net_Update ::
            Update_loop (t.num_epoch_passed + ((i / k : Nat) : Int)) t.num_updaters 0
        else [Event.ForwardBackprop]) ∧
      t1.log.count Event.net_Update = t.log.count Event.net_Update + n / k ∧
      t1.sample_counter = ((n % k : Nat) : Int) ∧
      t1.num_epoch_passed = t.num_epoch_passed + ((n / k : Nat) : Int) ∧
      t1.update_period = (k : Int) ∧ t1.num_updaters = t.num_updaters := by
  induction n generalizing t1 with
  | zero =>
    simp only [ForwardBackprops, Option.some.injEq] at hrun
    subst hrun
    simp [hfresh, hperiod]
  | succ n ih =>
    simp only [ForwardBackprops] at hrun
    split at hrun
    · cases hrun
    · rename_i t0 h0
      obtain ⟨hlog, hcount, hctr, hep, hper, hnu⟩ := ih t0 h0
      obtain ⟨hiff, hyes, hno⟩ := period_arith n k hk
      unfold ForwardBackprop at hrun
      split at hrun
      · cases hrun
      · rename_i o _
        simp only [hctr, hper] at hrun
        rw [List.range_succ, List.flatMap_append]
        simp only [List.flatMap_cons, List.flatMap_nil, List.append_nil]
        rw [hlog] at hcount
        generalize (List.range n).flatMap _ = L at hlog hcount ⊢
        by_cases hd : k ∣ n + 1
        · have hge : ((n % k : Nat) : Int) + 1 ≥ (k : Int) := by
            have := hiff.mpr hd
            omega
          obtain ⟨hm, hq⟩ := hyes hd
          simp only [hge, if_true, Option.some.injEq] at hrun
          subst hrun
          simp only [NeuralNet.Update, hlog, hep, hnu, hm, hq, hper, if_pos hd]
          refine ⟨by simp, ?_, by simp, by push_cast; ring, trivial, trivial⟩
          simp only [List.count_append, List.count_cons, List.count_nil, Update_loop_count] at hcount ⊢
          simp
          omega
        · have hlt : ¬ ((n % k : Nat) : Int) + 1 ≥ (k : Int) := by
            have := mt hiff.mp hd
            omega
          obtain ⟨hm, hq⟩ := hno hd
          simp only [hlt, if_false, Option.some.injEq] at hrun
          subst hrun
          simp only [hlog, hep, hnu, hm, hq, hper, if_neg hd]
          refine ⟨by simp, ?_, by simp, trivial, trivial, trivial⟩
          simp only [List.count_append, List.count_cons, List.count_nil] at hcount ⊢
          simp
          omega


theorem ForwardBackprops_period_witness :
    ∃ t1, ForwardBackprops (σ := Unit) ⟨fun _ => some (), fun _ _ _ => ()⟩ 5
        ⟨(), 2, 7, 2, 0, []⟩ = some t1 ∧
      t1.log.count Event.net_Update = 2 ∧ t1.sample_counter = 1 ∧ t1.num_epoch_passed = 9 := by
  refine ⟨_, rfl, ?_⟩
  have h := ForwardBackprops_period (σ := Unit) ⟨fun _ => some (), fun _ _ _ => ()⟩
    ⟨(), 2, 7, 2, 0, []⟩ 2 (by decide) rfl rfl 5 _ rfl
  exact ⟨h.2.1, h.2.2.1, h.2.2.2.1⟩


/-! ## Round trip of the serialised meta-model -/

theorem Param_ofCells_cells (p : Param) : Param.ofCells p.cells = p := by
  cases p with
  | mk nn nl sh ie ne rf =>
    cases sh
    simp [Param.ofCells, Param.cells]

theorem layers_ofCells_cells (ls : List LayerInfo) : layers_ofCells (layers_cells ls) = ls := by
  induction ls with
  | nil => rfl
  | cons l ls ih =>
    cases l
    simp [layers_cells, LayerInfo.cells, layers_ofCells, ih]

theorem layers_cells_length (ls : List LayerInfo) :
    (layers_cells ls).length = 3 * ls.length := by
  induction ls with
  | nil => rfl
  | cons l ls ih =>
    simp [layers_cells, LayerInfo.cells, ih]
    omega

theorem overwrite_all (old got : List Int) (h : old.length ≤ got.length) :
    overwrite old got = got := by
  simp [overwrite, List.drop_eq_nil_iff.mpr h]

theorem resize_length (ls : List LayerInfo) (n : Nat) : (resize ls n).length = n := by
  simp [resize]
  omega

theorem LoadModel_SaveModel (m m0 : NetMetaModel)
    (h : m.param.num_layers = (m.layers.length : Int)) :
    m0.LoadModel (m.SaveModel []) = some (m, []) := by
  have hp : (m.SaveModel []).take 8 = m.param.cells := by
    simp [NetMetaModel.SaveModel, Param.cells]
  have hd : (m.SaveModel []).drop 8 = layers_cells m.layers := by
    simp [NetMetaModel.SaveModel, Param.cells]
  have hov : overwrite m0.param.cells m.param.cells = m.param.cells :=
    overwrite_all _ _ (by simp [Param.cells])
  unfold NetMetaModel.LoadModel
  simp only [Stream.Read, hp, hd, hov, Param_ofCells_cells, h, resize_length, Int.toNat_ofNat]
  have h8 : m.param.cells.length ≠ 0 := by simp [Param.cells]
  simp only [h8, if_false]
  have hneg : ¬ ((m.layers.length : Int) < 0) := by omega
  simp only [hneg, if_false]
  by_cases hl : m.layers.length = 0
  · have hnil : m.layers = [] := List.length_eq_zero.mp hl
    simp [hl, resize, hnil, layers_cells]
    cases m
    simp_all
  · have h3 : (layers_cells m.layers).length = 3 * m.layers.length := layers_cells_length _
    have htake : (layers_cells m.layers).take (3 * m.layers.length) = layers_cells m.layers := by
      rw [← h3, List.take_length]
    have hdrop : (layers_cells m.layers).drop (3 * m.layers.length) = [] := by
      rw [← h3, List.drop_length]
    have hov2 : overwrite (layers_cells (resize m0.layers m.layers.length))
        (layers_cells m.layers) = layers_cells m.layers :=
      overwrite_all _ _ (by rw [layers_cells_length, layers_cells_length, resize_length])
    have hne : (layers_cells m.layers).length ≠ 0 := by omega
    simp [hl, htake, hdrop, hov2, layers_ofCells_cells, hne]


/-- C6: for the meta-model `m` obtained by feeding a directive sequence to a fresh
`NetConfigHelper` and then calling `InitModel`, the stream written by `SaveModel` is read back
completely by `LoadModel` (into any `NetMetaModel`, a fresh one included), the loaded parameter
block and layer list equal the originals, and saving the loaded model writes the same
stream. -/
theorem SaveModel_LoadModel_roundtrip (GetLayerType : String → Option Int) (garbage : Param)
    (ds : List (String × String)) (m m0 : NetMetaModel)
    (hm : (SetParams GetLayerType (NetConfigHelper.ctor (NetMetaModel.fresh garbage)) ds).map
      (fun h => h.meta.InitModel) = some m) :
    ∃ m1, m0.LoadModel (m.SaveModel []) = some (m1, []) ∧
      m1.param = m.param ∧ m1.layers = m.layers ∧ m1.SaveModel [] = m.SaveModel [] := by
  obtain ⟨h, _, hh⟩ := Option.map_eq_some'.mp hm
  subst hh
  exact ⟨h.meta.InitModel, LoadModel_SaveModel _ _ rfl, rfl, rfl, rfl⟩

theorem SaveModel_LoadModel_roundtrip_witness :
    ∃ m1, (NetMetaModel.fresh example_storage).LoadModel
        (NetMetaModel.SaveModel ⟨⟨2, 2, ⟨200, 1, 1⟩, 1, 0, 0⟩, [⟨1, 0, 1⟩, ⟨2, 1, 1⟩]⟩ [])
        = some (m1, []) ∧
      m1.param = ⟨2, 2, ⟨200, 1, 1⟩, 1, 0, 0⟩ ∧ m1.layers = [⟨1, 0, 1⟩, ⟨2, 1, 1⟩] ∧
      m1.SaveModel [] =
        NetMetaModel.SaveModel ⟨⟨2, 2, ⟨200, 1, 1⟩, 1, 0, 0⟩, [⟨1, 0, 1⟩, ⟨2, 1, 1⟩]⟩ [] :=
  SaveModel_LoadModel_roundtrip example_GetLayerType example_storage
    [("input_shape", "1,1,200"), ("layer[+1]", "fullc:fc1"), ("nhidden", "10"),
     ("layer[+0]", "softmax")]
    ⟨⟨2, 2, ⟨200, 1, 1⟩, 1, 0, 0⟩, [⟨1, 0, 1⟩, ⟨2, 1, 1⟩]⟩
    (NetMetaModel.fresh example_storage) (by decide)

/-! ## Directives after the topology is frozen -/

theorem NetMetaModel_SetParam_frozen (m : NetMetaModel) (name val : String)
    (hfrozen : m.param.init_end ≠ 0) :
    ∃ m1, m.SetParam name val = some m1 ∧ m1.layers = m.layers ∧
      m1.param.num_layers = m.param.num_layers ∧ m1.param.num_nodes = m.param.num_nodes ∧
      m1.param.shape_in = m.param.shape_in ∧ m1.param.init_end = m.param.init_end := by
  unfold NetMetaModel.SetParam
  by_cases h1 : name = "reset_epoch"
  · simp only [h1, if_true]
    rw [if_pos hfrozen]
    exact ⟨_, rfl, rfl, rfl, rfl, rfl, rfl⟩
  · simp only [h1, if_false]
    rw [if_pos hfrozen]
    exact ⟨_, rfl, rfl, rfl, rfl, rfl, rfl⟩

theorem SetParam_layer_frozen (GetLayerType : String → Option Int) (h : NetConfigHelper)
    (name val : String) (hfrozen : h.meta.param.init_end ≠ 0) :
    ∃ h1, SetParam_layer GetLayerType h name val = some h1 ∧ h1.meta = h.meta := by
  unfold SetParam_layer
  by_cases hl : isLayerDirective name = true
  · simp only [hl, if_true]
    rw [if_neg hfrozen]
    exact ⟨_, rfl, rfl⟩
  · simp only [hl]
    exact ⟨_, rfl, rfl⟩

theorem SetParam_fields_meta (h1 : NetConfigHelper) (name val : String) :
    (SetParam_fields h1 name val).meta = h1.meta := by
  unfold SetParam_fields
  simp only []
  split_ifs <;> rfl

/-- C7: once `init_end != 0`, `NetConfigHelper::SetParam` returns on every directive, whatever
its name and value, and leaves the layer list, `num_layers`, `num_nodes`, `shape_in` (and
`init_end`) unchanged. -/
theorem SetParam_frozen (GetLayerType : String → Option Int) (h : NetConfigHelper)
    (name val : String) (hfrozen : h.meta.param.init_end ≠ 0) :
    ∃ h1, h.SetParam GetLayerType name val = some h1 ∧
      h1.meta.layers = h.meta.layers ∧
      h1.meta.param.num_layers = h.meta.param.num_layers ∧
      h1.meta.param.num_nodes = h.meta.param.num_nodes ∧
      h1.meta.param.shape_in = h.meta.param.shape_in ∧
      h1.meta.param.init_end = h.meta.param.init_end := by
  obtain ⟨m1, hm, e1, e2, e3, e4, e5⟩ := NetMetaModel_SetParam_frozen h.meta name val hfrozen
  have hmeta := SetParam_fields_meta { h with meta := m1 } name val
  obtain ⟨h6, hl, e6⟩ := SetParam_layer_frozen GetLayerType
    (SetParam_fields { h with meta := m1 } name val) name val
    (by rw [hmeta]; show m1.param.init_end ≠ 0; rw [e5]; exact hfrozen)
  unfold NetConfigHelper.SetParam
  rw [hm]
  simp only [hl]
  have e7 : h6.meta = m1 := by rw [e6, hmeta]
  split_ifs
  · exact ⟨_, rfl, by simp only [e7, e1], by simp only [e7, e2], by simp only [e7, e3],
      by simp only [e7, e4], by simp only [e7, e5]⟩
  · exact ⟨_, rfl, by simp only [e7, e1], by simp only [e7, e2], by simp only [e7, e3],
      by simp only [e7, e4], by simp only [e7, e5]⟩

theorem SetParam_frozen_witness :
    ∃ h1, NetConfigHelper.SetParam example_GetLayerType
        (NetConfigHelper.ctor ⟨⟨2, 1, ⟨200, 1, 1⟩, 1, 0, 0⟩, [⟨1, 0, 1⟩]⟩)
        "layer[oops" "" = some h1 ∧
      h1.meta.layers = [⟨1, 0, 1⟩] ∧ h1.meta.param.num_layers = 1 ∧
      h1.meta.param.num_nodes = 2 ∧ h1.meta.param.shape_in = ⟨200, 1, 1⟩ ∧
      h1.meta.param.init_end = 1 :=
  SetParam_frozen example_GetLayerType
    (NetConfigHelper.ctor ⟨⟨2, 1, ⟨200, 1, 1⟩, 1, 0, 0⟩, [⟨1, 0, 1⟩]⟩) "layer[oops" ""
    (by decide)


/-! ## Order of the backward pass -/

/-- C8: in a network with `n` layers, `NeuralNet::Backprop( prop_to_firstlayer )` calls the
`Backprop` of the layers `n-1, n-2, ..., 0`, in this order and once each; layer 0 receives
`prop_to_firstlayer` and every other layer receives `true`. -/
theorem Backprop_order (n : Nat) (prop_to_firstlayer : Bool) :
    NeuralNet.Backprop n prop_to_firstlayer =
      (List.range n).reverse.map fun i =>
        Event.layer_Backprop i (if i = 0 then prop_to_firstlayer else true) := by
  unfold NeuralNet.Backprop
  induction n with
  | zero => rfl
  | succ n ih =>
    rw [Backprop_loop, ih, List.range_succ, List.reverse_append]
    cases n with
    | zero => simp
    | succ k => simp


/-! ## Shape of the input node after binding -/

theorem NetMetaModel_SetParam_shape_in (m m1 : NetMetaModel) (name val : String)
    (hname : name ≠ "input_shape") (hrun : m.SetParam name val = some m1) :
    m1.param.shape_in = m.param.shape_in := by
  unfold NetMetaModel.SetParam at hrun
  simp only [hname, if_false] at hrun
  split_ifs at hrun <;> (simp only [Option.some.injEq] at hrun; subst hrun; rfl)

theorem SetParam_layer_shape_in (GetLayerType : String → Option Int) (h h1 : NetConfigHelper)
    (name val : String) (hrun : SetParam_layer GetLayerType h name val = some h1) :
    h1.meta.param.shape_in = h.meta.param.shape_in ∧ h1.batch_size = h.batch_size := by
  unfold SetParam_layer at hrun
  by_cases hl : isLayerDirective name = true
  · by_cases hi : h.meta.param.init_end = 0
    · simp only [hl, hi, if_true] at hrun
      split at hrun
      · cases hrun
      · simp only [Option.some.injEq] at hrun
        subst hrun
        exact ⟨rfl, rfl⟩
    · simp only [hl, hi, if_true, if_false, Option.some.injEq] at hrun
      subst hrun
      exact ⟨rfl, rfl⟩
  · rw [if_neg hl] at hrun
    simp only [Option.some.injEq] at hrun
    subst hrun
    exact ⟨rfl, rfl⟩

theorem SetParam_shape_in (GetLayerType : String → Option Int) (h h1 : NetConfigHelper)
    (name val : String) (hname : name ≠ "input_shape")
    (hrun : h.SetParam GetLayerType name val = some h1) :
    h1.meta.param.shape_in = h.meta.param.shape_in := by
  unfold NetConfigHelper.SetParam at hrun
  split at hrun
  · cases hrun
  · rename_i m hm
    have e1 := NetMetaModel_SetParam_shape_in _ _ _ _ hname hm
    split at hrun
    · cases hrun
    · rename_i h6 hl
      have e2 := (SetParam_layer_shape_in _ _ _ _ _ hl).1
      rw [SetParam_fields_meta] at e2
      split_ifs at hrun <;>
        (simp only [Option.some.injEq] at hrun; subst hrun; exact e2.trans e1)

theorem SetParams_shape_in (GetLayerType : String → Option Int) (ds : List (String × String))
    (h h1 : NetConfigHelper) (hname : ∀ d ∈ ds, d.1 ≠ "input_shape")
    (hrun : SetParams GetLayerType h ds = some h1) :
    h1.meta.param.shape_in = h.meta.param.shape_in := by
  induction ds generalizing h with
  | nil =>
    simp only [SetParams, Option.some.injEq] at hrun
    subst hrun
    rfl
  | cons d ds ih =>
    simp only [SetParams] at hrun
    split at hrun
    · cases hrun
    · rename_i h2 hd
      rw [ih h2 (fun d1 hd1 => hname d1 (List.mem_cons_of_mem _ hd1)) hrun]
      exact SetParam_shape_in _ _ _ _ _ (hname d (List.mem_cons_self _ _)) hd

theorem SetParam_layer_other (GetLayerType : String → Option Int) (h : NetConfigHelper)
    (name val : String) (hl : isLayerDirective name = false) :
    SetParam_layer GetLayerType h name val = some h := by
  simp [SetParam_layer, hl]

theorem SetParam_input_shape (GetLayerType : String → Option Int) (h : NetConfigHelper)
    (val : String) (z y x : Nat) (hfree : h.meta.param.init_end = 0)
    (hval : sscanf_uuu val = some (z, y, x)) :
    ∃ h1, h.SetParam GetLayerType "input_shape" val = some h1 ∧
      h1.meta.param.shape_in = ⟨x, y, z⟩ := by
  have hm : h.meta.SetParam "input_shape" val =
      some { h.meta with param := { h.meta.param with shape_in := ⟨x, y, z⟩ } } := by
    unfold NetMetaModel.SetParam
    have n1 : ¬ ("input_shape" = "reset_epoch") := by decide
    simp [n1, hfree, hval]
  have hl : isLayerDirective "input_shape" = false := by decide
  unfold NetConfigHelper.SetParam
  simp only [hm, SetParam_layer_other _ _ _ _ hl]
  split_ifs <;> exact ⟨_, rfl, by simp [SetParam_fields_meta]⟩

theorem ConfigLayers_bind_node0 (GetLayerType : String → Option Int) (h : NetConfigHelper)
    (nodes : List Node) (layers : List LayerLog) (r : List Node × List LayerLog)
    (hrun : ConfigLayers_bind GetLayerType h nodes layers = some r) :
    r.1.head?.map Node.shape = some (h.meta.param.GetShapeIn (to_index_t h.batch_size)) := by
  unfold ConfigLayers_bind at hrun
  split at hrun
  · cases hrun
  · split at hrun
    · cases hrun
    · simp only [Option.some.injEq] at hrun
      subst hrun
      rfl


/-- C9, counterexample: with `input_shape = 1,1,200` (the example of the source's own error
message) and `batch_size = 100`, node 0 gets the matrix shape `(1, 1, 100, 200)`: its batch
extent is 1, not 100, and its height is 100, not 1. -/
theorem ConfigLayers_node0_shape_counterexample :
    ∃ h2 r, SetParams example_GetLayerType
        (NetConfigHelper.ctor (NetMetaModel.fresh example_storage))
        [("input_shape", "1,1,200"), ("batch_size", "100"), ("layer[+1]", "fullc")] = some h2 ∧
      ConfigLayers_bind example_GetLayerType { h2 with meta := h2.meta.InitModel }
        [⟨Shape4 0 0 0 0, []⟩, ⟨Shape4 0 0 0 0, []⟩] [[]] = some r ∧
      r.1.head?.map Node.shape = some (Shape4 1 1 100 200) ∧
      Shape4 1 1 100 200 ≠ Shape4 100 1 1 200 :=
  ⟨_, _, rfl, rfl, rfl, by decide⟩

/-- The shape of node 0 in terms of the three values that `sscanf` stores for the value of the
`input_shape` directive. -/
theorem ConfigLayers_node0_shape_scanned (GetLayerType : String → Option Int)
    (h h2 : NetConfigHelper)
    (val : String) (z y x b : Nat) (rest : List (String × String))
    (nodes : List Node) (layers : List LayerLog) (r : List Node × List LayerLog)
    (hfree : h.meta.param.init_end = 0) (hval : sscanf_uuu val = some (z, y, x))
    (hrest : ∀ d ∈ rest, d.1 ≠ "input_shape")
    (hrun : SetParams GetLayerType h (("input_shape", val) :: rest) = some h2)
    (hb : h2.batch_size = (b : Int)) (hb32 : b < 2 ^ 32)
    (hbind : ConfigLayers_bind GetLayerType { h2 with meta := h2.meta.InitModel } nodes layers
      = some r) :
    r.1.head?.map Node.shape =
      some (if z = 1 ∧ y = 1 then Shape4 1 1 b x else Shape4 b z y x) := by
  obtain ⟨h1, hset, hshape⟩ := SetParam_input_shape GetLayerType h val z y x hfree hval
  simp only [SetParams, hset] at hrun
  have hs2 := SetParams_shape_in GetLayerType rest h1 h2 hrest hrun
  rw [hshape] at hs2
  rw [ConfigLayers_bind_node0 _ _ _ _ _ hbind]
  simp only [Param.GetShapeIn, NetMetaModel.InitModel, hs2, hb, to_index_t_natCast b hb32]

theorem scanDigits_comma (tl : List Char) (n : Nat) :
    scanDigits (',' :: tl) n = (n, ',' :: tl) := by
  simp [scanDigits, digitVal]

/-- The conversion `%u` reads a decimal number below `2 ^ 32` as itself. -/
theorem scanUInt_repr (n : Nat) (rest : List Char)
    (hrest : ∀ m, scanDigits rest m = (m, rest)) (hn : n < 2 ^ 32) :
    scanUInt ((Nat.repr n).data ++ rest) = some (n, rest) := by
  have h64 : ¬ (2 ^ 64 ≤ n) := by omega
  rw [scanUInt, scanSigned_repr_nat, hrest]
  simp only [Option.map_some', strtoul_value, h64, if_false, Bool.false_eq_true]
  rw [Nat.mod_eq_of_lt hn]

/-- The conversion `%u` keeps the low 32 bits of a larger number: the value `4294967297,1,5` is
read as `1,1,5`. -/
theorem sscanf_uuu_wraps : sscanf_uuu "4294967297,1,5" = some (1, 1, 5) := by
  decide

theorem sscanf_uuu_text (z y x : Nat) (hz : z < 2 ^ 32) (hy : y < 2 ^ 32) (hx : x < 2 ^ 32) :
    sscanf_uuu (input_shape_text z y x) = some (z, y, x) := by
  have hd : (input_shape_text z y x).data =
      (Nat.repr z).data ++ ',' :: ((Nat.repr y).data ++ ',' :: ((Nat.repr x).data ++ [])) := by
    simp [input_shape_text, String.data_append]
    rfl
  unfold sscanf_uuu
  rw [hd, scanUInt_repr z _ (scanDigits_comma _) hz]
  simp only [scanLit, if_true]
  rw [scanUInt_repr y _ (scanDigits_comma _) hy]
  simp only [scanLit, if_true]
  rw [scanUInt_repr x [] (fun m => rfl) hx]

/-- C9, amended: when an `input_shape` directive with the value `Z,Y,X`, the three numbers
written in decimal and below `2 ^ 32`, is applied before the topology is frozen, followed by
any directives other than `input_shape`, and the configured `batch_size` is `b`
(`0 <= b < 2 ^ 32`), then after `InitModel` and the binding pass node 0 has the shape
`(batch, channel, height, width) = (1, 1, b, X)` when `Z = 1` and `Y = 1`, and `(b, Z, Y, X)`
otherwise. -/
theorem ConfigLayers_node0_shape (GetLayerType : String → Option Int) (h h2 : NetConfigHelper)
    (z y x b : Nat) (rest : List (String × String))
    (nodes : List Node) (layers : List LayerLog) (r : List Node × List LayerLog)
    (hfree : h.meta.param.init_end = 0)
    (hz : z < 2 ^ 32) (hy : y < 2 ^ 32) (hx : x < 2 ^ 32)
    (hrest : ∀ d ∈ rest, d.1 ≠ "input_shape")
    (hrun : SetParams GetLayerType h (("input_shape", input_shape_text z y x) :: rest)
      = some h2)
    (hb : h2.batch_size = (b : Int)) (hb32 : b < 2 ^ 32)
    (hbind : ConfigLayers_bind GetLayerType { h2 with meta := h2.meta.InitModel } nodes layers
      = some r) :
    r.1.head?.map Node.shape =
      some (if z = 1 ∧ y = 1 then Shape4 1 1 b x else Shape4 b z y x) :=
  ConfigLayers_node0_shape_scanned GetLayerType h h2 (input_shape_text z y x) z y x b rest
    nodes layers r hfree (sscanf_uuu_text z y x hz hy hx) hrest hrun hb hb32 hbind

theorem ConfigLayers_node0_shape_witness :
    input_shape_text 3 32 32 = "3,32,32" ∧
    (some (Shape4 100 3 32 32) : Option Shape_4) =
      some (if 3 = 1 ∧ 32 = 1 then Shape4 1 1 100 32 else Shape4 100 3 32 32) :=
  ⟨by decide,
   ConfigLayers_node0_shape example_GetLayerType
    (NetConfigHelper.ctor (NetMetaModel.fresh example_storage))
    ⟨⟨⟨7, 1, ⟨32, 32, 3⟩, 0, 0, 0⟩, [⟨1, 0, 1⟩]⟩, "sgd", [("layer[+1]", "fullc")],
      [("input_shape", "3,32,32"), ("batch_size", "100")], 100, 2⟩
    3 32 32 100 [("batch_size", "100"), ("layer[+1]", "fullc")]
    [⟨Shape4 0 0 0 0, []⟩, ⟨Shape4 0 0 0 0, []⟩] [[]]
    (⟨Shape4 100 3 32 32, []⟩ :: [⟨Shape4 0 0 0 0, []⟩],
      [[("input_shape", "3,32,32"), ("batch_size", "100")]])
    rfl (by decide) (by decide) (by decide) (by decide) (by decide) rfl (by decide) rfl⟩


/-! ## Layer-scoped recording of directives -/

theorem SetParam_fields_cfg (h : NetConfigHelper) (name val : String) :
    (SetParam_fields h name val).netcfg = h.netcfg ∧
      (SetParam_fields h name val).defcfg = h.defcfg := by
  unfold SetParam_fields
  simp only []
  split_ifs <;> exact ⟨rfl, rfl⟩

theorem SetParam_fields_mode (h : NetConfigHelper) (name val : String)
    (hn : ¬ (name = "netconfig" ∧ (val = "start" ∨ val = "end"))) :
    (SetParam_fields h name val).netcfg_mode = h.netcfg_mode := by
  unfold SetParam_fields
  simp only []
  have h1 : ¬ (name = "netconfig" ∧ val = "start") := fun hc => hn ⟨hc.1, Or.inl hc.2⟩
  have h2 : ¬ (name = "netconfig" ∧ val = "end") := fun hc => hn ⟨hc.1, Or.inr hc.2⟩
  rw [if_neg h2, if_neg h1]
  split_ifs <;> rfl

theorem SetParam_layer_cfg (GetLayerType : String → Option Int) (h h1 : NetConfigHelper)
    (name val : String) (hrun : SetParam_layer GetLayerType h name val = some h1) :
    h1.netcfg = h.netcfg ∧ h1.defcfg = h.defcfg ∧
      h1.netcfg_mode = if isLayerDirective name = true then 2 else h.netcfg_mode := by
  unfold SetParam_layer at hrun
  by_cases hl : isLayerDirective name = true
  · by_cases hi : h.meta.param.init_end = 0
    · simp only [hl, hi, if_true] at hrun
      split at hrun
      · cases hrun
      · simp only [Option.some.injEq] at hrun
        subst hrun
        exact ⟨rfl, rfl, by simp [hl]⟩
    · simp only [hl, hi, if_true, if_false, Option.some.injEq] at hrun
      subst hrun
      exact ⟨rfl, rfl, by simp [hl]⟩
  · rw [if_neg hl] at hrun
    simp only [Option.some.injEq] at hrun
    subst hrun
    exact ⟨rfl, rfl, by simp [hl]⟩

/-- One directive in layer-scoped mode. -/
theorem SetParam_layer_scoped (GetLayerType : String → Option Int) (h h1 : NetConfigHelper)
    (name val : String) (hmode : h.netcfg_mode = 2 ∨ isLayerDirective name = true)
    (hn : ¬ (name = "netconfig" ∧ (val = "start" ∨ val = "end")))
    (hrun : h.SetParam GetLayerType name val = some h1) :
    h1.netcfg_mode = 2 ∧ h1.netcfg = h.netcfg ++ [(name, val)] ∧ h1.defcfg = h.defcfg := by
  unfold NetConfigHelper.SetParam at hrun
  split at hrun
  · cases hrun
  · rename_i m hm
    split at hrun
    · cases hrun
    · rename_i h6 hl
      obtain ⟨e1, e2, e3⟩ := SetParam_layer_cfg _ _ _ _ _ hl
      have f1 := SetParam_fields_cfg { h with meta := m } name val
      have f2 := SetParam_fields_mode { h with meta := m } name val hn
      have hmode6 : h6.netcfg_mode = 2 := by
        rw [e3]
        split_ifs with hl2
        · rfl
        · rw [f2]
          rcases hmode with hm2 | hm2
          · exact hm2
          · exact absurd hm2 hl2
      rw [if_pos hmode6] at hrun
      simp only [Option.some.injEq] at hrun
      subst hrun
      refine ⟨hmode6, ?_, ?_⟩
      · show h6.netcfg ++ [(name, val)] = h.netcfg ++ [(name, val)]
        rw [e1, f1.1]
      · show h6.defcfg = h.defcfg
        rw [e2, f1.2]

theorem SetParams_layer_scoped (GetLayerType : String → Option Int)
    (ds : List (String × String)) (h h1 : NetConfigHelper) (hmode : h.netcfg_mode = 2)
    (hn : ∀ e ∈ ds, ¬ (e.1 = "netconfig" ∧ (e.2 = "start" ∨ e.2 = "end")))
    (hrun : SetParams GetLayerType h ds = some h1) :
    h1.netcfg = h.netcfg ++ ds ∧ h1.defcfg = h.defcfg := by
  induction ds generalizing h with
  | nil =>
    simp only [SetParams, Option.some.injEq] at hrun
    subst hrun
    simp
  | cons d ds ih =>
    simp only [SetParams] at hrun
    split at hrun
    · cases hrun
    · rename_i h2 hd
      obtain ⟨m2, n2, d2⟩ := SetParam_layer_scoped _ _ _ _ _ (Or.inl hmode)
        (hn d (List.mem_cons_self _ _)) hd
      obtain ⟨n3, d3⟩ := ih h2 m2 (fun e he => hn e (List.mem_cons_of_mem _ he)) hrun
      rw [n3, d3, n2, d2]
      simp

theorem SetParams_append (GetLayerType : String → Option Int)
    (ds1 ds2 : List (String × String)) (h h2 : NetConfigHelper)
    (hrun : SetParams GetLayerType h (ds1 ++ ds2) = some h2) :
    ∃ h1, SetParams GetLayerType h ds1 = some h1 ∧ SetParams GetLayerType h1 ds2 = some h2 := by
  induction ds1 generalizing h with
  | nil => exact ⟨h, rfl, hrun⟩
  | cons d ds ih =>
    simp only [List.cons_append, SetParams] at hrun ⊢
    split at hrun
    · cases hrun
    · rename_i h3 hd
      exact ih h3 hrun


theorem SetParam_records (GetLayerType : String → Option Int) (h h1 : NetConfigHelper)
    (name val : String) (hrun : h.SetParam GetLayerType name val = some h1) :
    (h1.netcfg = h.netcfg ++ [(name, val)] ∧ h1.defcfg = h.defcfg) ∨
      (h1.netcfg = h.netcfg ∧ h1.defcfg = h.defcfg ++ [(name, val)]) := by
  unfold NetConfigHelper.SetParam at hrun
  split at hrun
  · cases hrun
  · rename_i m hm
    split at hrun
    · cases hrun
    · rename_i h6 hl
      obtain ⟨e1, e2, _⟩ := SetParam_layer_cfg _ _ _ _ _ hl
      have f1 := SetParam_fields_cfg { h with meta := m } name val
      split_ifs at hrun
      · simp only [Option.some.injEq] at hrun
        subst hrun
        left
        exact ⟨by show h6.netcfg ++ _ = _; rw [e1, f1.1], by show h6.defcfg = _; rw [e2, f1.2]⟩
      · simp only [Option.some.injEq] at hrun
        subst hrun
        right
        exact ⟨by show h6.netcfg = _; rw [e1, f1.1], by show h6.defcfg ++ _ = _; rw [e2, f1.2]⟩

theorem SetParams_records (GetLayerType : String → Option Int) (ds : List (String × String))
    (h h1 : NetConfigHelper) (hrun : SetParams GetLayerType h ds = some h1) :
    ∃ n d, h1.netcfg = h.netcfg ++ n ∧ h1.defcfg = h.defcfg ++ d ∧
      List.Sublist n ds ∧ List.Sublist d ds := by
  induction ds generalizing h with
  | nil =>
    simp only [SetParams, Option.some.injEq] at hrun
    subst hrun
    exact ⟨[], [], by simp, by simp, List.Sublist.refl _, List.Sublist.refl _⟩
  | cons e ds ih =>
    simp only [SetParams] at hrun
    split at hrun
    · cases hrun
    · rename_i h2 he
      obtain ⟨n, d, hn, hd, sn, sd⟩ := ih h2 hrun
      rcases SetParam_records _ _ _ _ _ he with ⟨r1, r2⟩ | ⟨r1, r2⟩
      · exact ⟨e :: n, d, by rw [hn, r1]; simp, by rw [hd, r2],
          List.Sublist.cons₂ _ sn, List.Sublist.cons _ sd⟩
      · exact ⟨n, e :: d, by rw [hn, r1], by rw [hd, r2]; simp,
          List.Sublist.cons _ sn, List.Sublist.cons₂ _ sd⟩


/-- C10, counterexample: after `layer[+1]`, the directive `netconfig = end` sets the mode back
to 0; it and the directive after it are recorded into `defcfg`, not into `netcfg`. -/
theorem SetParams_netcfg_counterexample :
    ∃ h1, SetParams example_GetLayerType
        (NetConfigHelper.ctor (NetMetaModel.fresh example_storage))
        [("layer[+1]", "fullc"), ("netconfig", "end"), ("eta", "0.1")] = some h1 ∧
      h1.netcfg = [("layer[+1]", "fullc")] ∧
      h1.defcfg = [("netconfig", "end"), ("eta", "0.1")] :=
  ⟨_, rfl, rfl, rfl⟩

/-- C10, amended: in a directive sequence `pre ++ d :: rest ++ suf` that `SetParam` accepts,
where `d` has the prefix `layer[` and no directive of `rest` is `netconfig = start` or
`netconfig = end`, the directive `d` and every directive of `rest` is appended to `netcfg`, in
order, and none of them is recorded into `defcfg`: what the run adds to `defcfg` after `pre`
comes from `suf` alone. -/
theorem SetParams_netcfg (GetLayerType : String → Option Int) (h0 h3 : NetConfigHelper)
    (pre rest suf : List (String × String)) (d : String × String)
    (hd : isLayerDirective d.1 = true)
    (hrest : ∀ e ∈ rest, ¬ (e.1 = "netconfig" ∧ (e.2 = "start" ∨ e.2 = "end")))
    (hrun : SetParams GetLayerType h0 (pre ++ (d :: rest ++ suf)) = some h3) :
    ∃ h1 n3 d3, SetParams GetLayerType h0 pre = some h1 ∧
      h3.netcfg = h1.netcfg ++ (d :: rest ++ n3) ∧ h3.defcfg = h1.defcfg ++ d3 ∧
      List.Sublist n3 suf ∧ List.Sublist d3 suf := by
  obtain ⟨h1, hpre, hrun1⟩ := SetParams_append _ _ _ _ _ hrun
  obtain ⟨h2, hmid, hrun2⟩ := SetParams_append _ (d :: rest) suf _ _ hrun1
  obtain ⟨n3, d3, hn3, hd3, sn, sd⟩ := SetParams_records _ _ _ _ hrun2
  refine ⟨h1, n3, d3, hpre, ?_, ?_, sn, sd⟩
  all_goals
    simp only [SetParams] at hmid
    split at hmid
    · cases hmid
    · rename_i h4 hstep
      have hnd : ¬ (d.1 = "netconfig" ∧ (d.2 = "start" ∨ d.2 = "end")) := fun hc =>
        ne_of_isLayerDirective _ "netconfig" hd (by decide) hc.1
      obtain ⟨m4, n4, d4⟩ := SetParam_layer_scoped _ _ _ _ _ (Or.inr hd) hnd hstep
      obtain ⟨n2, d2⟩ := SetParams_layer_scoped _ _ _ _ m4 hrest hmid
      first
        | rw [hn3, n2, n4]
          simp
        | rw [hd3, d2, d4]

theorem SetParams_netcfg_witness :
    ∃ h1 n3 d3, SetParams example_GetLayerType
        (NetConfigHelper.ctor (NetMetaModel.fresh example_storage))
        [("batch_size", "50")] = some h1 ∧
      [("layer[+1]", "fullc"), ("nhidden", "10"), ("layer[+0]", "softmax")] =
        h1.netcfg ++ (("layer[+1]", "fullc") :: [("nhidden", "10"), ("layer[+0]", "softmax")]
          ++ n3) ∧
      [("batch_size", "50"), ("netconfig", "end"), ("eta", "0.1")] = h1.defcfg ++ d3 ∧
      List.Sublist n3 [("netconfig", "end"), ("eta", "0.1")] ∧
      List.Sublist d3 [("netconfig", "end"), ("eta", "0.1")] :=
  SetParams_netcfg example_GetLayerType
    (NetConfigHelper.ctor (NetMetaModel.fresh example_storage))
    ⟨⟨⟨7, 2, ⟨3, 4, 5⟩, 0, 0, 0⟩, [⟨1, 0, 1⟩, ⟨2, 1, 1⟩]⟩, "sgd",
      [("layer[+1]", "fullc"), ("nhidden", "10"), ("layer[+0]", "softmax")],
      [("batch_size", "50"), ("netconfig", "end"), ("eta", "0.1")], 50, 0⟩
    [("batch_size", "50")] [("nhidden", "10"), ("layer[+0]", "softmax")]
    [("netconfig", "end"), ("eta", "0.1")]
    ("layer[+1]", "fullc") (by decide) (by decide) (by decide)

/-! ## The arg-max prediction transform -/

theorem drop_cons_getD (pred rest : List ℚ) (x : ℚ) (i : Nat) (h : pred.drop i = x :: rest) :
    pred.getD i 0 = x ∧ pred.drop (i + 1) = rest ∧ i < pred.length := by
  have hlt : i < pred.length := by
    by_contra hc
    rw [List.drop_eq_nil_iff.mpr (by omega)] at h
    cases h
  have h2 := List.drop_eq_getElem_cons hlt
  rw [h] at h2
  simp only [List.cons.injEq] at h2
  refine ⟨?_, h2.2.symm, hlt⟩
  rw [List.getD_eq_getElem _ _ hlt]
  exact h2.1.symm

theorem GetMaxIndex_loop_spec (pred : List ℚ) (rest : List ℚ) (i m : Nat)
    (hdrop : pred.drop i = rest) (hm : m < i) (hi : i ≤ pred.length)
    (hmax : ∀ j, j < i → pred.getD j 0 ≤ pred.getD m 0)
    (hfirst : ∀ j, j < m → pred.getD j 0 < pred.getD m 0) :
    GetMaxIndex_loop pred rest i m < pred.length ∧
      (∀ j, j < pred.length → pred.getD j 0 ≤ pred.getD (GetMaxIndex_loop pred rest i m) 0) ∧
      (∀ j, j < GetMaxIndex_loop pred rest i m →
        pred.getD j 0 < pred.getD (GetMaxIndex_loop pred rest i m) 0) := by
  induction rest generalizing i m with
  | nil =>
    have hlen : pred.length ≤ i := List.drop_eq_nil_iff.mp hdrop
    simp only [GetMaxIndex_loop]
    exact ⟨by omega, fun j hj => hmax j (by omega), hfirst⟩
  | cons x rest ih =>
    obtain ⟨hx, hrest, hlt⟩ := drop_cons_getD pred rest x i hdrop
    simp only [GetMaxIndex_loop]
    by_cases hgt : x > pred.getD m 0
    · rw [if_pos hgt]
      apply ih (i + 1) i hrest (by omega) (by omega)
      · intro j hj
        rcases Nat.lt_succ_iff_lt_or_eq.mp hj with h | h
        · rw [hx]
          exact le_of_lt (lt_of_le_of_lt (hmax j h) hgt)
        · rw [h]
      · intro j hj
        rw [hx]
        exact lt_of_le_of_lt (hmax j hj) hgt
    · rw [if_neg hgt]
      apply ih (i + 1) m hrest (by omega) (by omega)
      · intro j hj
        rcases Nat.lt_succ_iff_lt_or_eq.mp hj with h | h
        · exact hmax j h
        · rw [h, hx]
          exact not_lt.mp hgt
      · exact hfirst

/-- C14: for loss kind 0 and a non-empty prediction vector `p`, `TransformPred` returns an
index `m` within range with `p[i] <= p[m]` for every index `i`, and every index below `m`
holds a strictly smaller value, so `m` is the smallest index attaining the maximum. -/
theorem TransformPred_argmax (exp : ℚ → ℚ) (p : List ℚ) (hne : p ≠ []) :
    ∃ m : Nat, TransformPred exp 0 p = some (m : ℚ) ∧ m < p.length ∧
      (∀ i, i < p.length → p.getD i 0 ≤ p.getD m 0) ∧
      (∀ i, i < m → p.getD i 0 < p.getD m 0) := by
  have hlen : 0 < p.length := List.length_pos.mpr hne
  refine ⟨GetMaxIndex p, by simp [TransformPred], ?_⟩
  unfold GetMaxIndex
  apply GetMaxIndex_loop_spec p (p.drop 1) 1 0 rfl (by omega) (by omega)
  · intro j hj
    have : j = 0 := by omega
    rw [this]
  · intro j hj
    omega

theorem TransformPred_argmax_witness :
    ∃ m : Nat, TransformPred (fun x => x) 0 [1, 5, 3, 5] = some (m : ℚ) ∧
      m < [(1 : ℚ), 5, 3, 5].length ∧
      (∀ i, i < [(1 : ℚ), 5, 3, 5].length →
        [(1 : ℚ), 5, 3, 5].getD i 0 ≤ [(1 : ℚ), 5, 3, 5].getD m 0) ∧
      (∀ i, i < m → [(1 : ℚ), 5, 3, 5].getD i 0 < [(1 : ℚ), 5, 3, 5].getD m 0) :=
  TransformPred_argmax (fun x => x) [1, 5, 3, 5] (by decide)

/-! ## The averaging pass -/

theorem diff_eq_max (x : Int) : (if x < 1 then 1 else x) = max 1 x := by
  rw [max_def]
  split_ifs <;> omega

/-- C12: in the prediction pass of the averaging trainer, for an instance with identifier
`r < num_avg_record` (the two tables having `num_avg_record` entries and rows as long as the
prediction): if `ref_counter[r] <= round` then, with `alpha = 1 / max(1, round - num_burn)`,
`avg_pred[r]` becomes `(1 - alpha) * avg_pred[r] + alpha * pred`, the prediction in the staging
buffer is replaced by that blended row and `ref_counter[r]` becomes `round + 1`, after which
the body leaves a further instance with the same identifier untouched in this round; if
`ref_counter[r] > round` nothing changes. -/
theorem avg_body_blend (t : AvgTrainer) (r : Nat) (pred : List ℚ)
    (hr : r < t.num_avg_record)
    (hcounter : t.ref_counter.length = t.num_avg_record)
    (htable : t.avg_pred.length = t.num_avg_record)
    (hwidth : (t.avg_pred.getD r []).length = pred.length) :
    (t.ref_counter.getD r 0 ≤ t.round →
      ∃ t1 blended, avg_body t r pred = Except.ok (t1, blended) ∧
        blended = List.zipWith
          (fun a x => (1 - 1 / ((max 1 (t.round - t.num_burn) : Int) : ℚ)) * a
            + 1 / ((max 1 (t.round - t.num_burn) : Int) : ℚ) * x)
          (t.avg_pred.getD r []) pred ∧
        t1 = { t with ref_counter := t.ref_counter.set r (t.round + 1)
                      avg_pred := t.avg_pred.set r blended } ∧
        t1.avg_pred.getD r [] = blended ∧ t1.ref_counter.getD r 0 = t.round + 1 ∧
        ∀ pred2, avg_body t1 r pred2 = Except.ok (t1, pred2)) ∧
    (t.ref_counter.getD r 0 > t.round → avg_body t r pred = Except.ok (t, pred)) := by
  have h1 : r < t.ref_counter.length := by omega
  have h2 : r < t.avg_pred.length := by omega
  have g1 : t.ref_counter.get? r = some (t.ref_counter.getD r 0) := by
    simp [List.getD_eq_getElem?_getD, List.getElem?_eq_getElem h1]
  have g2 : t.avg_pred.get? r = some (t.avg_pred.getD r []) := by
    simp [List.getD_eq_getElem?_getD, List.getElem?_eq_getElem h2]
  constructor
  · intro hle
    have hng : ¬ (t.ref_counter.getD r 0 > t.round) := by omega
    refine ⟨_, _, ?_, rfl, rfl, ?_, ?_, ?_⟩
    · unfold avg_body
      rw [if_pos hr, g1]
      simp only [hng, if_false, g2, hwidth, if_true, diff_eq_max]
    · simp [List.getD_eq_getElem?_getD, h2]
    · simp [List.getD_eq_getElem?_getD, h1]
    · intro pred2
      unfold avg_body
      have g3 : (t.ref_counter.set r (t.round + 1)).get? r = some (t.round + 1) := by
        simp [h1]
      simp only [if_pos hr, g3]
      rw [if_pos (by omega)]
  · intro hgt
    unfold avg_body
    rw [if_pos hr, g1]
    simp only [hgt, if_true]


theorem avg_body_blend_witness :
    (∃ t1 blended, avg_body example_avg_trainer 0 [3, 6] = Except.ok (t1, blended) ∧
        blended = [2, 4] ∧ t1.ref_counter = [4, 5] ∧ t1.avg_pred = [[2, 4], [3, 4]]) ∧
      avg_body example_avg_trainer 1 [3, 6] = Except.ok (example_avg_trainer, [3, 6]) := by
  obtain ⟨t1, b, h1, h2, h3, _⟩ :=
    (avg_body_blend example_avg_trainer 0 [3, 6] (by decide) rfl rfl rfl).1 (by decide)
  have hb : b = [2, 4] := by
    rw [h2]
    norm_num [example_avg_trainer]
  refine ⟨⟨t1, b, h1, hb, ?_, ?_⟩,
    (avg_body_blend example_avg_trainer 1 [3, 6] (by decide) rfl rfl rfl).2 (by decide)⟩
  · rw [h3]
    rfl
  · rw [h3, hb]
    rfl

/-! ## Averaging over successive rounds -/

/-- The blending of one stored row with a raw prediction, as `avg_body` computes it. -/
theorem avg_body_eq (t : AvgTrainer) (ridx : Nat) (row : List ℚ) :
    avg_body t ridx row =
      if ridx < t.num_avg_record then
        match t.ref_counter.get? ridx with
        | none => Except.error Fault.out_of_bounds
        | some rc =>
          if rc > t.round then Except.ok (t, row)
          else
            match t.avg_pred.get? ridx with
            | none => Except.error Fault.out_of_bounds
            | some avg =>
              if avg.length = row.length then
                Except.ok ({ t with
                  ref_counter := t.ref_counter.set ridx (t.round + 1)
                  avg_pred := t.avg_pred.set ridx (List.zipWith
                    (fun a x => (1 - 1 / ((max 1 (t.round - t.num_burn) : Int) : ℚ)) * a
                      + 1 / ((max 1 (t.round - t.num_burn) : Int) : ℚ) * x) avg row) },
                  List.zipWith
                    (fun a x => (1 - 1 / ((max 1 (t.round - t.num_burn) : Int) : ℚ)) * a
                      + 1 / ((max 1 (t.round - t.num_burn) : Int) : ℚ) * x) avg row)
              else Except.error Fault.abort
      else Except.error Fault.abort := by
  unfold avg_body
  simp only [diff_eq_max]

/-- The body of the averaging loop on another identifier leaves the record `r` alone. -/
theorem avg_body_other (t t1 : AvgTrainer) (q r : Nat) (row row1 : List ℚ) (hq : q ≠ r)
    (hrun : avg_body t q row = Except.ok (t1, row1)) :
    t1.ref_counter.get? r = t.ref_counter.get? r ∧ t1.avg_pred.get? r = t.avg_pred.get? r ∧
      t1.round = t.round ∧ t1.num_burn = t.num_burn ∧
      t1.num_avg_record = t.num_avg_record := by
  rw [avg_body_eq] at hrun
  by_cases h1 : q < t.num_avg_record
  · rw [if_pos h1] at hrun
    cases hg : t.ref_counter.get? q with
    | none =>
      rw [hg] at hrun
      cases hrun
    | some rc =>
      rw [hg] at hrun
      simp only [] at hrun
      by_cases h2 : rc > t.round
      · rw [if_pos h2] at hrun
        simp only [Except.ok.injEq, Prod.mk.injEq] at hrun
        obtain ⟨rfl, _⟩ := hrun
        exact ⟨rfl, rfl, rfl, rfl, rfl⟩
      · rw [if_neg h2] at hrun
        cases ha : t.avg_pred.get? q with
        | none =>
          rw [ha] at hrun
          cases hrun
        | some avg =>
          rw [ha] at hrun
          simp only [] at hrun
          by_cases h3 : avg.length = row.length
          · rw [if_pos h3] at hrun
            simp only [Except.ok.injEq, Prod.mk.injEq] at hrun
            obtain ⟨rfl, _⟩ := hrun
            refine ⟨?_, ?_, rfl, rfl, rfl⟩
            · simp [List.getElem?_set, hq]
            · simp [List.getElem?_set, hq]
          · rw [if_neg h3] at hrun
            cases hrun
  · rw [if_neg h1] at hrun
    cases hrun

/-- The body of the averaging loop on the identifier `r` itself, in terms of its record. -/
theorem avg_body_self (t t1 : AvgTrainer) (r : Nat) (row row1 : List ℚ) (rc : Int)
    (hrc : t.ref_counter.get? r = some rc) (hle : rc ≤ t.round)
    (hrun : avg_body t r row = Except.ok (t1, row1)) :
    ∃ avg, t.avg_pred.get? r = some avg ∧ avg.length = row.length ∧
      t1.ref_counter.get? r = some (t.round + 1) ∧
      t1.avg_pred.get? r = some (List.zipWith
        (fun a x => (1 - 1 / ((max 1 (t.round - t.num_burn) : Int) : ℚ)) * a
          + 1 / ((max 1 (t.round - t.num_burn) : Int) : ℚ) * x) avg row) ∧
      t1.round = t.round ∧ t1.num_burn = t.num_burn ∧
      t1.num_avg_record = t.num_avg_record := by
  have hlt1 : r < t.ref_counter.length := by
    by_contra hc
    rw [List.get?_eq_none.mpr (by omega)] at hrc
    cases hrc
  rw [avg_body_eq] at hrun
  by_cases h1 : r < t.num_avg_record
  · rw [if_pos h1, hrc] at hrun
    simp only [] at hrun
    rw [if_neg (by omega)] at hrun
    cases ha : t.avg_pred.get? r with
    | none =>
      rw [ha] at hrun
      cases hrun
    | some avg =>
      have hlt2 : r < t.avg_pred.length := by
        by_contra hc
        rw [List.get?_eq_none.mpr (by omega)] at ha
        cases ha
      rw [ha] at hrun
      simp only [] at hrun
      by_cases h3 : avg.length = row.length
      · rw [if_pos h3] at hrun
        simp only [Except.ok.injEq, Prod.mk.injEq] at hrun
        obtain ⟨rfl, _⟩ := hrun
        refine ⟨avg, rfl, h3, by simp [hlt1], ?_, rfl, rfl, rfl⟩
        simp [hlt2]
      · rw [if_neg h3] at hrun
        cases hrun
  · rw [if_neg h1] at hrun
    cases hrun

/-- The body of the averaging loop on `r` when its record has been updated in this round. -/
theorem avg_body_done (t t1 : AvgTrainer) (r : Nat) (row row1 : List ℚ) (rc : Int)
    (hrc : t.ref_counter.get? r = some rc) (hgt : rc > t.round)
    (hrun : avg_body t r row = Except.ok (t1, row1)) : t1 = t := by
  rw [avg_body_eq] at hrun
  by_cases h1 : r < t.num_avg_record
  · rw [if_pos h1, hrc] at hrun
    simp only [] at hrun
    rw [if_pos hgt] at hrun
    simp only [Except.ok.injEq, Prod.mk.injEq] at hrun
    exact hrun.1.symm
  · rw [if_neg h1] at hrun
    cases hrun


theorem avg_loop_other (f : Nat → Nat) (r : Nat) (rows : List (List ℚ)) (i : Nat)
    (t t1 : AvgTrainer) (rows1 : List (List ℚ))
    (hother : ∀ k, k < rows.length → f (i + k) ≠ r)
    (hrun : avg_loop f i t rows = Except.ok (t1, rows1)) :
    t1.ref_counter.get? r = t.ref_counter.get? r ∧ t1.avg_pred.get? r = t.avg_pred.get? r ∧
      t1.round = t.round ∧ t1.num_burn = t.num_burn ∧
      t1.num_avg_record = t.num_avg_record := by
  induction rows generalizing i t rows1 with
  | nil =>
    simp only [avg_loop, Except.ok.injEq, Prod.mk.injEq] at hrun
    obtain ⟨rfl, _⟩ := hrun
    exact ⟨rfl, rfl, rfl, rfl, rfl⟩
  | cons row rows ih =>
    simp only [avg_loop] at hrun
    split at hrun
    · cases hrun
    · rename_i ta rowa hbody
      split at hrun
      · cases hrun
      · rename_i tb rowsb hloop
        simp only [Except.ok.injEq, Prod.mk.injEq] at hrun
        obtain ⟨rfl, _⟩ := hrun
        have h0 := hother 0 (by simp)
        obtain ⟨a1, a2, a3, a4, a5⟩ := avg_body_other t ta (f i) r row rowa h0 hbody
        obtain ⟨b1, b2, b3, b4, b5⟩ := ih (i + 1) ta rowsb
          (fun k hk => by
            have := hother (k + 1) (by simp; omega)
            rwa [show i + 1 + k = i + (k + 1) by omega]) hloop
        exact ⟨b1.trans a1, b2.trans a2, b3.trans a3, b4.trans a4, b5.trans a5⟩

theorem avg_loop_once (f : Nat → Nat) (r : Nat) (rows : List (List ℚ)) (i p : Nat)
    (t t1 : AvgTrainer) (rows1 : List (List ℚ)) (x : List ℚ) (rc : Int)
    (hp1 : i ≤ p) (hfp : f p = r) (hx : rows.get? (p - i) = some x)
    (honce : ∀ q, i ≤ q → q < i + rows.length → q ≠ p → f q ≠ r)
    (hrc : t.ref_counter.get? r = some rc) (hle : rc ≤ t.round)
    (hrun : avg_loop f i t rows = Except.ok (t1, rows1)) :
    ∃ avg, t.avg_pred.get? r = some avg ∧ avg.length = x.length ∧
      t1.ref_counter.get? r = some (t.round + 1) ∧
      t1.avg_pred.get? r = some (List.zipWith
        (fun a y => (1 - 1 / ((max 1 (t.round - t.num_burn) : Int) : ℚ)) * a
          + 1 / ((max 1 (t.round - t.num_burn) : Int) : ℚ) * y) avg x) ∧
      t1.round = t.round ∧ t1.num_burn = t.num_burn ∧
      t1.num_avg_record = t.num_avg_record := by
  induction rows generalizing i t rows1 with
  | nil => simp at hx
  | cons row rows ih =>
    simp only [avg_loop] at hrun
    split at hrun
    · cases hrun
    · rename_i ta rowa hbody
      split at hrun
      · cases hrun
      · rename_i tb rowsb hloop
        simp only [Except.ok.injEq, Prod.mk.injEq] at hrun
        obtain ⟨rfl, _⟩ := hrun
        by_cases hpi : p = i
        · subst hpi
          simp only [Nat.sub_self, List.get?_cons_zero, Option.some.injEq] at hx
          subst hx
          rw [hfp] at hbody
          obtain ⟨avg, a1, a2, a3, a4, a5, a6, a7⟩ :=
            avg_body_self t ta r row rowa rc hrc hle hbody
          obtain ⟨b1, b2, b3, b4, b5⟩ := avg_loop_other f r rows (p + 1) ta tb rowsb
            (fun k hk => honce (p + 1 + k) (by omega) (by simp; omega) (by omega)) hloop
          exact ⟨avg, a1, a2, b1.trans a3, b2.trans a4, b3.trans a5, b4.trans a6,
            b5.trans a7⟩
        · have hne : f i ≠ r := honce i (le_refl _) (by simp) (fun h => hpi h.symm)
          obtain ⟨a1, a2, a3, a4, a5⟩ := avg_body_other t ta (f i) r row rowa hne hbody
          have hx2 : rows.get? (p - (i + 1)) = some x := by
            have : p - i = (p - (i + 1)) + 1 := by omega
            rw [this, List.get?_cons_succ] at hx
            exact hx
          obtain ⟨avg, c1, c2, c3, c4, c5, c6, c7⟩ := ih (i + 1) ta rowsb (by omega) hx2
            (fun q h1 h2 h3 => honce q (by omega) (by simp; omega) h3)
            (by rw [a1]; exact hrc) (by rw [a3]; exact hle) hloop
          refine ⟨avg, by rw [← a2]; exact c1, c2, by rw [c3, a3], ?_, c5.trans a3,
            c6.trans a4, c7.trans a5⟩
          rw [c4, a3, a4]


theorem zipWith_getD_zero (f : ℚ → ℚ → ℚ) (hf : f 0 0 = 0) (l1 l2 : List ℚ)
    (hlen : l1.length = l2.length) (c : Nat) :
    (List.zipWith f l1 l2).getD c 0 = f (l1.getD c 0) (l2.getD c 0) := by
  induction l1 generalizing l2 c with
  | nil =>
    cases l2 with
    | nil => simp [hf]
    | cons b l2 => simp at hlen
  | cons a l1 ih =>
    cases l2 with
    | nil => simp at hlen
    | cons b l2 =>
      cases c with
      | zero => simp
      | succ c =>
        simp only [List.zipWith_cons_cons, List.getD_cons_succ]
        exact ih l2 (by simpa using hlen) c

theorem avg_rounds_mean_aux (r w : Nat) (B : Int)
    (bs : List ((Nat → Nat) × List (List ℚ))) (xs : List (List ℚ))
    (hbatches : List.Forall₂ (fun b x => ∃ p, b.1 p = r ∧ b.2.get? p = some x ∧
      ∀ q, q < b.2.length → q ≠ p → b.1 q ≠ r) bs xs)
    (hw : ∀ x ∈ xs, x.length = w) :
    ∀ (done : List (List ℚ)) (t t1 : AvgTrainer) (rc : Int),
      t.num_burn = B → t.ref_counter.get? r = some rc → rc ≤ B + (done.length : Int) + 1 →
      (∀ avg, t.avg_pred.get? r = some avg →
        ∀ c, (done.length : ℚ) * avg.getD c 0 = (done.map fun x => x.getD c 0).sum) →
      (done ≠ [] → ∃ avg, t.avg_pred.get? r = some avg ∧ avg.length = w) →
      avg_rounds t (B + (done.length : Int) + 1) bs = Except.ok t1 →
      done ++ xs ≠ [] →
      ∃ avg, t1.avg_pred.get? r = some avg ∧ avg.length = w ∧
        ∀ c, ((done ++ xs).length : ℚ) * avg.getD c 0
          = ((done ++ xs).map fun x => x.getD c 0).sum := by
  induction hbatches with
  | nil =>
    intro done t t1 rc _ _ _ hinv hlen hrun hne
    simp only [avg_rounds, Except.ok.injEq] at hrun
    subst hrun
    simp only [List.append_nil] at hne ⊢
    obtain ⟨avg, h1, h2⟩ := hlen hne
    exact ⟨avg, h1, h2, hinv avg h1⟩
  | @cons b x bs xs hb _ ih =>
    intro done t t1 rc hB hrc hle hinv _ hrun _
    obtain ⟨p, hfp, hx, honce⟩ := hb
    simp only [avg_rounds, AvgTrainer.PreparePredTemp] at hrun
    split at hrun
    · cases hrun
    · rename_i ta rowsa hloop
      have hxw : x.length = w := hw x (List.mem_cons_self _ _)
      obtain ⟨avg, a1, a2, a3, a4, a5, a6, a7⟩ := avg_loop_once b.1 r b.2 0 p
        (t.StartRound (B + (done.length : Int) + 1)) ta rowsa x rc (Nat.zero_le _) hfp
        (by simpa using hx) (fun q _ h2 h3 => honce q (by omega) h3) hrc
        (by simpa [AvgTrainer.StartRound] using hle) hloop
      simp only [AvgTrainer.StartRound] at a1 a3 a4 a5 a6
      have hmax : max 1 (B + (done.length : Int) + 1 - t.num_burn) = (done.length : Int) + 1 := by
        rw [hB, max_def]
        split_ifs <;> omega
      rw [hmax] at a4
      have hcast : (((done.length : Int) + 1 : Int) : ℚ) = (done.length : ℚ) + 1 := by
        push_cast
        rfl
      have hpos : (done.length : ℚ) + 1 ≠ 0 := by positivity
      have hstep := ih (by intro y hy; exact hw y (List.mem_cons_of_mem _ hy))
        (done ++ [x]) ta t1 (B + (done.length : Int) + 1 + 1) (a6.trans hB)
        (by rw [a3]) (by simp only [List.length_append, List.length_singleton]; push_cast; omega)
        ?_ ?_ (by
          have : B + ((done ++ [x]).length : Int) + 1 = B + (done.length : Int) + 1 + 1 := by
            simp
            omega
          rw [this]
          exact hrun) (by simp)
      · simpa using hstep
      · intro avg2 havg2 c
        rw [a4] at havg2
        simp only [Option.some.injEq] at havg2
        subst havg2
        rw [zipWith_getD_zero _ (by simp) _ _ a2, hcast]
        have hi := hinv avg a1 c
        simp only [List.length_append, List.length_singleton, List.map_append, List.map_cons,
          List.map_nil, List.sum_append, List.sum_cons, List.sum_nil, add_zero]
        rw [← hi]
        push_cast
        field_simp
      · intro _
        refine ⟨_, a4, ?_⟩
        simp [a2, hxw]


/-- C17: let the identifier `r` have `ref_counter[r] <= B + 1` with `num_burn = B`, and let it
be predicted exactly once in each of the rounds `B+1, ..., B+R` (`R >= 1`), with raw
predictions `x_1, ..., x_R` of length `w`.  If the passes complete, the stored `avg_pred[r]`
is, entry by entry, the arithmetic mean `(x_1 + ... + x_R) / R`, whatever the table held
before. -/
theorem avg_rounds_mean (t t1 : AvgTrainer) (r w : Nat) (B rc : Int)
    (bs : List ((Nat → Nat) × List (List ℚ))) (xs : List (List ℚ))
    (hburn : t.num_burn = B) (hrc : t.ref_counter.get? r = some rc) (hle : rc ≤ B + 1)
    (hR : xs ≠ [])
    (hbatches : List.Forall₂ (fun b x => ∃ p, b.1 p = r ∧ b.2.get? p = some x ∧
      ∀ q, q < b.2.length → q ≠ p → b.1 q ≠ r) bs xs)
    (hw : ∀ x ∈ xs, x.length = w)
    (hrun : avg_rounds t (B + 1) bs = Except.ok t1) :
    ∃ avg, t1.avg_pred.get? r = some avg ∧ avg.length = w ∧
      ∀ c, avg.getD c 0 = (xs.map fun x => x.getD c 0).sum / (xs.length : ℚ) := by
  obtain ⟨avg, h1, h2, h3⟩ := avg_rounds_mean_aux r w B bs xs hbatches hw [] t t1 rc hburn hrc
    (by simpa using hle) (by intro avg _ c; simp) (by intro h; exact absurd rfl h)
    (by simpa using hrun) (by simpa using hR)
  refine ⟨avg, h1, h2, fun c => ?_⟩
  have hpos : (xs.length : ℚ) ≠ 0 := by
    have : 0 < xs.length := List.length_pos.mpr hR
    positivity
  have h4 := h3 c
  simp only [List.nil_append] at h4
  rw [eq_div_iff hpos, mul_comm]
  exact h4

theorem avg_rounds_mean_witness :
    ∃ avg, ([[4, 7], [3, 4]] : List (List ℚ)).get? 0 = some avg ∧ avg.length = 2 ∧
      ∀ c, avg.getD c 0 =
        (([[3, 6], [5, 8]] : List (List ℚ)).map fun x => x.getD c 0).sum
          / ((([[3, 6], [5, 8]] : List (List ℚ)).length : Nat) : ℚ) :=
  avg_rounds_mean example_avg_trainer
    { example_avg_trainer with ref_counter := [4, 5], avg_pred := [[4, 7], [3, 4]] }
    0 2 1 0 [(fun _ => 0, [[3, 6]]), (fun i => i, [[5, 8], [9, 9]])] [[3, 6], [5, 8]]
    rfl rfl (by decide) (by decide)
    (List.Forall₂.cons ⟨0, rfl, rfl, fun q hq hne => absurd (by simpa using hq) hne⟩
      (List.Forall₂.cons ⟨0, rfl, rfl, fun q _ hne => hne⟩ List.Forall₂.nil))
    (by decide)
    (by
      norm_num [avg_rounds, AvgTrainer.PreparePredTemp, AvgTrainer.StartRound, avg_loop,
        avg_body, example_avg_trainer])

/-! ## Sizes of the averaging tables -/

/-- Right after `InitModel` both tables of the averaging trainer have `num_avg_record`
entries. -/
theorem AvgTrainer_InitModel_sizes (t : AvgTrainer) (width : Nat) :
    (t.InitModel width).ref_counter.length = (t.InitModel width).num_avg_record ∧
      (t.InitModel width).avg_pred.length = (t.InitModel width).num_avg_record := by
  constructor
  · simp only [AvgTrainer.InitModel, AvgTrainer.InitAvgRecord, resize_counter,
      List.length_append, List.length_take, List.length_replicate]
    omega
  · simp [AvgTrainer.InitModel, AvgTrainer.InitAvgRecord]

/-- C18, the code at the failing input: `num_inst = 1`, `InitModel`, then `num_inst = 2`.
`SetParam` assigns `num_avg_record = 2` and resizes nothing, so both tables keep one entry;
in the next prediction pass the identifier 1 passes the guard `ridx < num_avg_record` and
`ref_counter[1]` is an access outside the vector. -/
theorem AvgTrainer_num_inst_after_InitModel :
    ∃ t1 t2 t3 t,
      (AvgTrainer.ctor example_storage).SetParam example_GetLayerType "input_shape" "1,1,2"
        = some t1 ∧
      t1.SetParam example_GetLayerType "layer[+1]" "fullc" = some t2 ∧
      t2.SetParam example_GetLayerType "num_inst" "1" = some t3 ∧
      (t3.InitModel 2).SetParam example_GetLayerType "num_inst" "2" = some t ∧
      t.num_avg_record = 2 ∧ t.ref_counter.length = 1 ∧ t.avg_pred.length = 1 ∧
      (t.StartRound 1).PreparePredTemp (some fun _ => 1) [[1, 2]]
        = Except.error Fault.out_of_bounds :=
  ⟨_, _, _, _, rfl, rfl, rfl, rfl, rfl, rfl, rfl, rfl⟩

/-! ## Order independence of the sparse update -/

theorem exec_stmts_append (lr wd : ℚ) (P Q : List SparseStmt) (W : List (List ℚ)) :
    exec_stmts lr wd (P ++ Q) W =
      match exec_stmts lr wd P W with
      | none => none
      | some W1 => exec_stmts lr wd Q W1 := by
  induction P generalizing W with
  | nil => rfl
  | cons s P ih =>
    simp only [List.cons_append, exec_stmts]
    cases exec_stmt lr wd W s with
    | none => rfl
    | some W1 => exact ih W1

/-- Two statements on different rows can be executed in either order. -/
theorem exec_stmt_comm (lr wd : ℚ) (s1 s2 : SparseStmt) (W : List (List ℚ))
    (hne : s1.findex ≠ s2.findex) :
    (match exec_stmt lr wd W s1 with
      | none => none
      | some W1 => exec_stmt lr wd W1 s2) =
    (match exec_stmt lr wd W s2 with
      | none => none
      | some W1 => exec_stmt lr wd W1 s1) := by
  have hne2 : s2.findex ≠ s1.findex := fun h => hne h.symm
  unfold exec_stmt
  simp only [List.get?_eq_getElem?]
  cases h1 : W[s1.findex]? with
  | none =>
    cases h2 : W[s2.findex]? with
    | none => rfl
    | some r2 =>
      cases a2 : s2.apply lr wd r2 with
      | none => simp [a2]
      | some r2' => simp [a2, List.getElem?_set, hne2, h1]
  | some r1 =>
    cases a1 : s1.apply lr wd r1 with
    | none =>
      cases h2 : W[s2.findex]? with
      | none => simp [a1]
      | some r2 =>
        cases a2 : s2.apply lr wd r2 with
        | none => simp [a1, a2]
        | some r2' => simp [a1, a2, List.getElem?_set, hne2, h1]
    | some r1' =>
      cases h2 : W[s2.findex]? with
      | none => simp [a1, List.getElem?_set, hne, h2]
      | some r2 =>
        cases a2 : s2.apply lr wd r2 with
        | none => simp [a1, a2, List.getElem?_set, hne, h2]
        | some r2' =>
          simp [a1, a2, List.getElem?_set, hne, hne2, h1, h2]
          exact List.set_comm _ _ _ hne


theorem exec_stmts_cons (lr wd : ℚ) (s : SparseStmt) (rest : List SparseStmt)
    (W : List (List ℚ)) :
    exec_stmts lr wd (s :: rest) W =
      match exec_stmt lr wd W s with
      | none => none
      | some W1 => exec_stmts lr wd rest W1 := rfl

/-- A statement that touches no row of the statements before it can be executed first. -/
theorem exec_stmts_move_front (lr wd : ℚ) (s : SparseStmt) (P Q : List SparseStmt)
    (W : List (List ℚ)) (hP : ∀ s1 ∈ P, s1.findex ≠ s.findex) :
    exec_stmts lr wd (P ++ s :: Q) W = exec_stmts lr wd (s :: (P ++ Q)) W := by
  induction P generalizing W with
  | nil => rfl
  | cons s1 P ih =>
    have hne : s1.findex ≠ s.findex := hP s1 (List.mem_cons_self _ _)
    have hP1 : ∀ s2 ∈ P, s2.findex ≠ s.findex := fun s2 h => hP s2 (List.mem_cons_of_mem _ h)
    have hc := exec_stmt_comm lr wd s1 s W hne
    rw [List.cons_append, List.cons_append, exec_stmts_cons, exec_stmts_cons]
    cases h1 : exec_stmt lr wd W s1 with
    | none =>
      rw [h1] at hc
      cases h2 : exec_stmt lr wd W s with
      | none => rfl
      | some W2 =>
        rw [h2] at hc
        simp only [] at hc ⊢
        rw [exec_stmts_cons, ← hc]
    | some W1 =>
      rw [h1] at hc
      simp only [] at hc ⊢
      rw [ih W1 hP1, exec_stmts_cons, hc]
      cases h2 : exec_stmt lr wd W s with
      | none => rfl
      | some W2 =>
        simp only []
        rw [exec_stmts_cons]

/-- Two blocks of statements on disjoint rows can be executed in either order. -/
theorem exec_stmts_block_comm (lr wd : ℚ) (A B R : List SparseStmt) (W : List (List ℚ))
    (hAB : ∀ a ∈ A, ∀ b ∈ B, a.findex ≠ b.findex) :
    exec_stmts lr wd (A ++ (B ++ R)) W = exec_stmts lr wd (B ++ (A ++ R)) W := by
  induction B generalizing W with
  | nil => rfl
  | cons b B ih =>
    rw [List.cons_append, exec_stmts_move_front lr wd b A (B ++ R) W
      (fun a ha => hAB a ha b (List.mem_cons_self _ _)), List.cons_append,
      exec_stmts_cons, exec_stmts_cons]
    cases exec_stmt lr wd W b with
    | none => rfl
    | some W1 => exact ih W1 (fun a ha b1 hb1 => hAB a ha b1 (List.mem_cons_of_mem _ hb1))

theorem SparseUpdate_line_eq (lr wd : ℚ) (grad : List ℚ) (line : List SparseEntry)
    (W : List (List ℚ)) :
    SparseUpdate_line lr wd grad line W = exec_stmts lr wd (inst_stmts (line, grad)) W := by
  induction line generalizing W with
  | nil => rfl
  | cons e es ih =>
    have hst : inst_stmts (e :: es, grad) =
        SparseStmt.add_grad e.findex e.fvalue grad :: SparseStmt.decay e.findex
          :: inst_stmts (es, grad) := by
      simp [inst_stmts]
    rw [hst, exec_stmts_cons, SparseUpdate_line]
    cases exec_stmt lr wd W (SparseStmt.add_grad e.findex e.fvalue grad) with
    | none => rfl
    | some W1 =>
      simp only []
      rw [exec_stmts_cons]
      cases exec_stmt lr wd W1 (SparseStmt.decay e.findex) with
      | none => rfl
      | some W2 => exact ih W2

/-- The sequential loop is the execution of the statements of the instances, instance after
instance. -/
theorem SparseUpdate_eq (lr wd : ℚ) (batch : List (List SparseEntry × List ℚ))
    (W : List (List ℚ)) :
    SparseUpdate lr wd batch W = exec_stmts lr wd (batch.map inst_stmts).flatten W := by
  induction batch generalizing W with
  | nil => rfl
  | cons inst batch ih =>
    rw [List.map_cons, List.flatten_cons, exec_stmts_append, SparseUpdate,
      SparseUpdate_line_eq]
    cases exec_stmts lr wd (inst_stmts (inst.1, inst.2)) W with
    | none => rfl
    | some W1 => exact ih W1

theorem inst_stmts_findex (inst : List SparseEntry × List ℚ) (s : SparseStmt)
    (hs : s ∈ inst_stmts inst) : ∃ e ∈ inst.1, e.findex = s.findex := by
  simp only [inst_stmts, List.mem_flatMap, List.mem_cons, List.mem_singleton,
    List.not_mem_nil, or_false] at hs
  obtain ⟨e, he, h | h⟩ := hs
  · exact ⟨e, he, by rw [h]; rfl⟩
  · exact ⟨e, he, by rw [h]; rfl⟩


theorem flatten_eq_nil_of_all_nil (progs : List (List SparseStmt))
    (h : ∀ prog ∈ progs, prog = []) : progs.flatten = [] := by
  induction progs with
  | nil => rfl
  | cons p progs ih =>
    rw [List.flatten_cons, h p (List.mem_cons_self _ _), List.nil_append]
    exact ih (fun q hq => h q (List.mem_cons_of_mem _ hq))

/-- Every interleaving of programs that work on pairwise disjoint rows has the effect of
running the programs one after the other. -/
theorem exec_stmts_interleaving (lr wd : ℚ) (progs : List (List SparseStmt))
    (sched : List SparseStmt) (hsched : Interleaving progs sched)
    (hdisj : progs.Pairwise fun A B => ∀ a ∈ A, ∀ b ∈ B, a.findex ≠ b.findex)
    (W : List (List ℚ)) :
    exec_stmts lr wd sched W = exec_stmts lr wd progs.flatten W := by
  induction hsched generalizing W with
  | done progs h => rw [flatten_eq_nil_of_all_nil progs h]
  | step before after s prog sched _ ih =>
    have hdisj1 : (before ++ prog :: after).Pairwise
        fun A B => ∀ a ∈ A, ∀ b ∈ B, a.findex ≠ b.findex := by
      rw [List.pairwise_append] at hdisj ⊢
      obtain ⟨h1, h2, h3⟩ := hdisj
      rw [List.pairwise_cons] at h2 ⊢
      refine ⟨h1, ⟨fun B hB a ha b hb => h2.1 B hB a (List.mem_cons_of_mem _ ha) b hb, h2.2⟩,
        fun A hA B hB => ?_⟩
      rcases List.mem_cons.mp hB with rfl | hB1
      · intro a ha b hb
        exact h3 A hA (s :: B) (List.mem_cons_self _ _) a ha b (List.mem_cons_of_mem _ hb)
      · exact h3 A hA B (List.mem_cons_of_mem _ hB1)
    have hfront : ∀ s1 ∈ before.flatten, s1.findex ≠ s.findex := by
      intro s1 hs1
      obtain ⟨A, hA, hs1A⟩ := List.mem_flatten.mp hs1
      rw [List.pairwise_append] at hdisj
      exact hdisj.2.2 A hA (s :: prog) (List.mem_cons_self _ _) s1 hs1A s
        (List.mem_cons_self _ _)
    rw [List.flatten_append, List.flatten_cons, List.cons_append,
      exec_stmts_move_front lr wd s _ _ W hfront, exec_stmts_cons, exec_stmts_cons]
    cases exec_stmt lr wd W s with
    | none => rfl
    | some W1 =>
      simp only []
      rw [ih hdisj1 W1, List.flatten_append, List.flatten_cons]

/-- Programs on pairwise disjoint rows can be run one after the other in any order. -/
theorem exec_stmts_perm (lr wd : ℚ) (l1 l2 : List (List SparseStmt)) (hperm : l1.Perm l2)
    (hdisj : l1.Pairwise fun A B => ∀ a ∈ A, ∀ b ∈ B, a.findex ≠ b.findex)
    (W : List (List ℚ)) :
    exec_stmts lr wd l1.flatten W = exec_stmts lr wd l2.flatten W := by
  induction hperm generalizing W with
  | nil => rfl
  | cons A _ ih =>
    rw [List.flatten_cons, List.flatten_cons, exec_stmts_append, exec_stmts_append]
    cases exec_stmts lr wd A W with
    | none => rfl
    | some W1 => exact ih (List.pairwise_cons.mp hdisj).2 W1
  | swap A B l =>
    rw [List.flatten_cons, List.flatten_cons, List.flatten_cons, List.flatten_cons]
    apply exec_stmts_block_comm
    exact (List.pairwise_cons.mp hdisj).1 A (List.mem_cons_self _ _)
  | trans h1 _ ih1 ih2 =>
    have hsymm : ∀ A B : List SparseStmt, (∀ a ∈ A, ∀ b ∈ B, a.findex ≠ b.findex) →
        ∀ a ∈ B, ∀ b ∈ A, a.findex ≠ b.findex :=
      fun A B h a ha b hb hab => h b hb a ha hab.symm
    exact (ih1 hdisj W).trans (ih2 ((h1.pairwise_iff (fun {A B} h => hsymm A B h)).mp hdisj) W)


theorem inst_stmts_disjoint (batch : List (List SparseEntry × List ℚ))
    (hdisj : batch.Pairwise fun a b => ∀ e ∈ a.1, ∀ e1 ∈ b.1, e.findex ≠ e1.findex) :
    (batch.map inst_stmts).Pairwise fun A B => ∀ a ∈ A, ∀ b ∈ B, a.findex ≠ b.findex := by
  rw [List.pairwise_map]
  refine hdisj.imp ?_
  intro x y h a ha b hb
  obtain ⟨e, he, hea⟩ := inst_stmts_findex x a ha
  obtain ⟨e1, he1, heb⟩ := inst_stmts_findex y b hb
  rw [← hea, ← heb]
  exact h e he e1 he1

theorem sgd_row_length (lr wd value : ℚ) (grad row : List ℚ) (w : Nat)
    (hr : row.length = w) (hg : grad.length = w) : (sgd_row lr wd value grad row).length = w := by
  simp [sgd_row, hr, hg]

/-- The two statements of one entry, executed on a well-formed table, replace the row of the
entry by its update. -/
theorem exec_entry (lr wd : ℚ) (W : List (List ℚ)) (i : Nat) (v : ℚ) (grad : List ℚ) (w : Nat)
    (hi : i < W.length) (hW : ∀ row ∈ W, row.length = w) (hg : grad.length = w) :
    (match exec_stmt lr wd W (SparseStmt.add_grad i v grad) with
      | none => none
      | some W1 => exec_stmt lr wd W1 (SparseStmt.decay i)) =
    some (W.set i (sgd_row lr wd v grad (W.getD i []))) := by
  have hrow : W.get? i = some (W.getD i []) := by
    simp [List.getD, List.getElem?_eq_getElem hi]
  have hlen : (W.getD i []).length = grad.length := by
    rw [hg]
    apply hW
    simp [List.getD, List.getElem?_eq_getElem hi]
  have h1 : exec_stmt lr wd W (SparseStmt.add_grad i v grad) =
      some (W.set i (List.zipWith (fun w g => w + v * (-lr) * g) (W.getD i []) grad)) := by
    simp only [exec_stmt, SparseStmt.findex, hrow, SparseStmt.apply, hlen, if_true]
  rw [h1]
  simp only [exec_stmt, SparseStmt.findex, SparseStmt.apply]
  have h2 : (W.set i (List.zipWith (fun w g => w + v * (-lr) * g) (W.getD i []) grad)).get? i =
      some (List.zipWith (fun w g => w + v * (-lr) * g) (W.getD i []) grad) := by
    simp [List.getElem?_set, hi]
  rw [h2]
  simp only [List.set_set, sgd_row, List.map_zipWith]

theorem set_wf (W : List (List ℚ)) (i : Nat) (r : List ℚ) (w : Nat)
    (hW : ∀ row ∈ W, row.length = w) (hr : r.length = w) :
    ∀ row ∈ W.set i r, row.length = w := by
  intro row hrow
  rcases List.mem_or_eq_of_mem_set hrow with h | h
  · exact hW row h
  · rw [h]
    exact hr

theorem getD_wf (W : List (List ℚ)) (i w : Nat) (hi : i < W.length)
    (hW : ∀ row ∈ W, row.length = w) : (W.getD i []).length = w := by
  apply hW
  simp [List.getD, List.getElem?_eq_getElem hi]

theorem SparseUpdate_line_spec_wf (lr wd : ℚ) (grad : List ℚ) (w : Nat) (hg : grad.length = w)
    (line : List SparseEntry) (W : List (List ℚ))
    (hW : ∀ row ∈ W, row.length = w) (hidx : ∀ e ∈ line, e.findex < W.length) :
    (SparseUpdate_line_spec lr wd grad line W).length = W.length ∧
      ∀ row ∈ SparseUpdate_line_spec lr wd grad line W, row.length = w := by
  induction line generalizing W with
  | nil => exact ⟨rfl, hW⟩
  | cons e es ih =>
    have hi := hidx e (List.mem_cons_self _ _)
    have hW1 := set_wf W e.findex (sgd_row lr wd e.fvalue grad (W.getD e.findex [])) w hW
      (sgd_row_length lr wd e.fvalue grad _ w (getD_wf W e.findex w hi hW) hg)
    have h := ih (W.set e.findex (sgd_row lr wd e.fvalue grad (W.getD e.findex []))) hW1
      (fun e1 he1 => by
        rw [List.length_set]
        exact hidx e1 (List.mem_cons_of_mem _ he1))
    rw [List.length_set] at h
    exact h

/-- On a well-formed table the inner loop of `SparseUpdate` returns the table of the
specification. -/
theorem SparseUpdate_line_refines (lr wd : ℚ) (grad : List ℚ) (w : Nat) (hg : grad.length = w)
    (line : List SparseEntry) (W : List (List ℚ))
    (hW : ∀ row ∈ W, row.length = w) (hidx : ∀ e ∈ line, e.findex < W.length) :
    SparseUpdate_line lr wd grad line W = some (SparseUpdate_line_spec lr wd grad line W) := by
  induction line generalizing W with
  | nil => rfl
  | cons e es ih =>
    have hi := hidx e (List.mem_cons_self _ _)
    have he := exec_entry lr wd W e.findex e.fvalue grad w hi hW hg
    have hW1 := set_wf W e.findex (sgd_row lr wd e.fvalue grad (W.getD e.findex [])) w hW
      (sgd_row_length lr wd e.fvalue grad _ w (getD_wf W e.findex w hi hW) hg)
    have h := ih (W.set e.findex (sgd_row lr wd e.fvalue grad (W.getD e.findex []))) hW1
      (fun e1 he1 => by
        rw [List.length_set]
        exact hidx e1 (List.mem_cons_of_mem _ he1))
    rw [SparseUpdate_line]
    cases h1 : exec_stmt lr wd W (SparseStmt.add_grad e.findex e.fvalue grad) with
    | none => rw [h1] at he; cases he
    | some W1 =>
      rw [h1] at he
      simp only [] at he ⊢
      rw [he]
      exact h

/-- On a well-formed table and batch the loop of `SparseUpdate` returns the table of the
specification. -/
theorem SparseUpdate_refines (lr wd : ℚ) (w : Nat) (batch : List (List SparseEntry × List ℚ))
    (W : List (List ℚ)) (hW : ∀ row ∈ W, row.length = w)
    (hb : ∀ inst ∈ batch, inst.2.length = w ∧ ∀ e ∈ inst.1, e.findex < W.length) :
    SparseUpdate lr wd batch W = some (SparseUpdate_spec lr wd batch W) := by
  induction batch generalizing W with
  | nil => rfl
  | cons inst batch ih =>
    obtain ⟨hg, hidx⟩ := hb inst (List.mem_cons_self _ _)
    have hwf := SparseUpdate_line_spec_wf lr wd inst.2 w hg inst.1 W hW hidx
    rw [SparseUpdate, SparseUpdate_line_refines lr wd inst.2 w hg inst.1 W hW hidx]
    simp only []
    rw [ih _ hwf.2 (fun i1 hi1 => by
      rw [hwf.1]
      exact hb i1 (List.mem_cons_of_mem _ hi1))]
    rfl

theorem disjoint_perm (batch batch1 : List (List SparseEntry × List ℚ))
    (hperm : batch1.Perm batch)
    (hdisj : batch.Pairwise fun a b => ∀ e ∈ a.1, ∀ e1 ∈ b.1, e.findex ≠ e1.findex) :
    batch1.Pairwise fun a b => ∀ e ∈ a.1, ∀ e1 ∈ b.1, e.findex ≠ e1.findex :=
  (hperm.pairwise_iff (fun {_ _} h e he e1 he1 hab => h e1 he1 e he hab.symm)).mpr hdisj

/-- C13: for a batch whose instances reference pairwise disjoint sets of feature indices,
`SparseUpdate` gives the same table `Wsp` (or fails alike) for every order in which the
instances are processed, and so does every execution in which the statements of the instances,
taken in any order, are interleaved among workers, each instance keeping its own order; when
the rows of `Wsp` and the gradient rows have one width and the indices are rows of `Wsp`, all
of them return the table of the sequential loop of the specification, which applies per
nonzero entry `Wsp[idx] += value * (-lr) * grad` and then `Wsp[idx] *= (1 - lr * wd)`. -/
theorem SparseUpdate_order_independent (lr wd : ℚ) (batch : List (List SparseEntry × List ℚ))
    (Wsp : List (List ℚ))
    (hdisj : batch.Pairwise fun a b => ∀ e ∈ a.1, ∀ e1 ∈ b.1, e.findex ≠ e1.findex) :
    (∀ batch1, batch1.Perm batch →
        SparseUpdate lr wd batch1 Wsp = SparseUpdate lr wd batch Wsp) ∧
      (∀ (batch1 : List (List SparseEntry × List ℚ)) (sched : List SparseStmt),
        batch1.Perm batch → Interleaving (batch1.map inst_stmts) sched →
        exec_stmts lr wd sched Wsp = SparseUpdate lr wd batch Wsp) ∧
      (∀ w, (∀ row ∈ Wsp, row.length = w) →
        (∀ inst ∈ batch, inst.2.length = w ∧ ∀ e ∈ inst.1, e.findex < Wsp.length) →
        SparseUpdate lr wd batch Wsp = some (SparseUpdate_spec lr wd batch Wsp)) := by
  have hprog := inst_stmts_disjoint batch hdisj
  have hperm1 : ∀ batch1, batch1.Perm batch →
      SparseUpdate lr wd batch1 Wsp = SparseUpdate lr wd batch Wsp := by
    intro batch1 hperm
    rw [SparseUpdate_eq, SparseUpdate_eq]
    exact (exec_stmts_perm lr wd _ _ (hperm.map inst_stmts).symm hprog Wsp).symm
  refine ⟨hperm1, ?_, ?_⟩
  · intro batch1 sched hperm hsched
    rw [← hperm1 batch1 hperm, SparseUpdate_eq]
    exact exec_stmts_interleaving lr wd _ sched hsched
      (inst_stmts_disjoint batch1 (disjoint_perm batch batch1 hperm hdisj)) Wsp
  · intro w hW hb
    exact SparseUpdate_refines lr wd w batch Wsp hW hb

theorem SparseUpdate_order_independent_witness :
    SparseUpdate (1 / 2) (1 / 4) [([⟨1, 3⟩], [2, 0]), ([⟨0, 2⟩, ⟨2, 1⟩], [1, 1])]
        [[1, 0], [0, 1], [1, 1]] =
      some [[0, -7 / 8], [-21 / 8, 7 / 8], [7 / 16, 7 / 16]] ∧
    exec_stmts (1 / 2) (1 / 4)
        [SparseStmt.add_grad 1 3 [2, 0], SparseStmt.add_grad 0 2 [1, 1], SparseStmt.decay 0,
         SparseStmt.decay 1, SparseStmt.add_grad 2 1 [1, 1], SparseStmt.decay 2]
        [[1, 0], [0, 1], [1, 1]] =
      some [[0, -7 / 8], [-21 / 8, 7 / 8], [7 / 16, 7 / 16]] ∧
    SparseUpdate_spec (1 / 2) (1 / 4) [([⟨0, 2⟩, ⟨2, 1⟩], [1, 1]), ([⟨1, 3⟩], [2, 0])]
        [[1, 0], [0, 1], [1, 1]] =
      [[0, -7 / 8], [-21 / 8, 7 / 8], [7 / 16, 7 / 16]] := by
  have hT : SparseUpdate_spec (1 / 2) (1 / 4)
      [([⟨0, 2⟩, ⟨2, 1⟩], [1, 1]), ([⟨1, 3⟩], [2, 0])] [[1, 0], [0, 1], [1, 1]] =
      [[0, -7 / 8], [-21 / 8, 7 / 8], [7 / 16, 7 / 16]] := by
    norm_num [SparseUpdate_spec, SparseUpdate_line_spec, sgd_row]
  have h := SparseUpdate_order_independent (1 / 2) (1 / 4)
    [([⟨0, 2⟩, ⟨2, 1⟩], [1, 1]), ([⟨1, 3⟩], [2, 0])] [[1, 0], [0, 1], [1, 1]] (by simp)
  have h3 := h.2.2 2 (by simp) (by simp)
  rw [hT] at h3
  refine ⟨(h.1 _ (List.Perm.swap _ _ _)).trans h3, ?_, hT⟩
  refine (h.2.1 [([⟨0, 2⟩, ⟨2, 1⟩], [1, 1]), ([⟨1, 3⟩], [2, 0])] _ (List.Perm.refl _) ?_).trans h3
  exact
    Interleaving.step
      [[SparseStmt.add_grad 0 2 [1, 1], SparseStmt.decay 0, SparseStmt.add_grad 2 1 [1, 1],
        SparseStmt.decay 2]] [] (SparseStmt.add_grad 1 3 [2, 0]) [SparseStmt.decay 1] _
      (Interleaving.step [] [[SparseStmt.decay 1]] (SparseStmt.add_grad 0 2 [1, 1])
        [SparseStmt.decay 0, SparseStmt.add_grad 2 1 [1, 1], SparseStmt.decay 2] _
        (Interleaving.step [] [[SparseStmt.decay 1]] (SparseStmt.decay 0)
          [SparseStmt.add_grad 2 1 [1, 1], SparseStmt.decay 2] _
          (Interleaving.step [[SparseStmt.add_grad 2 1 [1, 1], SparseStmt.decay 2]] []
            (SparseStmt.decay 1) [] _
            (Interleaving.step [] [[]] (SparseStmt.add_grad 2 1 [1, 1])
              [SparseStmt.decay 2] _
              (Interleaving.step [] [[]] (SparseStmt.decay 2) [] _
                (Interleaving.done [[], []] (by simp)))))))

/-! ## The first replay loop of the binding pass -/

theorem NetMetaModel_SetParam_layers (m m1 : NetMetaModel) (name val : String)
    (hrun : m.SetParam name val = some m1) :
    m1.layers = m.layers ∧ m1.param.init_end = m.param.init_end := by
  unfold NetMetaModel.SetParam at hrun
  by_cases h1 : name = "reset_epoch"
  · simp only [h1, if_true] at hrun
    split_ifs at hrun
    · simp only [Option.some.injEq] at hrun
      subst hrun
      exact ⟨rfl, rfl⟩
    · split at hrun
      · cases hrun
      · simp only [Option.some.injEq] at hrun
        subst hrun
        exact ⟨rfl, rfl⟩
    · simp only [Option.some.injEq] at hrun
      subst hrun
      exact ⟨rfl, rfl⟩
  · simp only [h1, if_false] at hrun
    split_ifs at hrun
    · simp only [Option.some.injEq] at hrun
      subst hrun
      exact ⟨rfl, rfl⟩
    · split at hrun
      · cases hrun
      · simp only [Option.some.injEq] at hrun
        subst hrun
        exact ⟨rfl, rfl⟩
    · simp only [Option.some.injEq] at hrun
      subst hrun
      exact ⟨rfl, rfl⟩

theorem SetParam_fields_mode_two (h : NetConfigHelper) (name val : String)
    (h2 : (SetParam_fields h name val).netcfg_mode = 2) : h.netcfg_mode = 2 := by
  unfold SetParam_fields at h2
  simp only [] at h2
  split_ifs at h2 <;> first | exact h2 | simp at h2

/-- One accepted directive on an unfrozen meta-model: a `layer[` directive appends the layer
that `GetLayerInfo` derives from `LastNode()` and is recorded into `netcfg`; another directive
leaves the layers alone and is recorded into `netcfg` only if the mode was already 2. -/
theorem SetParam_unfrozen_step (GetLayerType : String → Option Int) (h h1 : NetConfigHelper)
    (name val : String) (hfree : h.meta.param.init_end = 0)
    (hrun : h.SetParam GetLayerType name val = some h1) :
    h1.meta.param.init_end = 0 ∧
      (isLayerDirective name = true →
        ∃ inf, GetLayerInfo GetLayerType name val h.meta.LastNode = some inf ∧
          h1.meta.layers = h.meta.layers ++ [inf] ∧
          h1.netcfg = h.netcfg ++ [(name, val)] ∧ h1.netcfg_mode = 2) ∧
      (isLayerDirective name = false →
        h1.meta.layers = h.meta.layers ∧
          ((h1.netcfg = h.netcfg ++ [(name, val)] ∧ h.netcfg_mode = 2 ∧ h1.netcfg_mode = 2) ∨
            (h1.netcfg = h.netcfg ∧ h1.netcfg_mode ≠ 2))) := by
  unfold NetConfigHelper.SetParam at hrun
  split at hrun
  · cases hrun
  · rename_i m hm
    obtain ⟨ml, mi⟩ := NetMetaModel_SetParam_layers _ _ _ _ hm
    have f1 := SetParam_fields_cfg { h with meta := m } name val
    have f2 := SetParam_fields_meta { h with meta := m } name val
    split at hrun
    · cases hrun
    · rename_i h6 hl
      obtain ⟨e1, e2, e3⟩ := SetParam_layer_cfg _ _ _ _ _ hl
      by_cases hd : isLayerDirective name = true
      · have hmode6 : h6.netcfg_mode = 2 := by rw [e3, if_pos hd]
        rw [if_pos hmode6] at hrun
        simp only [Option.some.injEq] at hrun
        subst hrun
        unfold SetParam_layer at hl
        rw [if_pos hd] at hl
        simp only [f2] at hl
        rw [if_pos (show m.param.init_end = 0 by rw [mi]; exact hfree)] at hl
        split at hl
        · cases hl
        · rename_i inf hinf
          simp only [Option.some.injEq] at hl
          subst hl
          refine ⟨by show m.param.init_end = 0; rw [mi]; exact hfree, ?_, ?_⟩
          · intro _
            refine ⟨inf, ?_, ?_, ?_, rfl⟩
            · rw [← hinf]
              simp only [NetMetaModel.LastNode, ml]
            · show m.layers ++ [inf] = _
              rw [ml]
            · show (SetParam_fields _ name val).netcfg ++ _ = _
              rw [f1.1]
          · intro hc
            rw [hd] at hc
            cases hc
      · have hl2 := SetParam_layer_other GetLayerType
          (SetParam_fields { h with meta := m } name val) name val (by simpa using hd)
        rw [hl2] at hl
        simp only [Option.some.injEq] at hl
        subst hl
        refine ⟨?_, fun hc => absurd hc hd, fun _ => ?_⟩
        · split_ifs at hrun <;>
            (simp only [Option.some.injEq] at hrun; subst hrun
             show (SetParam_fields _ name val).meta.param.init_end = 0
             rw [f2]; show m.param.init_end = 0; rw [mi]; exact hfree)
        · split_ifs at hrun with hm2
          · simp only [Option.some.injEq] at hrun
            subst hrun
            refine ⟨?_, Or.inl ⟨?_, SetParam_fields_mode_two { h with meta := m } _ _ hm2, hm2⟩⟩
            · show (SetParam_fields _ name val).meta.layers = _
              rw [f2]
              exact ml
            · show (SetParam_fields _ name val).netcfg ++ _ = _
              rw [f1.1]
          · simp only [Option.some.injEq] at hrun
            subst hrun
            refine ⟨?_, Or.inr ⟨?_, hm2⟩⟩
            · show (SetParam_fields _ name val).meta.layers = _
              rw [f2]
              exact ml
            · show (SetParam_fields _ name val).netcfg = _
              rw [f1.1]


theorem getLast_cons_getD (inf : LayerInfo) (infs : List LayerInfo) (top : Int) :
    (((inf :: infs).getLast?).map LayerInfo.nindex_out).getD top =
      ((infs.getLast?).map LayerInfo.nindex_out).getD inf.nindex_out := by
  cases infs with
  | nil => rfl
  | cons a l =>
    obtain ⟨x, hx⟩ : ∃ x, (a :: l).getLast? = some x :=
      Option.isSome_iff_exists.mp (by simp [List.getLast?_isSome])
    rw [List.getLast?_cons_cons, hx]
    rfl

theorem LastNode_eq (m : NetMetaModel) :
    m.LastNode = ((m.layers.getLast?).map LayerInfo.nindex_out).getD 0 := by
  unfold NetMetaModel.LastNode
  cases m.layers.getLast? <;> rfl

/-- Replaying one more directive at the end of a list. -/
theorem replay_infos_snoc (GetLayerType : String → Option Int) (ds : List (String × String))
    (d : String × String) (top : Int) (infs : List LayerInfo)
    (h : replay_infos GetLayerType top ds = some infs) :
    replay_infos GetLayerType top (ds ++ [d]) =
      if isLayerDirective d.1 = true then
        (GetLayerInfo GetLayerType d.1 d.2
          (((infs.getLast?).map LayerInfo.nindex_out).getD top)).map fun inf => infs ++ [inf]
      else some infs := by
  induction ds generalizing top infs with
  | nil =>
    simp only [replay_infos, Option.some.injEq] at h
    subst h
    simp only [List.nil_append, replay_infos, List.getLast?_nil, Option.map_none',
      Option.getD_none]
    split_ifs
    · cases hg : GetLayerInfo GetLayerType d.1 d.2 top <;> simp
    · rfl
  | cons e ds ih =>
    simp only [List.cons_append, replay_infos, List.append_eq] at h ⊢
    by_cases he : isLayerDirective e.1 = true
    · rw [if_pos he] at h ⊢
      cases hg : GetLayerInfo GetLayerType e.1 e.2 top with
      | none =>
        rw [hg] at h
        cases h
      | some inf0 =>
        rw [hg] at h
        simp only [] at h ⊢
        cases hr : replay_infos GetLayerType inf0.nindex_out ds with
        | none =>
          rw [hr] at h
          cases h
        | some infs0 =>
          rw [hr] at h
          simp only [Option.some.injEq] at h
          subst h
          rw [ih inf0.nindex_out infs0 hr, getLast_cons_getD]
          split_ifs
          · cases hg2 : GetLayerInfo GetLayerType d.1 d.2
              (((infs0.getLast?).map LayerInfo.nindex_out).getD inf0.nindex_out) <;> simp
          · rfl
    · rw [if_neg he] at h ⊢
      exact ih top infs h

theorem replay_infos_length (GetLayerType : String → Option Int) (ds : List (String × String))
    (top : Int) (infs : List LayerInfo) (h : replay_infos GetLayerType top ds = some infs) :
    (ds.filter fun d => isLayerDirective d.1).length = infs.length := by
  induction ds generalizing top infs with
  | nil =>
    simp only [replay_infos, Option.some.injEq] at h
    subst h
    rfl
  | cons e ds ih =>
    simp only [replay_infos] at h
    by_cases he : isLayerDirective e.1 = true
    · rw [if_pos he] at h
      split at h
      · cases h
      · rename_i inf0 _
        split at h
        · cases h
        · rename_i infs0 hr
          simp only [Option.some.injEq] at h
          subst h
          simp [List.filter_cons, he, ih _ _ hr]
    · rw [if_neg he] at h
      simp [List.filter_cons, he, ih _ _ h]

/-- What a run of accepted directives on a fresh helper maintains: the topology stays
unfrozen, replaying `netcfg` re-derives exactly the declared layers, `netcfg` starts with a
`layer[` entry, and mode 2 is only reached once `netcfg` is non-empty. -/
theorem SetParams_replay (GetLayerType : String → Option Int) (ds : List (String × String))
    (h h1 : NetConfigHelper) (hfree : h.meta.param.init_end = 0)
    (hreplay : replay_infos GetLayerType 0 h.netcfg = some h.meta.layers)
    (hhead : ∀ d, h.netcfg.head? = some d → isLayerDirective d.1 = true)
    (hmode : h.netcfg_mode = 2 → h.netcfg ≠ [])
    (hrun : SetParams GetLayerType h ds = some h1) :
    h1.meta.param.init_end = 0 ∧
      replay_infos GetLayerType 0 h1.netcfg = some h1.meta.layers ∧
      (∀ d, h1.netcfg.head? = some d → isLayerDirective d.1 = true) := by
  induction ds generalizing h with
  | nil =>
    simp only [SetParams, Option.some.injEq] at hrun
    subst hrun
    exact ⟨hfree, hreplay, hhead⟩
  | cons d ds ih =>
    simp only [SetParams] at hrun
    split at hrun
    · cases hrun
    · rename_i h2 hd
      obtain ⟨s1, s2, s3⟩ := SetParam_unfrozen_step GetLayerType h h2 d.1 d.2 hfree hd
      by_cases hl : isLayerDirective d.1 = true
      · obtain ⟨inf, g1, g2, g3, g4⟩ := s2 hl
        refine ih h2 s1 ?_ ?_ ?_ hrun
        · rw [g3, replay_infos_snoc GetLayerType h.netcfg (d.1, d.2) 0 _ hreplay, if_pos hl,
            ← LastNode_eq, g1, g2]
          rfl
        · intro e he
          rw [g3] at he
          cases hn : h.netcfg with
          | nil =>
            rw [hn] at he
            simp only [List.nil_append, List.head?_cons, Option.some.injEq] at he
            rw [← he]
            exact hl
          | cons a l =>
            rw [hn] at he
            simp only [List.cons_append, List.head?_cons, Option.some.injEq] at he
            exact hhead e (by rw [hn, ← he]; rfl)
        · intro _
          rw [g3]
          simp
      · have hl2 : isLayerDirective d.1 = false := by simpa using hl
        obtain ⟨g1, g2⟩ := s3 hl2
        rcases g2 with ⟨g3, g4, _⟩ | ⟨g3, g4⟩
        · have hne := hmode g4
          refine ih h2 s1 ?_ ?_ ?_ hrun
          · rw [g3, replay_infos_snoc GetLayerType h.netcfg (d.1, d.2) 0 _ hreplay, if_neg hl,
              g1]
          · intro e he
            rw [g3] at he
            cases hn : h.netcfg with
            | nil => exact absurd hn hne
            | cons a l =>
              rw [hn] at he
              simp only [List.cons_append, List.head?_cons, Option.some.injEq] at he
              exact hhead e (by rw [hn, ← he]; rfl)
          · intro _
            rw [g3]
            simp
        · refine ih h2 s1 ?_ ?_ ?_ hrun
          · rw [g3, g1]
            exact hreplay
          · rw [g3]
            exact hhead
          · intro hc
            exact absurd hc g4


theorem layer_SetParam_ok (layers : List LayerLog) (i : Int) (d : String × String)
    (h0 : 0 ≤ i) (h1 : i.toNat < layers.length) :
    ∃ l1, layer_SetParam layers i d = some l1 ∧ l1.length = layers.length := by
  unfold layer_SetParam
  rw [if_pos ⟨h0, h1⟩]
  exact ⟨_, rfl, by simp⟩

theorem layer_SetParams_ok (cfg : List (String × String)) (layers : List LayerLog) (i : Int)
    (h0 : 0 ≤ i) (h1 : i.toNat < layers.length) :
    ∃ l1, layer_SetParams layers i cfg = some l1 ∧ l1.length = layers.length := by
  induction cfg generalizing layers with
  | nil => exact ⟨layers, rfl, rfl⟩
  | cons d cfg ih =>
    obtain ⟨l1, e1, e2⟩ := layer_SetParam_ok layers i d h0 h1
    obtain ⟨l2, e3, e4⟩ := ih l1 (by rw [e2]; exact h1)
    exact ⟨l2, by simp only [layer_SetParams, e1, e3], e4.trans e2⟩

/-- The first replay loop passes all its assertions from a state in which `done` layers have
been bound, when replaying the rest of `netcfg` derives the remaining layers. -/
theorem ConfigLayers_loop_ok (GetLayerType : String → Option Int) (h : NetConfigHelper)
    (rest : List (String × String)) (s : BindState) (done infs : List LayerInfo)
    (hlayers : h.meta.layers = done ++ infs)
    (hnum : h.meta.param.num_layers = ((done ++ infs).length : Int))
    (hindex : s.layer_index = (done.length : Int) - 1)
    (hobjs : s.layers.length = (done ++ infs).length)
    (hreplay : replay_infos GetLayerType s.top_node rest = some infs)
    (hhead : done = [] → ∀ d, rest.head? = some d → isLayerDirective d.1 = true) :
    ∃ s1, ConfigLayers_loop GetLayerType h s rest = some s1 := by
  induction rest generalizing s done infs with
  | nil => exact ⟨s, rfl⟩
  | cons d rest ih =>
    simp only [replay_infos] at hreplay
    simp only [ConfigLayers_loop, ConfigLayers_step]
    by_cases hl : isLayerDirective d.1 = true
    · rw [if_pos hl] at hreplay
      cases hg : GetLayerInfo GetLayerType d.1 d.2 s.top_node with
      | none =>
        rw [hg] at hreplay
        cases hreplay
      | some inf =>
        rw [hg] at hreplay
        simp only [] at hreplay
        cases hr : replay_infos GetLayerType inf.nindex_out rest with
        | none =>
          rw [hr] at hreplay
          cases hreplay
        | some infs1 =>
          rw [hr] at hreplay
          simp only [Option.some.injEq] at hreplay
          subst hreplay
          have hidx : s.layer_index + 1 = (done.length : Int) := by omega
          have hrange : s.layer_index + 1 ≥ 0 ∧ s.layer_index + 1 < h.meta.param.num_layers := by
            rw [hnum, hidx]
            simp
          have hget : h.meta.layers.get? (s.layer_index + 1).toNat = some inf := by
            rw [hidx, hlayers, Int.toNat_ofNat, List.get?_eq_getElem?,
              List.getElem?_append_right (le_refl _)]
            simp
          have hlen : (s.layer_index + 1).toNat < s.layers.length := by
            rw [hidx, hobjs]
            simp
          obtain ⟨l1, e1, e2⟩ := layer_SetParams_ok h.defcfg s.layers (s.layer_index + 1)
            hrange.1 hlen
          rw [if_pos hl, if_pos hrange]
          simp only [hg, hget, if_true, e1]
          exact ih { layer_index := s.layer_index + 1, top_node := inf.nindex_out, layers := l1 }
            (done ++ [inf]) infs1 (by rw [hlayers]; simp) (by rw [hnum]; simp)
            (by simp; omega) (by rw [e2, hobjs]; simp) hr (by simp)
    · rw [if_neg hl] at hreplay
      have hdone : done ≠ [] := by
        intro hc
        exact hl (hhead hc d rfl)
      have hpos : 0 < done.length := List.length_pos.mpr hdone
      have hge : s.layer_index ≥ 0 := by omega
      have hlen : s.layer_index.toNat < s.layers.length := by
        rw [hindex, hobjs]
        simp
        omega
      obtain ⟨l1, e1, e2⟩ := layer_SetParam_ok s.layers s.layer_index d hge hlen
      rw [if_neg hl, if_pos hge]
      simp only [e1]
      exact ih { s with layers := l1 } done infs hlayers hnum hindex (by rw [← hobjs]; exact e2)
        hreplay (fun hc => absurd hc hdone)


/-- C16: let a directive sequence be accepted by `SetParam` on a fresh helper, then
`InitModel` be called, and one layer object exist per declared layer.  Then the first replay
loop of `ConfigLayers` passes all its assertions, the first entry of `netcfg` is a `layer[`
directive, `netcfg` has `num_layers` such entries, and the `LayerInfo` values re-derived from
them are, in order, the declared layers. -/
theorem ConfigLayers_loop_no_abort (GetLayerType : String → Option Int) (garbage : Param)
    (ds : List (String × String)) (h : NetConfigHelper) (objs : List LayerLog)
    (hrun : SetParams GetLayerType (NetConfigHelper.ctor (NetMetaModel.fresh garbage)) ds
      = some h)
    (hobjs : objs.length = h.meta.layers.length) :
    (∃ s, ConfigLayers_loop GetLayerType { h with meta := h.meta.InitModel }
        { layer_index := -1, top_node := 0, layers := objs } h.netcfg = some s) ∧
      (∀ d, h.netcfg.head? = some d → isLayerDirective d.1 = true) ∧
      ((h.netcfg.filter fun d => isLayerDirective d.1).length : Int)
        = h.meta.InitModel.param.num_layers ∧
      replay_infos GetLayerType 0 h.netcfg = some h.meta.InitModel.layers := by
  obtain ⟨_, hreplay, hhead⟩ := SetParams_replay GetLayerType ds
    (NetConfigHelper.ctor (NetMetaModel.fresh garbage)) h rfl rfl
    (fun d hd => by simp [NetConfigHelper.ctor] at hd)
    (fun hc => by simp [NetConfigHelper.ctor] at hc) hrun
  refine ⟨?_, hhead, ?_, hreplay⟩
  · exact ConfigLayers_loop_ok GetLayerType { h with meta := h.meta.InitModel } h.netcfg
      { layer_index := -1, top_node := 0, layers := objs } [] h.meta.layers rfl rfl
      (by simp) (by simpa using hobjs) hreplay (fun _ => hhead)
  · rw [replay_infos_length GetLayerType h.netcfg 0 _ hreplay]
    rfl

theorem ConfigLayers_loop_no_abort_witness :
    (∃ s, ConfigLayers_loop example_GetLayerType
        ⟨⟨⟨2, 2, ⟨200, 1, 1⟩, 1, 0, 0⟩, [⟨1, 0, 1⟩, ⟨2, 1, 1⟩]⟩, "sgd",
          [("layer[+1]", "fullc:fc1"), ("nhidden", "10"), ("layer[+0]", "softmax")],
          [("input_shape", "1,1,200"), ("netconfig", "end"), ("eta", "0.1")], 100, 0⟩
        { layer_index := -1, top_node := 0, layers := [[], []] }
        [("layer[+1]", "fullc:fc1"), ("nhidden", "10"), ("layer[+0]", "softmax")] = some s) ∧
      (∀ d, [("layer[+1]", "fullc:fc1"), ("nhidden", "10"), ("layer[+0]", "softmax")].head?
        = some d → isLayerDirective d.1 = true) ∧
      ((([("layer[+1]", "fullc:fc1"), ("nhidden", "10"), ("layer[+0]", "softmax")] :
        List (String × String)).filter fun d => isLayerDirective d.1).length : Int) = 2 ∧
      replay_infos example_GetLayerType 0
        [("layer[+1]", "fullc:fc1"), ("nhidden", "10"), ("layer[+0]", "softmax")]
        = some [⟨1, 0, 1⟩, ⟨2, 1, 1⟩] :=
  ConfigLayers_loop_no_abort example_GetLayerType example_storage
    [("input_shape", "1,1,200"), ("layer[+1]", "fullc:fc1"), ("nhidden", "10"),
     ("layer[+0]", "softmax"), ("netconfig", "end"), ("eta", "0.1")]
    ⟨⟨⟨7, 2, ⟨200, 1, 1⟩, 0, 0, 0⟩, [⟨1, 0, 1⟩, ⟨2, 1, 1⟩]⟩, "sgd",
      [("layer[+1]", "fullc:fc1"), ("nhidden", "10"), ("layer[+0]", "softmax")],
      [("input_shape", "1,1,200"), ("netconfig", "end"), ("eta", "0.1")], 100, 0⟩
    [[], []] (by decide) rfl

/-! ## Writers of the nodes -/

theorem GetLayerInfo_rel_name_out (GetLayerType : String → Option Int) (B : Int) (val : String)
    (top_node : Int) (inf : LayerInfo)
    (h : GetLayerInfo GetLayerType (layer_rel_name B) val top_node = some inf) :
    inf.nindex_in = top_node ∧ inf.nindex_out = top_node + scanned_int B := by
  simp only [GetLayerInfo, sscanf_layer_abs_rel_name, sscanf_layer_rel_name] at h
  split at h
  · cases h
  · split at h
    · cases h
    · simp only [Option.some.injEq] at h
      subst h
      exact ⟨rfl, Int.add_comm _ _⟩

theorem chain_outputs_last (n : Nat) :
    ((((List.range n).map fun (i : Nat) => (i : Int) + 1).getLast?).getD 0) = (n : Int) := by
  cases n with
  | zero => rfl
  | succ n => simp [List.range_succ]

/-- A run of accepted directives whose layer directives are all `layer[+1]` keeps the output
indices of the declared layers equal to `1, 2, ..., n`. -/
theorem SetParams_chain (GetLayerType : String → Option Int) (ds : List (String × String))
    (h h1 : NetConfigHelper) (hfree : h.meta.param.init_end = 0)
    (hchain : h.meta.layers.map LayerInfo.nindex_out =
      (List.range h.meta.layers.length).map fun (i : Nat) => (i : Int) + 1)
    (hrel : ∀ d ∈ ds, isLayerDirective d.1 = true → d.1 = layer_rel_name 1)
    (hrun : SetParams GetLayerType h ds = some h1) :
    h1.meta.layers.map LayerInfo.nindex_out =
      (List.range h1.meta.layers.length).map fun (i : Nat) => (i : Int) + 1 := by
  induction ds generalizing h with
  | nil =>
    simp only [SetParams, Option.some.injEq] at hrun
    subst hrun
    exact hchain
  | cons d ds ih =>
    simp only [SetParams] at hrun
    split at hrun
    · cases hrun
    · rename_i h2 hd
      obtain ⟨s1, s2, s3⟩ := SetParam_unfrozen_step GetLayerType h h2 d.1 d.2 hfree hd
      refine ih h2 s1 ?_ (fun e he => hrel e (List.mem_cons_of_mem _ he)) hrun
      by_cases hl : isLayerDirective d.1 = true
      · obtain ⟨inf, g1, g2, _, _⟩ := s2 hl
        rw [hrel d (List.mem_cons_self _ _) hl] at g1
        have hout := (GetLayerInfo_rel_name_out GetLayerType 1 d.2 _ inf g1).2
        rw [scanned_int_of_range 1 (by decide) (by decide)] at hout
        have hlast : h.meta.LastNode = (h.meta.layers.length : Int) := by
          rw [LastNode_eq, ← List.getLast?_map, hchain, chain_outputs_last]
        rw [g2, List.map_append, hchain, List.length_append, List.length_singleton,
          List.range_succ, List.map_append, List.map_singleton, List.map_singleton, hout, hlast]
      · obtain ⟨g1, _⟩ := s3 (by simpa using hl)
        rw [g1]
        exact hchain


/-- C11, counterexample: the accepted sequence `layer[+1]`, `layer[+0]` declares two layers
with `nindex_out = 1` (the second one works in place); `layer[0->0]` declares a layer that
writes node 0, and after `layer[+2]` alone node 1 has no writer although `num_nodes = 3`. -/
theorem single_writer_counterexample :
    (∃ h, SetParams example_GetLayerType
        (NetConfigHelper.ctor (NetMetaModel.fresh example_storage))
        [("layer[+1]", "fullc"), ("layer[+0]", "softmax")] = some h ∧
      h.meta.InitModel.layers = [⟨1, 0, 1⟩, ⟨2, 1, 1⟩] ∧
      ¬ (h.meta.InitModel.layers.map LayerInfo.nindex_out).Nodup) ∧
    (∃ h, SetParams example_GetLayerType
        (NetConfigHelper.ctor (NetMetaModel.fresh example_storage))
        [("layer[0->0]", "fullc")] = some h ∧
      h.meta.InitModel.layers = [⟨1, 0, 0⟩]) ∧
    (∃ h, SetParams example_GetLayerType
        (NetConfigHelper.ctor (NetMetaModel.fresh example_storage))
        [("layer[+2]", "fullc")] = some h ∧
      h.meta.InitModel.layers = [⟨1, 0, 2⟩] ∧ h.meta.InitModel.param.num_nodes = 3 ∧
      (h.meta.InitModel.layers.map LayerInfo.nindex_out).count 1 = 0) :=
  ⟨⟨_, rfl, rfl, by decide⟩, ⟨_, rfl, rfl⟩, ⟨_, rfl, rfl, rfl, by decide⟩⟩

/-- C11, amended: for every directive sequence accepted by `SetParam` on a fresh helper in
which every `layer[` directive is the relative reference `layer[+1]`, after `InitModel` no two
layers have the same `nindex_out`, no layer has `nindex_out = 0`, and every node index `k` with
`1 <= k < num_nodes` is the `nindex_out` of exactly one layer. -/
theorem single_writer_chain (GetLayerType : String → Option Int) (garbage : Param)
    (ds : List (String × String)) (h : NetConfigHelper)
    (hrel : ∀ d ∈ ds, isLayerDirective d.1 = true → d.1 = layer_rel_name 1)
    (hrun : SetParams GetLayerType (NetConfigHelper.ctor (NetMetaModel.fresh garbage)) ds
      = some h) :
    (h.meta.InitModel.layers.map LayerInfo.nindex_out).Nodup ∧
      (∀ l ∈ h.meta.InitModel.layers, l.nindex_out ≠ 0) ∧
      ∀ k : Int, 1 ≤ k → k < h.meta.InitModel.param.num_nodes →
        (h.meta.InitModel.layers.map LayerInfo.nindex_out).count k = 1 := by
  have hchain := SetParams_chain GetLayerType ds
    (NetConfigHelper.ctor (NetMetaModel.fresh garbage)) h rfl rfl hrel hrun
  have hinj : Function.Injective fun (i : Nat) => (i : Int) + 1 := by
    intro a b hab
    simp only [add_left_inj, Nat.cast_inj] at hab
    exact hab
  have hnodup : (h.meta.layers.map LayerInfo.nindex_out).Nodup := by
    rw [hchain]
    exact (List.nodup_range _).map hinj
  have hmem : ∀ l ∈ h.meta.layers, ∃ i : Nat, i < h.meta.layers.length ∧
      l.nindex_out = (i : Int) + 1 := by
    intro l hl
    have : l.nindex_out ∈ h.meta.layers.map LayerInfo.nindex_out := List.mem_map_of_mem _ hl
    rw [hchain, List.mem_map] at this
    obtain ⟨i, hi, he⟩ := this
    exact ⟨i, List.mem_range.mp hi, he.symm⟩
  refine ⟨hnodup, ?_, ?_⟩
  · intro l hl
    obtain ⟨i, _, he⟩ := hmem l hl
    show l.nindex_out ≠ 0
    omega
  · intro k hk1 hk2
    have hk3 : k ≤ (h.meta.layers.length : Int) := by
      have hk2a : k < InitModel_loop h.meta.layers 0 := hk2
      rcases InitModel_loop_attained h.meta.layers 0 with h0 | ⟨l, hl, he⟩
      · omega
      · obtain ⟨i, hi, hio⟩ := hmem l hl
        omega
    apply List.count_eq_one_of_mem hnodup
    show k ∈ h.meta.layers.map LayerInfo.nindex_out
    rw [hchain, List.mem_map]
    refine ⟨(k - 1).toNat, List.mem_range.mpr ?_, ?_⟩
    · omega
    · show (((k - 1).toNat : Nat) : Int) + 1 = k
      omega

theorem single_writer_chain_witness :
    (([⟨1, 0, 1⟩, ⟨2, 1, 2⟩] : List LayerInfo).map LayerInfo.nindex_out).Nodup ∧
      (∀ l ∈ ([⟨1, 0, 1⟩, ⟨2, 1, 2⟩] : List LayerInfo), l.nindex_out ≠ 0) ∧
      ∀ k : Int, 1 ≤ k → k < 3 →
        (([⟨1, 0, 1⟩, ⟨2, 1, 2⟩] : List LayerInfo).map LayerInfo.nindex_out).count k = 1 :=
  single_writer_chain example_GetLayerType example_storage
    [("input_shape", "1,1,4"), ("layer[+1]", "fullc:fc1"), ("nhidden", "3"),
     ("layer[+1]", "softmax")]
    ⟨⟨⟨7, 2, ⟨4, 1, 1⟩, 0, 0, 0⟩, [⟨1, 0, 1⟩, ⟨2, 1, 2⟩]⟩, "sgd",
      [("layer[+1]", "fullc:fc1"), ("nhidden", "3"), ("layer[+1]", "softmax")],
      [("input_shape", "1,1,4")], 100, 2⟩
    (by decide) (by decide)

/-! ## What `Inference` writes -/

/-- Whenever `Inference` returns, the values it appends to the stream after the header are
those of `nodes[stop_layer]`, the node whose index is the number `stop_layer` itself. -/
theorem Inference_stream (forward : Nat → Bool → Node → Node → Node) (infos : List LayerInfo)
    (nodes : List Node) (stop_layer total_length header_flag : Int) (fo : List OutCell)
    (flag : Int) (fo1 : List OutCell) (nodes1 : List Node)
    (h : Inference forward infos nodes stop_layer total_length header_flag fo
      = some (flag, fo1, nodes1)) :
    ∃ node, nodes1.get? stop_layer.toNat = some node ∧
      fo1 = fo ++ (if header_flag = 0
        then [OutCell.int total_length, OutCell.int (node.shape.s0 : Int)] else [])
        ++ Inference_values node := by
  unfold Inference at h
  by_cases hc : stop_layer < (infos.length : Int) ∧ stop_layer > 0
  · rw [if_pos hc] at h
    cases hl : Inference_loop forward infos 0 (stop_layer + 1).toNat nodes with
    | none => rw [hl] at h; simp at h
    | some n1 =>
      rw [hl] at h
      dsimp only at h
      cases hn : n1.get? stop_layer.toNat with
      | none => rw [hn] at h; simp at h
      | some node =>
        rw [hn] at h
        dsimp only at h
        by_cases hm : node.shape.s2 = 1 ∧ node.shape.s3 = 1
        · rw [if_pos hm] at h
          simp only [Option.some.injEq, Prod.mk.injEq] at h
          obtain ⟨-, hfo, hnodes⟩ := h
          subst hnodes
          exact ⟨node, hn, hfo.symm⟩
        · rw [if_neg hm] at h; simp at h
  · rw [if_neg hc] at h; simp at h

/-- C15, the code at the failing input: in the chain `0 -> 1 -> 2 -> 3` of three layers with
`stop_layer = 1`, `Inference` runs the layers 0 and 1 and writes the header followed by `2, 3`,
the content of `nodes[1]`; the output node of layer 1 is `nodes[2]`, which holds `3, 4`. -/
theorem Inference_writes_node_stop_layer :
    ∃ nodes1, Inference example_forward [⟨1, 0, 1⟩, ⟨1, 1, 2⟩, ⟨1, 2, 3⟩] example_nodes 1 5 0 []
        = some (1, [OutCell.int 5, OutCell.int 2, OutCell.real 2, OutCell.real 3], nodes1) ∧
      (nodes1.get? 1).map Node.data = some [[2, 3]] ∧
      (([⟨1, 0, 1⟩, ⟨1, 1, 2⟩, ⟨1, 2, 3⟩] : List LayerInfo).get? 1).map LayerInfo.nindex_out
        = some 2 ∧
      (nodes1.get? 2).map Node.data = some [[3, 4]] ∧
      (nodes1.get? 2).map Inference_values = some [OutCell.real 3, OutCell.real 4] := by
  refine ⟨[⟨Shape4 1 1 1 2, [[1, 2]]⟩, ⟨Shape4 1 1 1 2, [[2, 3]]⟩, ⟨Shape4 1 1 1 2, [[3, 4]]⟩,
    ⟨Shape4 1 1 1 2, [[0, 0]]⟩], ?_, rfl, rfl, rfl, ?_⟩
  · have h2 : Int.toNat 2 = 2 := rfl
    norm_num [Inference, Inference_loop, layer_Forward, example_forward, example_nodes,
      Inference_values, Shape4, List.range, List.range.loop, h2]
  · norm_num [Inference_values, Shape4, List.range, List.range.loop]

end cxxnet
